import Mathlib

/-!
Flash programming algorithm for the STM32WBAx internal flash

A shallow embedding of `CMSIS/Flash/STM32WBAxx/FlashPrg.c` (built for `FLASH_MEM`,
without `FLASH_OPT`) and the properties of its five entry points.

Modelling conventions

* `unsigned long` is the 32-bit type of the target (the source itself names it `u32`):
  values are naturals and every operation that can leave the range is reduced
  modulo `2 ^ 32`.
* The flash controller's registers are a map from register names to the value last
  stored in them; a read of a key, control, option or block-based register returns that
  value.
* The two status registers are driven by the hardware: every read of a status register
  takes the next value of `State.hw`, the list of values the controller presents to the
  successive status reads. When the list is used up the controller is idle and presents
  `0` (not busy, no flag). A busy flag that never clears (a hang) is the one behaviour
  that lies outside the model.
* Memory reached through `M32` and through byte pointers (the flash array, the SAU
  registers) is a byte store.
* Every access that matters to the outside is appended to `State.trace`.
-/

namespace FlashPrg

/-- The modulus of `unsigned long` arithmetic. -/
def W32 : Nat := 4294967296

/-- A byte of memory (`unsigned char`). -/
abbrev Byte := Fin 256

/-! ## Constants of the source -/

def FLASH_KEY1 : Nat := 0x45670123
def FLASH_KEY2 : Nat := 0xCDEF89AB

def FLASH_PG : Nat := 1 <<< 0
def FLASH_PER : Nat := 1 <<< 1
def FLASH_MER1 : Nat := 1 <<< 2
def FLASH_MER2 : Nat := 1 <<< 15
def FLASH_BKER : Nat := 1 <<< 11
def FLASH_STRT : Nat := 1 <<< 16
def FLASH_LOCK : Nat := 1 <<< 31

def FLASH_EOP : Nat := 1 <<< 0
def FLASH_OPERR : Nat := 1 <<< 1
def FLASH_PROGERR : Nat := 1 <<< 3
def FLASH_WRPERR : Nat := 1 <<< 4
def FLASH_PGAERR : Nat := 1 <<< 5
def FLASH_SIZERR : Nat := 1 <<< 6
def FLASH_PGSERR : Nat := 1 <<< 7
def FLASH_OPTWERR : Nat := 1 <<< 13
def FLASH_BSY : Nat := 1 <<< 16

def FLASH_PGERR : Nat :=
  FLASH_EOP ||| FLASH_OPERR ||| FLASH_PROGERR ||| FLASH_WRPERR ||| FLASH_PGAERR |||
    FLASH_SIZERR ||| FLASH_PGSERR ||| FLASH_OPTWERR

def FLASH_OPTR_RDP : Nat := 0xFF
def FLASH_OPTR_RDP_55 : Nat := 0x55
def FLASH_OPTR_TZEN : Nat := 1 <<< 31

/-! ## Machine state -/

/-- The registers of `FLASH_TypeDef` that the algorithm touches. -/
inductive Reg
  | NSKEYR | SECKEYR | NSSR | SECSR | NSCR1 | SECCR1 | OPTR
  | SECBBR1 | SECBBR2 | SECBBR3 | SECBBR4
  | SECBB2R1 | SECBB2R2 | SECBB2R3 | SECBB2R4
  deriving DecidableEq, Repr

/-- What the algorithm does that is visible from outside, in program order. -/
inductive Event
  /-- A read of a status register inside a `while (SR & FLASH_BSY)` loop. -/
  | poll (r : Reg) (v : Nat)
  /-- A read of a status register in an error test. -/
  | check (r : Reg) (v : Nat)
  /-- A store to a register of the flash controller. -/
  | wr (r : Reg) (v : Nat)
  /-- The 32-bit store `M32(a) = v`. -/
  | store32 (a v : Nat)
  /-- A byte read from the caller buffer, at the given offset from `buf`. -/
  | bufRead (off : Nat)
  /-- The call `__disable_irq()`. -/
  | irqOff
  /-- The barrier `DSB()`. -/
  | dsb
  deriving DecidableEq, Repr

/-- The state of the machine as far as the algorithm is concerned. -/
structure State where
  /-- Value last stored in each register of the flash controller. -/
  regs : Reg → Nat
  /-- The word `DBGMCU->IDCODE`. -/
  idcode : Nat
  /-- The word at `FLASHSIZE_BASE = 0x0BFA07A0`. -/
  flashsize : Nat
  /-- The word at `0xBF907A0`. -/
  desc0BF907A0 : Nat
  /-- Byte-addressed memory (flash array, SAU registers). -/
  mem : Nat → Byte
  /-- Values the hardware presents to the coming status-register reads. -/
  hw : List Nat
  /-- Accesses performed so far. -/
  trace : List Event

/-- Complement of a 32-bit value (`~x`). -/
def not32 (x : Nat) : Nat := (W32 - 1) ^^^ (x % W32)

/-- Wrapping 32-bit subtraction. -/
def sub32 (x y : Nat) : Nat := (x % W32 + W32 - y % W32) % W32

/-- Wrapping 32-bit addition. -/
def add32 (x y : Nat) : Nat := (x + y) % W32

/-- Appends an event to the trace. -/
def State.log (st : State) (e : Event) : State :=
  { st with trace := st.trace ++ [e] }

/-- The store `FLASH->r = v`. -/
def State.wr (st : State) (r : Reg) (v : Nat) : State :=
  { st with regs := Function.update st.regs r v, trace := st.trace ++ [Event.wr r v] }

/-- The update `FLASH->r |= v`. -/
def State.setBits (st : State) (r : Reg) (v : Nat) : State :=
  st.wr r (st.regs r ||| v)

/-- The update `FLASH->r &= ~v`. -/
def State.clearBits (st : State) (r : Reg) (v : Nat) : State :=
  st.wr r (st.regs r &&& not32 v)

/-- The value the hardware presents to the next status read. -/
def State.nextStatus (st : State) : Nat := st.hw.headD 0

/-- Byte `i` of the little-endian 32-bit word `w`. -/
def byteOf (w i : Nat) : Byte := ⟨(w / 256 ^ i) % 256, Nat.mod_lt _ (by decide)⟩

/-- The little-endian word `*((u32 *) p)` made of the four bytes `t 0 .. t 3`. -/
def word32 (t : Nat → Byte) : Nat :=
  (t 0).val + 256 * (t 1).val + 65536 * (t 2).val + 16777216 * (t 3).val

/-- The store `M32(a) = v`. -/
def State.M32 (st : State) (a v : Nat) : State :=
  { st with
    mem := fun x => if a ≤ x ∧ x < a + 4 then byteOf v (x - a) else st.mem x,
    trace := st.trace ++ [Event.store32 a v] }

/-- The loop `while (FLASH->sr & FLASH_BSY);`: the events it produces and the hardware
values left for later reads. It reads the status register until a value has the busy
flag clear. -/
def pollBusy (sr : Reg) : List Nat → List Event × List Nat
  | [] => ([Event.poll sr 0], [])
  | v :: rest =>
    if v &&& FLASH_BSY ≠ 0 then
      (Event.poll sr v :: (pollBusy sr rest).1, (pollBusy sr rest).2)
    else ([Event.poll sr v], rest)

/-- The statement `while (FLASH->sr & FLASH_BSY);`. -/
def State.waitNotBusy (st : State) (sr : Reg) : State :=
  { st with hw := (pollBusy sr st.hw).2, trace := st.trace ++ (pollBusy sr st.hw).1 }

/-- One read of the status register `sr` in an error test. -/
def State.readStatus (st : State) (sr : Reg) : Nat × State :=
  (st.nextStatus,
    { st with hw := st.hw.tail, trace := st.trace ++ [Event.check sr st.nextStatus] })

/-- The byte reads `buf[off] .. buf[off + n - 1]` of the caller buffer. -/
def State.logReads (st : State) (off n : Nat) : State :=
  { st with trace := st.trace ++ (List.range n).map (fun i => Event.bufRead (off + i)) }

/-! ## Device topology -/

/-- The function `GetFlashSecureMode`: `(FLASH->OPTR & FLASH_OPTR_TZEN) ? 1U : 0U`. -/
def GetFlashSecureMode (st : State) : Nat :=
  if st.regs Reg.OPTR &&& FLASH_OPTR_TZEN ≠ 0 then 1 else 0

/-- The function `GetFlashBank`: `(((flashSize & 0xFFFF) * 0x400) / 2) + 0x8000000`, the
base address of the second bank. The product is below `2 ^ 26`, nothing wraps. -/
def GetFlashBank (st : State) : Nat :=
  ((st.flashsize &&& 0xFFFF) * 0x400) / 2 + 0x8000000

/-- The function `GetFlashSize`: `(flashSize & 0xFFFF) * 0x400`, the flash size in
bytes. -/
def GetFlashSize (st : State) : Nat :=
  (st.flashsize &&& 0xFFFF) * 0x400

/-- The function `GetFlashType`: 1 (dual bank) for the device code `0x4B0`, 0 (single
bank) for `0x492`, and 1 for any other code. -/
def GetFlashType (st : State) : Nat :=
  if st.idcode &&& 0xFFF = 0x4B0 then 1
  else if st.idcode &&& 0xFFF = 0x492 then 0
  else 1

/-- The function `PNBMASK_val`: the number of sectors of a bank minus one, a 32-bit
subtraction that wraps when the number of sectors is 0. -/
def PNBMASK_val (st : State) : Nat :=
  if GetFlashType st = 0 then
    sub32 (((st.desc0BF907A0 &&& 0xFFF) * 0x400) / 0x2000) 1
  else if GetFlashSize st < 0x200000 ∧ st.regs Reg.OPTR &&& 0x200000 = 0 then
    sub32 (((st.desc0BF907A0 &&& 0xFFF) * 0x400) / 0x2000) 1
  else
    sub32 ((((st.flashsize &&& 0xFFFF) * 0x400) / 2) / 0x2000) 1

/-- The test every entry point makes to pick the register set:
`(GetFlashSecureMode() == 0U) || ((FLASH->OPTR & FLASH_OPTR_RDP) == FLASH_OPTR_RDP_55)`. -/
def nonSecure (st : State) : Bool :=
  GetFlashSecureMode st == 0 || (st.regs Reg.OPTR &&& FLASH_OPTR_RDP) == FLASH_OPTR_RDP_55

/-- Status register of the branch taken. In `UnInit`, `EraseChip` and `EraseSector` the
two branches of the source are the same text up to the names of the status and control
register, and the model has them once, with `activeSR` and `activeCR`. -/
def activeSR (ns : Bool) : Reg := if ns then Reg.NSSR else Reg.SECSR

/-- Control register of the branch taken. -/
def activeCR (ns : Bool) : Reg := if ns then Reg.NSCR1 else Reg.SECCR1

/-! ## Init, UnInit, EraseChip -/

/-- The function `Init`; the result is the return value and the final state. -/
def Init (st : State) (adr clk fnc : Nat) : Nat × State :=
  let st := st.log Event.irqOff
  if nonSecure st then
    let st :=
      if st.regs Reg.NSCR1 &&& FLASH_LOCK ≠ 0 then
        (st.wr Reg.NSKEYR FLASH_KEY1).wr Reg.NSKEYR FLASH_KEY2
      else st
    (0, st.waitNotBusy Reg.NSSR)
  else
    let st := st.wr Reg.SECBBR1 0xffffffff
    let st := st.wr Reg.SECBBR2 0xffffffff
    let st := st.wr Reg.SECBBR3 0xffffffff
    let st := st.wr Reg.SECBBR4 0xffffffff
    let st :=
      if GetFlashType st = 1 then
        (((st.wr Reg.SECBB2R1 0xFFFFFFFF).wr Reg.SECBB2R2 0xFFFFFFFF).wr
          Reg.SECBB2R3 0xFFFFFFFF).wr Reg.SECBB2R4 0xFFFFFFFF
      else st
    let st :=
      if st.regs Reg.SECCR1 &&& FLASH_LOCK ≠ 0 then
        (st.wr Reg.SECKEYR FLASH_KEY1).wr Reg.SECKEYR FLASH_KEY2
      else st
    let st := st.waitNotBusy Reg.SECSR
    let st := st.M32 0xE000EDD8 0x0
    let st := st.M32 0xE000EDDC 0x0BFA0700
    let st := st.M32 0xE000EDE0 0x0BFA08E1
    let st := st.M32 0xE000EDD0 0x1
    (0, st)

/-- The function `UnInit` (built without `FLASH_OPT`). -/
def UnInit (st : State) (fnc : Nat) : Nat × State :=
  let st := st.setBits (activeCR (nonSecure st)) FLASH_LOCK
  (0, st.log Event.dsb)

/-- The four statements `CR |= mer; CR |= FLASH_STRT; while (SR & FLASH_BSY); CR &= ~mer;`
that erase one bank. -/
def massErase (st : State) (sr cr : Reg) (mer : Nat) : State :=
  let st := st.setBits cr mer
  let st := st.setBits cr FLASH_STRT
  let st := st.waitNotBusy sr
  st.clearBits cr mer

/-- The function `EraseChip` (the one built for `FLASH_MEM`). -/
def EraseChip (st : State) : Nat × State :=
  let sr := activeSR (nonSecure st)
  let cr := activeCR (nonSecure st)
  let st := st.waitNotBusy sr
  let st := st.wr sr FLASH_PGAERR
  let st :=
    if GetFlashType st = 1 then
      massErase (massErase st sr cr FLASH_MER1) sr cr FLASH_MER2
    else
      massErase st sr cr FLASH_MER1
  (0, st.log Event.dsb)

/-! ## EraseSector -/

/-- The page index and the bank selection of `EraseSector`, for the address `adr` already
folded out of the alias window. -/
def selectPage (st : State) (cr : Reg) (adr : Nat) : Nat × State :=
  if GetFlashType st = 1 then
    if GetFlashSize st < 0x200000 ∧ st.regs Reg.OPTR &&& 0x200000 = 0 then
      ((adr >>> 13) &&& PNBMASK_val st, st)
    else if adr ≥ GetFlashBank st then
      let page := adr >>> 13
      let page := sub32 page (add32 (PNBMASK_val st) 1)
      let page := page &&& PNBMASK_val st
      (page, st.setBits cr FLASH_BKER)
    else
      ((adr >>> 13) &&& PNBMASK_val st, st.clearBits cr FLASH_BKER)
  else
    ((adr >>> 13) &&& PNBMASK_val st, st)

/-- The part of `EraseSector` up to and including the start bit. -/
def eraseStart (st : State) (adr : Nat) : State :=
  let adr := if adr ≥ 0x0C000000 then adr - 0x04000000 else adr
  let sr := activeSR (nonSecure st)
  let cr := activeCR (nonSecure st)
  let st := st.wr sr FLASH_PGAERR
  let st := st.setBits cr FLASH_PER
  let sel := selectPage st cr adr
  let page := sel.1
  let st := sel.2
  let st := st.clearBits cr ((PNBMASK_val st <<< 3) % W32)
  let st := st.setBits cr ((page <<< 3) % W32)
  st.setBits cr FLASH_STRT

/-- The function `EraseSector` (the one built for `FLASH_MEM`). -/
def EraseSector (st : State) (adr : Nat) : Nat × State :=
  let sr := activeSR (nonSecure st)
  let cr := activeCR (nonSecure st)
  let st := eraseStart st adr
  let st := st.waitNotBusy sr
  let rd := st.readStatus sr
  if rd.1 &&& FLASH_OPERR ≠ 0 then
    (1, rd.2)
  else
    let st := rd.2.clearBits cr FLASH_PER
    let st := st.clearBits cr ((PNBMASK_val st <<< 3) % W32)
    (0, st)

/-! ## ProgramPage -/

/-- The local variables of `ProgramPage` that change in its loop; `off` is the distance
the pointer `buf` has moved from its initial value. -/
structure Vars where
  adr : Nat
  sz : Nat
  off : Nat
  align : Nat

/-- The two stores of a double word taken from the local array `tab`. -/
def State.storeTab (st : State) (a : Nat) (tab : Nat → Byte) : State :=
  (st.M32 a (word32 tab)).M32 (add32 a 4) (word32 (fun i => tab (i + 4)))

/-- The two stores `M32(adr) = *((u32 *)buf); M32(adr + 4) = *((u32 *)(buf + 4));`. -/
def State.storeBuf (st : State) (a : Nat) (buf : Nat → Byte) (off : Nat) : State :=
  let st := st.logReads off 4
  let st := st.M32 a (word32 (fun i => buf (off + i)))
  let st := st.logReads (off + 4) 4
  st.M32 (add32 a 4) (word32 (fun i => buf (off + 4 + i)))

/-- The block `if (align != 0) { ... }` of the loop body, entered with `align != 0`
(`align` is `adr % 8`, so `8 - align` does not wrap): a double word made of the `align`
bytes that precede `adr` in memory and of the next `8 - align` bytes of the buffer is
stored at `adr - align`. -/
def hybridUnit (sr : Reg) (buf : Nat → Byte) (st : State) (v : Vars) : State × Vars :=
  let tempadd := sub32 v.adr v.align
  let tab : Nat → Byte := fun i =>
    if i < v.align then st.mem (add32 tempadd i) else buf (v.off + (i - v.align))
  let st := st.logReads v.off (8 - v.align)
  let st := st.waitNotBusy sr
  let st := st.storeTab tempadd tab
  (st, { adr := add32 v.adr (8 - v.align), sz := sub32 v.sz (8 - v.align),
         off := v.off + (8 - v.align), align := 0 })

/-- The body of `while (sz)` up to the final busy wait: `clr` is the value stored to the
status register at the head of a full iteration (`FLASH_PGAERR` in the non-secure
branch, `0x000001FF` in the secure one). -/
def loopBody (sr : Reg) (clr : Nat) (buf : Nat → Byte) (st : State) (v : Vars) :
    State × Vars :=
  if v.sz ≥ 8 then
    let st := st.wr sr clr
    let h := if v.align ≠ 0 then hybridUnit sr buf st v else (st, v)
    let st := h.1
    let v := h.2
    let st := st.waitNotBusy sr
    let st := st.storeBuf v.adr buf v.off
    (st, { adr := add32 v.adr 8, sz := sub32 v.sz 8, off := v.off + 8, align := v.align })
  else
    let tab : Nat → Byte := fun i => if i < v.sz then buf (v.off + i) else 0xFF
    let st := st.logReads v.off v.sz
    let st := st.waitNotBusy sr
    let st := st.storeTab v.adr tab
    (st, { adr := v.adr, sz := 0, off := v.off + v.sz, align := v.align })

/-- One pass through the body of `while (sz)` up to and including the read of the status
register in `if (FLASH->sr & FLASH_PGERR)`: the value read, the state after the read
and the loop variables. -/
def loopPass (sr : Reg) (clr : Nat) (buf : Nat → Byte) (st : State) (v : Vars) :
    Nat × State × Vars :=
  let b := loopBody sr clr buf st v
  let st := b.1.waitNotBusy sr
  let rd := st.readStatus sr
  (rd.1, rd.2, b.2)

/-- The loop `while (sz) { ... }`. The result is `none` when the iteration budget is used
up, `some (true, _)` when an error test fails (the function then returns 1) and
`some (false, _)` when the loop ends with `sz = 0`. -/
def progLoop (sr : Reg) (clr : Nat) (buf : Nat → Byte) :
    Nat → State → Vars → Option (Bool × State)
  | 0, st, v => if v.sz = 0 then some (false, st) else none
  | n + 1, st, v =>
    if v.sz = 0 then some (false, st)
    else
      let p := loopPass sr clr buf st v
      if p.1 &&& FLASH_PGERR ≠ 0 then
        some (true, p.2.1.wr sr FLASH_PGERR)
      else
        progLoop sr clr buf n p.2.1 p.2.2

/-- The size after `sz = (sz + 15) & ~15`. -/
def roundSize (sz : Nat) : Nat := ((sz + 15) % W32) &&& not32 15

/-- The function `ProgramPage`; `buf i` is the byte at `buf[i]`. The loop is given
`roundSize sz` iterations, which it never uses up: every iteration takes at least one
byte off `sz`. -/
def ProgramPage (st : State) (adr sz : Nat) (buf : Nat → Byte) : Option (Nat × State) :=
  let v : Vars := { adr := adr, sz := roundSize sz, off := 0, align := adr % 8 }
  if nonSecure st then
    let st := st.wr Reg.NSCR1 FLASH_PG
    (progLoop Reg.NSSR FLASH_PGAERR buf v.sz st v).map fun r =>
      if r.1 then (1, r.2) else (0, r.2.wr Reg.NSCR1 0)
  else
    let st := st.wr Reg.SECSR FLASH_PGERR
    let st := st.wr Reg.SECCR1 FLASH_PG
    (progLoop Reg.SECSR 0x000001FF buf v.sz st v).map fun r =>
      if r.1 then (1, r.2) else (0, r.2.wr Reg.SECCR1 0)

/-! ## Reading a trace -/

/-- The 32-bit stores of a trace, as pairs (address, word), in program order. -/
def stores : List Event → List (Nat × Nat)
  | [] => []
  | Event.store32 a v :: rest => (a, v) :: stores rest
  | _ :: rest => stores rest

/-- The events a run appended to the trace of its initial state. -/
def newEvents (st st' : State) : List Event := st'.trace.drop st.trace.length

/-- A state with the given register file, descriptors and memory, no pending hardware
value and an empty trace. -/
def State.start (regs : Reg → Nat) (idcode flashsize desc : Nat) (mem : Nat → Byte)
    (hw : List Nat) : State :=
  { regs := regs, idcode := idcode, flashsize := flashsize, desc0BF907A0 := desc,
    mem := mem, hw := hw, trace := [] }

/-! ## Vocabulary of the properties -/

/-- The value of the active status register that `EraseSector` tests for the operation
error: the one the hardware presents right after the busy wait that follows the start
bit. -/
def eraseStatus (st : State) (adr : Nat) : Nat :=
  ((eraseStart st adr).waitNotBusy (activeSR (nonSecure st))).nextStatus

/-- The page-number field of a control register value: the bits selected by
`PNBMASK_val() << 3`. -/
def pnbField (st : State) (x : Nat) : Nat := x &&& ((PNBMASK_val st <<< 3) % W32)

/-- A part identified as dual-bank (`IDCODE = 0x4B0`) whose size descriptor reads
`kb` KiB, all registers zero (so non-secure), erased memory, hardware values `hw`. -/
def dualBank (kb : Nat) (hw : List Nat) : State :=
  State.start (fun _ => 0) 0x4B0 kb kb (fun _ => 0xFF) hw

/-- The run from `st` to `st'` only appended events to the trace, all of them
satisfying `P`. -/
def Emits (P : Event → Prop) (st st' : State) : Prop :=
  ∃ l, st'.trace = st.trace ++ l ∧ ∀ e ∈ l, P e

/-- The registers of the non-secure register set. -/
def isNonSecureReg : Reg → Bool
  | Reg.NSKEYR | Reg.NSSR | Reg.NSCR1 => true
  | _ => false

/-- The registers of the secure register set: key, status and control register and the
block-based registers of both banks. -/
def isSecureReg : Reg → Bool
  | Reg.SECKEYR | Reg.SECSR | Reg.SECCR1 => true
  | Reg.SECBBR1 | Reg.SECBBR2 | Reg.SECBBR3 | Reg.SECBBR4 => true
  | Reg.SECBB2R1 | Reg.SECBB2R2 | Reg.SECBB2R3 | Reg.SECBB2R4 => true
  | _ => false

/-- The run from `st` to `st'` stores only to flash-controller registers of the set `S`
and leaves every other register of the controller unchanged. -/
def WritesOnly (S : Reg → Bool) (st st' : State) : Prop :=
  (∀ r v, Event.wr r v ∈ newEvents st st' → S r = true) ∧
  (∀ r, S r = false → st'.regs r = st.regs r)

/-- The run from `st` to `st'` appended to the trace no register store outside the set
`S` and left every register outside `S` unchanged. -/
def Confined (S : Reg → Bool) (st st' : State) : Prop :=
  Emits (fun e => ∀ r v, e = Event.wr r v → S r = true) st st' ∧
  ∀ r, S r = false → st'.regs r = st.regs r

/-- The register set of the branch taken. -/
def domainRegs (ns : Bool) : Reg → Bool := if ns then isNonSecureReg else isSecureReg

/-- What holds of the loop variables of `ProgramPage` at the head of every iteration:
`sz` is a 32-bit value, `align` is below 8, and while `align` is not yet zero at least
two double words remain. -/
def LoopInv (v : Vars) : Prop :=
  v.sz < W32 ∧ v.align < 8 ∧ (v.align ≠ 0 → v.sz = 0 ∨ 16 ≤ v.sz)

/-- The hardware never shows the busy flag nor any bit of `FLASH_PGERR`. -/
def Quiet (hw : List Nat) : Prop :=
  ∀ v ∈ hw, v &&& FLASH_BSY = 0 ∧ v &&& FLASH_PGERR = 0

/-- Memory `m` after the `n` bytes `src 0 .. src (n - 1)` have been stored at the
addresses `a, a + 1, ...`, taken modulo `2 ^ 32`. -/
def blit (m : Nat → Byte) (a n : Nat) (src : Nat → Byte) : Nat → Byte :=
  fun x =>
    if x < W32 ∧ (x + W32 - a % W32) % W32 < n then src ((x + W32 - a % W32) % W32)
    else m x

/-- The bytes `ProgramPage adr sz buf` sends to memory from the address `adr - adr % 8`
on, when it runs to the end: the `adr % 8` bytes found in memory before `adr`, the
`roundSize sz` bytes of the buffer, then `0xFF`. -/
def pageStream (m : Nat → Byte) (adr sz : Nat) (buf : Nat → Byte) : Nat → Byte :=
  fun j =>
    if j < adr % 8 then m (adr - adr % 8 + j)
    else if j < adr % 8 + roundSize sz then buf (j - adr % 8)
    else 0xFF

/-- The invariant that ties the memory to the loop variables of `ProgramPage adr sz buf`
started on the memory `m0`: either nothing is stored yet (unaligned address, first
iteration ahead), or the bytes of `pageStream` up to the buffer pointer, rounded up to a
double word, are in memory from `adr - adr % 8` on. -/
def MemInv (m0 : Nat → Byte) (adr sz : Nat) (buf : Nat → Byte) (st : State) (v : Vars) :
    Prop :=
  LoopInv v ∧ v.off + v.sz = roundSize sz ∧
  ((v.align = adr % 8 ∧ adr % 8 ≠ 0 ∧ v.off = 0 ∧ v.adr = adr ∧ st.mem = m0) ∨
   (v.align = 0 ∧
    st.mem = blit m0 (adr - adr % 8) ((adr % 8 + v.off + 7) / 8 * 8)
      (pageStream m0 adr sz buf) ∧
    (v.sz ≠ 0 → (adr % 8 + v.off) % 8 = 0 ∧ v.adr = (adr + v.off) % W32)))

/-- Every error test recorded in the list read a value without any bit of
`FLASH_PGERR`. -/
def CleanChecks (sr : Reg) (l : List Event) : Prop :=
  ∀ u, Event.check sr u ∈ l → u &&& FLASH_PGERR = 0

/-- The list ends with a failed error test and what `ProgramPage` does about it: after
events whose error tests all passed come a 32-bit store, the polls of a busy wait, an
error test that reads a value `u` with a bit of `FLASH_PGERR` set, and the store of
`FLASH_PGERR` to the status register; nothing follows. -/
def EndsInFailure (sr : Reg) (l : List Event) : Prop :=
  ∃ l1 a w ps u, l = l1 ++ [Event.store32 a w] ++ ps ++
      [Event.check sr u, Event.wr sr FLASH_PGERR] ∧
    (∀ e ∈ ps, ∃ p, e = Event.poll sr p) ∧ u &&& FLASH_PGERR ≠ 0 ∧ CleanChecks sr l1

/-- The 32-bit stores that write the first `k` double words of the byte stream `src` to
the double words at `A`, `A + 8`, ... (addresses modulo `2 ^ 32`): for each double word
the store of its low word and then of its high word. -/
def unitStores (A : Nat) (src : Nat → Byte) (k : Nat) : List (Nat × Nat) :=
  (List.range k).flatMap fun i =>
    [((A + 8 * i) % W32, word32 (fun j => src (8 * i + j))),
     ((A + 8 * i) % W32 + 4, word32 (fun j => src (8 * i + 4 + j)))]

/-- The number of double words `ProgramPage adr sz buf` stores when it runs to the end:
none when the rounded size is 0, otherwise those that cover the `adr % 8` bytes before
`adr` and the rounded size. -/
def unitCount (adr sz : Nat) : Nat :=
  if roundSize sz = 0 then 0 else (adr % 8 + roundSize sz + 7) / 8

/-- Erased memory in which the bytes at `0x08000000 .. 0x08000002` are
`0x11, 0x22, 0x33`. -/
def scenarioMem : Nat → Byte := fun a =>
  if a = 0x08000000 then 0x11 else if a = 0x08000001 then 0x22
  else if a = 0x08000002 then 0x33 else 0xFF

/-- A non-secure 2 MiB dual-bank part with the memory `scenarioMem` and an idle
controller. -/
def scenarioState : State :=
  State.start (fun _ => 0) 0x4B0 0x800 0x800 scenarioMem []

/-- A buffer that starts with `0xAA, 0xBB, 0xCC, 0xDD, 0xEE` and goes on with the byte
`fill`. -/
def scenarioBuf (fill : Byte) : Nat → Byte := fun i =>
  [0xAA, 0xBB, 0xCC, 0xDD, 0xEE].getD i fill


/-- The events of one busy wait on the status register `sr`: reads that show the busy
flag, then one read that does not. -/
def IsBusyWait (sr : Reg) (ps : List Event) : Prop :=
  ∃ (vs : List Nat) (v : Nat), ps = vs.map (Event.poll sr) ++ [Event.poll sr v] ∧
    (∀ u ∈ vs, u &&& FLASH_BSY ≠ 0) ∧ v &&& FLASH_BSY = 0

/-- The events of `massErase` on a control register `cr` that holds `c`: the store that
sets `mer`, the store that sets the start bit, the polls `ps` of the busy wait, and the
store that clears `mer`. -/
def bankErase (cr : Reg) (c mer : Nat) (ps : List Event) : List Event :=
  [Event.wr cr (c ||| mer), Event.wr cr (c ||| mer ||| FLASH_STRT)] ++ ps ++
    [Event.wr cr ((c ||| mer ||| FLASH_STRT) &&& not32 mer)]

/-- The values stored to the register `r` in a trace, in program order. -/
def writesTo (r : Reg) : List Event → List Nat
  | [] => []
  | Event.wr r' v :: rest => if r' = r then v :: writesTo r rest else writesTo r rest
  | _ :: rest => writesTo r rest

/-- A part identified as single-bank (`IDCODE = 0x492`) with 1 MiB of flash, the value
`cr` in the non-secure control register and 0 in every other register (so non-secure),
erased memory, hardware values `hw`. -/
def singleBank (cr : Nat) (hw : List Nat) : State :=
  State.start (fun r => if r = Reg.NSCR1 then cr else 0) 0x492 0x400 0x400 (fun _ => 0xFF) hw

/-- Reads a list of 32-bit stores as a sequence of write units, each a store at an
address `w` that is a multiple of 8 followed by a store at `w + 4`. The result is the
list of the addresses `w`, in order, or `none` when the list is not such a sequence. -/
def writeUnits : List (Nat × Nat) → Option (List Nat)
  | [] => some []
  | [_] => none
  | (a, _) :: (b, _) :: rest =>
    if a % 8 = 0 ∧ b = a + 4 then (writeUnits rest).map (fun ws => a :: ws) else none

/-- The values assigned to `sz` in one pass through the body of `while (sz)`: in a pass
that stores a hybrid unit the value after `sz = sz - (8 - align)` and the value after
`sz -= 8`, otherwise the one value assigned (`sz - 8`, or 0 in the padded pass). -/
def passSizes (sr : Reg) (clr : Nat) (buf : Nat → Byte) (st : State) (v : Vars) : List Nat :=
  if v.sz ≥ 8 ∧ v.align ≠ 0 then
    [(hybridUnit sr buf (st.wr sr clr) v).2.sz, (loopBody sr clr buf st v).2.sz]
  else [(loopBody sr clr buf st v).2.sz]

/-- The values assigned to `sz` by the loop `while (sz) { ... }`, in program order; the
recursion is that of `progLoop`. -/
def szTrace (sr : Reg) (clr : Nat) (buf : Nat → Byte) : Nat → State → Vars → List Nat
  | 0, _, _ => []
  | n + 1, st, v =>
    if v.sz = 0 then []
    else
      let p := loopPass sr clr buf st v
      passSizes sr clr buf st v ++
        (if p.1 &&& FLASH_PGERR ≠ 0 then [] else szTrace sr clr buf n p.2.1 p.2.2)

/-- The values the variable `sz` of `ProgramPage` takes, in program order: the rounded
size, then every value assigned in the loop. -/
def ProgramPage_szTrace (st : State) (adr sz : Nat) (buf : Nat → Byte) : List Nat :=
  let v : Vars := { adr := adr, sz := roundSize sz, off := 0, align := adr % 8 }
  if nonSecure st then
    v.sz :: szTrace Reg.NSSR FLASH_PGAERR buf v.sz (st.wr Reg.NSCR1 FLASH_PG) v
  else
    v.sz :: szTrace Reg.SECSR 0x000001FF buf v.sz
      ((st.wr Reg.SECSR FLASH_PGERR).wr Reg.SECCR1 FLASH_PG) v

/-- Every event of the list is a read of a byte of the caller buffer. -/
def AllBufReads (l : List Event) : Prop := ∀ e ∈ l, ∃ o, e = Event.bufRead o

/-- The events of one write unit in the loop of `ProgramPage`: stores to the status
register and reads of buffer bytes, then a busy wait, then the store of the low word at
an address `a` and the store of the high word at `a + 4` (a 32-bit sum), each possibly
preceded by reads of buffer bytes. The polls of the busy wait are its only reads of the
status register. -/
def IsUnitBlock (sr : Reg) (l : List Event) : Prop :=
  ∃ (pre bw rd1 : List Event) (a w1 : Nat) (rd2 : List Event) (w2 : Nat),
    l = pre ++ bw ++ (rd1 ++ [Event.store32 a w1] ++ rd2 ++ [Event.store32 (add32 a 4) w2]) ∧
    (∀ e ∈ pre, (∃ v, e = Event.wr sr v) ∨ ∃ o, e = Event.bufRead o) ∧
    IsBusyWait sr bw ∧ AllBufReads rd1 ∧ AllBufReads rd2

/-- The events of one pass through the body of the loop of `ProgramPage`: `n` write
units, then a busy wait, then the one error test of the pass, which reads `u`. -/
def IsPass (sr : Reg) (n u : Nat) (l : List Event) : Prop :=
  ∃ (blocks : List (List Event)) (bw : List Event), blocks.length = n ∧ (∀ b ∈ blocks, IsUnitBlock sr b) ∧ IsBusyWait sr bw ∧
    l = blocks.flatten ++ bw ++ [Event.check sr u]

/-- A sequence of passes, each given as the value read by its error test and its events:
the first pass stores `n` write units, every later pass stores one. -/
def IsPassList (sr : Reg) (n : Nat) (passes : List (Nat × List Event)) : Prop :=
  (∀ p, passes.head? = some p → IsPass sr n p.1 p.2) ∧
  ∀ p ∈ passes.tail, IsPass sr 1 p.1 p.2

/-- The stores `ProgramPage` makes before its loop: programming enable, preceded in the
secure branch by the reset of the error flags. -/
def prologue (st : State) : List Event :=
  if nonSecure st then [Event.wr Reg.NSCR1 FLASH_PG]
  else [Event.wr Reg.SECSR FLASH_PGERR, Event.wr Reg.SECCR1 FLASH_PG]
/-! ## Elementary facts about the state operations -/

section basics

variable (st : State) (r : Reg) (v a n off : Nat) (e : Event)

@[simp] theorem wr_regs : (st.wr r v).regs = Function.update st.regs r v := rfl
@[simp] theorem wr_idcode : (st.wr r v).idcode = st.idcode := rfl
@[simp] theorem wr_flashsize : (st.wr r v).flashsize = st.flashsize := rfl
@[simp] theorem wr_desc : (st.wr r v).desc0BF907A0 = st.desc0BF907A0 := rfl
@[simp] theorem wr_mem : (st.wr r v).mem = st.mem := rfl
@[simp] theorem wr_hw : (st.wr r v).hw = st.hw := rfl
@[simp] theorem wr_trace : (st.wr r v).trace = st.trace ++ [Event.wr r v] := rfl

@[simp] theorem log_regs : (st.log e).regs = st.regs := rfl
@[simp] theorem log_idcode : (st.log e).idcode = st.idcode := rfl
@[simp] theorem log_flashsize : (st.log e).flashsize = st.flashsize := rfl
@[simp] theorem log_desc : (st.log e).desc0BF907A0 = st.desc0BF907A0 := rfl
@[simp] theorem log_mem : (st.log e).mem = st.mem := rfl
@[simp] theorem log_hw : (st.log e).hw = st.hw := rfl
@[simp] theorem log_trace : (st.log e).trace = st.trace ++ [e] := rfl

@[simp] theorem logReads_regs : (st.logReads off n).regs = st.regs := rfl
@[simp] theorem logReads_idcode : (st.logReads off n).idcode = st.idcode := rfl
@[simp] theorem logReads_flashsize : (st.logReads off n).flashsize = st.flashsize := rfl
@[simp] theorem logReads_desc : (st.logReads off n).desc0BF907A0 = st.desc0BF907A0 := rfl
@[simp] theorem logReads_mem : (st.logReads off n).mem = st.mem := rfl
@[simp] theorem logReads_hw : (st.logReads off n).hw = st.hw := rfl
@[simp] theorem logReads_trace : (st.logReads off n).trace =
    st.trace ++ (List.range n).map (fun i => Event.bufRead (off + i)) := rfl

@[simp] theorem waitNotBusy_regs : (st.waitNotBusy r).regs = st.regs := rfl
@[simp] theorem waitNotBusy_idcode : (st.waitNotBusy r).idcode = st.idcode := rfl
@[simp] theorem waitNotBusy_flashsize : (st.waitNotBusy r).flashsize = st.flashsize := rfl
@[simp] theorem waitNotBusy_desc : (st.waitNotBusy r).desc0BF907A0 = st.desc0BF907A0 := rfl
@[simp] theorem waitNotBusy_mem : (st.waitNotBusy r).mem = st.mem := rfl
@[simp] theorem waitNotBusy_hw : (st.waitNotBusy r).hw = (pollBusy r st.hw).2 := rfl
@[simp] theorem waitNotBusy_trace :
    (st.waitNotBusy r).trace = st.trace ++ (pollBusy r st.hw).1 := rfl

@[simp] theorem readStatus_fst : (st.readStatus r).1 = st.nextStatus := rfl
@[simp] theorem readStatus_regs : (st.readStatus r).2.regs = st.regs := rfl
@[simp] theorem readStatus_idcode : (st.readStatus r).2.idcode = st.idcode := rfl
@[simp] theorem readStatus_flashsize : (st.readStatus r).2.flashsize = st.flashsize := rfl
@[simp] theorem readStatus_desc : (st.readStatus r).2.desc0BF907A0 = st.desc0BF907A0 := rfl
@[simp] theorem readStatus_mem : (st.readStatus r).2.mem = st.mem := rfl
@[simp] theorem readStatus_hw : (st.readStatus r).2.hw = st.hw.tail := rfl
@[simp] theorem readStatus_trace :
    (st.readStatus r).2.trace = st.trace ++ [Event.check r st.nextStatus] := rfl

@[simp] theorem M32_regs : (st.M32 a v).regs = st.regs := rfl
@[simp] theorem M32_idcode : (st.M32 a v).idcode = st.idcode := rfl
@[simp] theorem M32_flashsize : (st.M32 a v).flashsize = st.flashsize := rfl
@[simp] theorem M32_desc : (st.M32 a v).desc0BF907A0 = st.desc0BF907A0 := rfl
@[simp] theorem M32_hw : (st.M32 a v).hw = st.hw := rfl
@[simp] theorem M32_trace : (st.M32 a v).trace = st.trace ++ [Event.store32 a v] := rfl
theorem M32_mem (x : Nat) : (st.M32 a v).mem x =
    if a ≤ x ∧ x < a + 4 then byteOf v (x - a) else st.mem x := rfl

@[simp] theorem setBits_eq : st.setBits r v = st.wr r (st.regs r ||| v) := rfl
@[simp] theorem clearBits_eq : st.clearBits r v = st.wr r (st.regs r &&& not32 v) := rfl

@[simp] theorem GetFlashType_wr : GetFlashType (st.wr r v) = GetFlashType st := rfl
@[simp] theorem GetFlashSize_wr : GetFlashSize (st.wr r v) = GetFlashSize st := rfl
@[simp] theorem GetFlashBank_wr : GetFlashBank (st.wr r v) = GetFlashBank st := rfl

theorem PNBMASK_val_congr {s1 s2 : State} (h1 : s1.idcode = s2.idcode)
    (h2 : s1.flashsize = s2.flashsize) (h3 : s1.desc0BF907A0 = s2.desc0BF907A0)
    (h4 : s1.regs Reg.OPTR = s2.regs Reg.OPTR) : PNBMASK_val s1 = PNBMASK_val s2 := by
  simp only [PNBMASK_val, GetFlashType, GetFlashSize, h1, h2, h3, h4]

theorem PNBMASK_val_wr (h : r ≠ Reg.OPTR) : PNBMASK_val (st.wr r v) = PNBMASK_val st :=
  PNBMASK_val_congr rfl rfl rfl (by simp [Function.update_noteq (Ne.symm h)])

end basics

/-! ## Bits -/

theorem W32_eq : W32 = 2 ^ 32 := by decide

theorem and_two_pow_eq_zero_iff (x k : Nat) : x &&& 2 ^ k = 0 ↔ x.testBit k = false := by
  constructor
  · intro h
    have := congrArg (fun y => y.testBit k) h
    simpa [Nat.testBit_two_pow_self] using this
  · intro h
    apply Nat.eq_of_testBit_eq
    intro i
    by_cases hi : k = i
    · subst hi; simp [h]
    · simp [Nat.testBit_two_pow_of_ne hi]

theorem and_two_pow_ne_zero_iff (x k : Nat) : x &&& 2 ^ k ≠ 0 ↔ x.testBit k = true := by
  rw [Ne, and_two_pow_eq_zero_iff]; simp

theorem and_two_pow_congr (x y k : Nat) (h : x.testBit k = y.testBit k) :
    x &&& 2 ^ k = y &&& 2 ^ k := by
  apply Nat.eq_of_testBit_eq
  intro i
  rw [Nat.testBit_and, Nat.testBit_and, Nat.testBit_two_pow]
  by_cases hi : k = i
  · subst hi; rw [h]
  · simp [hi]

theorem testBit_not32 (x i : Nat) :
    (not32 x).testBit i = (decide (i < 32) && !x.testBit i) := by
  unfold not32
  rw [W32_eq, Nat.testBit_xor, Nat.testBit_two_pow_sub_one, Nat.testBit_mod_two_pow]
  by_cases h : i < 32 <;> simp [h]

theorem activeCR_ne_OPTR (ns : Bool) : activeCR ns ≠ Reg.OPTR := by
  cases ns <;> simp [activeCR]

theorem activeSR_ne_OPTR (ns : Bool) : activeSR ns ≠ Reg.OPTR := by
  cases ns <;> simp [activeSR]

theorem activeSR_ne_activeCR (ns : Bool) : activeSR ns ≠ activeCR ns := by
  cases ns <;> simp [activeSR, activeCR]

theorem testBit_mod_W32 (x i : Nat) :
    (x % W32).testBit i = (decide (i < 32) && x.testBit i) := by
  rw [W32_eq, Nat.testBit_mod_two_pow]

theorem testBit_FLASH_PER (i : Nat) : FLASH_PER.testBit i = decide (1 = i) := by
  have : FLASH_PER = 2 ^ 1 := by decide
  rw [this, Nat.testBit_two_pow]

theorem testBit_FLASH_BKER (i : Nat) : FLASH_BKER.testBit i = decide (11 = i) := by
  have : FLASH_BKER = 2 ^ 11 := by decide
  rw [this, Nat.testBit_two_pow]

theorem testBit_FLASH_STRT (i : Nat) : FLASH_STRT.testBit i = decide (16 = i) := by
  have : FLASH_STRT = 2 ^ 16 := by decide
  rw [this, Nat.testBit_two_pow]

theorem and_FLASH_PER_ne_zero (x : Nat) : x &&& FLASH_PER ≠ 0 ↔ x.testBit 1 = true :=
  and_two_pow_ne_zero_iff x 1

theorem and_FLASH_PER_eq_zero (x : Nat) : x &&& FLASH_PER = 0 ↔ x.testBit 1 = false :=
  and_two_pow_eq_zero_iff x 1

theorem and_FLASH_BKER_ne_zero (x : Nat) : x &&& FLASH_BKER ≠ 0 ↔ x.testBit 11 = true :=
  and_two_pow_ne_zero_iff x 11

theorem and_FLASH_BKER_eq_zero (x : Nat) : x &&& FLASH_BKER = 0 ↔ x.testBit 11 = false :=
  and_two_pow_eq_zero_iff x 11

theorem and_not32_and_self (y m : Nat) : (y &&& not32 m) &&& m = 0 := by
  apply Nat.eq_of_testBit_eq
  intro i
  simp only [Nat.testBit_and, testBit_not32, Nat.zero_testBit]
  cases m.testBit i <;> simp

/-! ## EraseSector -/

/-- The control register after the part of `EraseSector` that ends with the start bit
has the page-erase-enable bit set. -/
theorem eraseStart_PER (st : State) (adr : Nat) :
    ((eraseStart st adr).regs (activeCR (nonSecure st))).testBit 1 = true := by
  simp only [eraseStart, selectPage]
  split_ifs <;>
    simp [testBit_not32, testBit_FLASH_PER, testBit_FLASH_BKER,
      testBit_FLASH_STRT, testBit_mod_W32]

/-- The part of `EraseSector` that ends with the start bit leaves the descriptors and
the option register as they were. -/
theorem eraseStart_topo (st : State) (adr : Nat) :
    (eraseStart st adr).idcode = st.idcode ∧ (eraseStart st adr).flashsize = st.flashsize ∧
    (eraseStart st adr).desc0BF907A0 = st.desc0BF907A0 ∧
    (eraseStart st adr).regs Reg.OPTR = st.regs Reg.OPTR := by
  have h1 := activeCR_ne_OPTR (nonSecure st)
  have h2 := activeSR_ne_OPTR (nonSecure st)
  simp only [eraseStart, selectPage]
  split_ifs <;> simp [Function.update_noteq, h1.symm, h2.symm]

theorem sub32_mask_and (y k : Nat) (hk : k ≤ 8) :
    sub32 y (add32 (2 ^ k - 1) 1) &&& (2 ^ k - 1) = y % 2 ^ k := by
  rw [Nat.and_pow_two_sub_one_eq_mod]
  unfold sub32 add32 W32
  interval_cases k <;> norm_num <;> omega

/-- The sector mask of a dual-bank part outside the reduced configuration whose size
descriptor reads `16 * 2 ^ k` KiB. -/
theorem PNBMASK_val_pow (st : State) (k : Nat) (hk : k ≤ 8)
    (ht : GetFlashType st = 1)
    (hr : ¬ (GetFlashSize st < 0x200000 ∧ st.regs Reg.OPTR &&& 0x200000 = 0))
    (hs : st.flashsize &&& 0xFFFF = 16 * 2 ^ k) : PNBMASK_val st = 2 ^ k - 1 := by
  unfold PNBMASK_val
  rw [if_neg (by omega), if_neg hr, hs]
  unfold sub32 W32
  interval_cases k <;> norm_num

/-- The control register when `EraseSector` has set the start bit, for an address below
the alias window on a dual-bank part that is not in the reduced configuration and has
`2 ^ k` sectors in a bank. -/
theorem eraseStart_regs (st : State) (adr k : Nat) (hk : k ≤ 8)
    (ht : GetFlashType st = 1)
    (hr : ¬ (GetFlashSize st < 0x200000 ∧ st.regs Reg.OPTR &&& 0x200000 = 0))
    (hs : st.flashsize &&& 0xFFFF = 16 * 2 ^ k) (ha : adr < 0x0C000000) :
    (eraseStart st adr).regs (activeCR (nonSecure st)) =
      (((if GetFlashBank st ≤ adr then
            st.regs (activeCR (nonSecure st)) ||| FLASH_PER ||| FLASH_BKER
          else (st.regs (activeCR (nonSecure st)) ||| FLASH_PER) &&& not32 FLASH_BKER) &&&
          not32 (((2 ^ k - 1) <<< 3) % W32)) |||
        (((adr / 8192) % 2 ^ k) <<< 3) % W32) ||| FLASH_STRT := by
  have h1 := activeCR_ne_OPTR (nonSecure st)
  have h2 := activeSR_ne_OPTR (nonSecure st)
  have h3 := activeSR_ne_activeCR (nonSecure st)
  have hr' : ¬ (GetFlashSize st < 2097152 ∧ st.regs Reg.OPTR &&& 2097152 = 0) := hr
  have hm := PNBMASK_val_pow st k hk ht hr hs
  have hm1 : ∀ v, PNBMASK_val (st.wr (activeSR (nonSecure st)) v) = 2 ^ k - 1 := by
    intro v; rw [PNBMASK_val_wr _ _ _ h2, hm]
  have hm2 : ∀ v w, PNBMASK_val ((st.wr (activeSR (nonSecure st)) v).wr
      (activeCR (nonSecure st)) w) = 2 ^ k - 1 := by
    intro v w; rw [PNBMASK_val_wr _ _ _ h1, hm1]
  have hm3 : ∀ v w u, PNBMASK_val (((st.wr (activeSR (nonSecure st)) v).wr
      (activeCR (nonSecure st)) w).wr (activeCR (nonSecure st)) u) = 2 ^ k - 1 := by
    intro v w u; rw [PNBMASK_val_wr _ _ _ h1, hm2]
  simp only [eraseStart, if_neg (show ¬ adr ≥ 0x0C000000 by omega), selectPage, setBits_eq,
    clearBits_eq, GetFlashType_wr, GetFlashSize_wr, GetFlashBank_wr, ht, if_true, wr_regs,
    Function.update_noteq h1.symm, Function.update_noteq h2.symm, Function.update_noteq h3.symm,
    hr', if_false]
  by_cases hb : adr ≥ GetFlashBank st
  · have hb' : GetFlashBank st ≤ adr := hb
    simp only [if_pos hb, if_pos hb', hm2, hm3, sub32_mask_and _ _ hk, wr_regs,
      Function.update_same, Nat.shiftRight_eq_div_pow]
  · have hb' : ¬ GetFlashBank st ≤ adr := hb
    simp only [if_neg hb, if_neg hb', hm2, hm3, wr_regs, Function.update_same,
      Nat.and_pow_two_sub_one_eq_mod, Nat.shiftRight_eq_div_pow]

theorem testBit_mask_lt (k j : Nat) (hk : k ≤ 8) (h : (2 ^ k - 1).testBit j = true) :
    j < 8 := by
  rw [Nat.testBit_two_pow_sub_one] at h
  have := of_decide_eq_true h
  omega

theorem testBit_mod_pow_lt (x k j : Nat) (hk : k ≤ 8) (h : (x % 2 ^ k).testBit j = true) :
    j < 8 := by
  rw [Nat.testBit_mod_two_pow] at h
  simp at h
  omega

theorem mirror_page (adr k : Nat) (hk : k ≤ 8) (h : 2 ^ k * 8192 ≤ adr) :
    ((adr - 2 ^ k * 8192) / 8192) % 2 ^ k = (adr / 8192) % 2 ^ k := by
  interval_cases k <;> norm_num at h ⊢ <;> omega

theorem and_FLASH_BKER_congr (x y : Nat) (h : x.testBit 11 = y.testBit 11) :
    x &&& FLASH_BKER = y &&& FLASH_BKER :=
  and_two_pow_congr x y 11 h

/-- The accesses of `EraseSector` up to the start bit on a dual-bank part in the reduced
configuration, for an address below the alias window: no store sets or clears the
bank-select bit, and the page number is `(adr >> 13) & PNBMASK_val()`. -/
theorem eraseStart_reduced (st : State) (adr : Nat) (ht : GetFlashType st = 1)
    (hr : GetFlashSize st < 0x200000 ∧ st.regs Reg.OPTR &&& 0x200000 = 0)
    (ha : adr < 0x0C000000) :
    (eraseStart st adr).trace = st.trace ++
      [Event.wr (activeSR (nonSecure st)) FLASH_PGAERR,
       Event.wr (activeCR (nonSecure st)) (st.regs (activeCR (nonSecure st)) ||| FLASH_PER),
       Event.wr (activeCR (nonSecure st))
        ((st.regs (activeCR (nonSecure st)) ||| FLASH_PER) &&&
          not32 ((PNBMASK_val st <<< 3) % W32)),
       Event.wr (activeCR (nonSecure st))
        ((st.regs (activeCR (nonSecure st)) ||| FLASH_PER) &&&
          not32 ((PNBMASK_val st <<< 3) % W32) |||
          (((adr >>> 13) &&& PNBMASK_val st) <<< 3) % W32),
       Event.wr (activeCR (nonSecure st))
        ((st.regs (activeCR (nonSecure st)) ||| FLASH_PER) &&&
          not32 ((PNBMASK_val st <<< 3) % W32) |||
          (((adr >>> 13) &&& PNBMASK_val st) <<< 3) % W32 ||| FLASH_STRT)] ∧
    (eraseStart st adr).regs (activeCR (nonSecure st)) =
      (st.regs (activeCR (nonSecure st)) ||| FLASH_PER) &&&
        not32 ((PNBMASK_val st <<< 3) % W32) |||
        (((adr >>> 13) &&& PNBMASK_val st) <<< 3) % W32 ||| FLASH_STRT := by
  have h1 := activeCR_ne_OPTR (nonSecure st)
  have h2 := activeSR_ne_OPTR (nonSecure st)
  have h3 := activeSR_ne_activeCR (nonSecure st)
  have hr' : GetFlashSize st < 2097152 ∧ st.regs Reg.OPTR &&& 2097152 = 0 := hr
  have hm2 : ∀ v w, PNBMASK_val ((st.wr (activeSR (nonSecure st)) v).wr
      (activeCR (nonSecure st)) w) = PNBMASK_val st := by
    intro v w; rw [PNBMASK_val_wr _ _ _ h1, PNBMASK_val_wr _ _ _ h2]
  simp only [eraseStart, if_neg (show ¬ adr ≥ 0x0C000000 by omega), selectPage, setBits_eq,
    clearBits_eq, GetFlashType_wr, GetFlashSize_wr, ht, if_true, wr_regs,
    Function.update_noteq h1.symm, Function.update_noteq h2.symm, Function.update_noteq h3.symm,
    hr', and_self, hm2, Function.update_same, wr_trace, List.append_assoc,
    List.singleton_append, List.cons_append, List.nil_append, and_true]
/-! ## Traces -/

theorem Emits.emRefl (P : Event → Prop) (st : State) : Emits P st st :=
  ⟨[], by simp, by simp⟩

theorem Emits.emTrans {P : Event → Prop} {s1 s2 s3 : State} (h1 : Emits P s1 s2)
    (h2 : Emits P s2 s3) : Emits P s1 s3 := by
  obtain ⟨l1, e1, p1⟩ := h1
  obtain ⟨l2, e2, p2⟩ := h2
  refine ⟨l1 ++ l2, by rw [e2, e1, List.append_assoc], ?_⟩
  intro e he
  rcases List.mem_append.1 he with h | h
  · exact p1 e h
  · exact p2 e h

theorem Emits.emMono {P Q : Event → Prop} {s1 s2 : State} (h : Emits P s1 s2)
    (hpq : ∀ e, P e → Q e) : Emits Q s1 s2 := by
  obtain ⟨l, e, p⟩ := h
  exact ⟨l, e, fun x hx => hpq x (p x hx)⟩

theorem newEvents_append (st st' : State) (l : List Event)
    (h : st'.trace = st.trace ++ l) : newEvents st st' = l := by
  simp [newEvents, h]

theorem Emits.emNew {P : Event → Prop} {st st' : State} (h : Emits P st st') :
    ∀ e ∈ newEvents st st', P e := by
  obtain ⟨l, e, p⟩ := h
  rw [newEvents_append st st' l e]
  exact p

theorem emits_wr (P : Event → Prop) (st : State) (r : Reg) (v : Nat)
    (h : P (Event.wr r v)) : Emits P st (st.wr r v) :=
  ⟨[Event.wr r v], rfl, by simpa using h⟩

theorem emits_log (P : Event → Prop) (st : State) (e : Event) (h : P e) :
    Emits P st (st.log e) :=
  ⟨[e], rfl, by simpa using h⟩

theorem emits_M32 (P : Event → Prop) (st : State) (a v : Nat)
    (h : P (Event.store32 a v)) : Emits P st (st.M32 a v) :=
  ⟨[Event.store32 a v], rfl, by simpa using h⟩

theorem emits_readStatus (P : Event → Prop) (st : State) (sr : Reg)
    (h : ∀ v, P (Event.check sr v)) : Emits P st (st.readStatus sr).2 :=
  ⟨[Event.check sr st.nextStatus], rfl, by simpa using h _⟩

theorem emits_logReads (P : Event → Prop) (st : State) (off n : Nat)
    (h : ∀ i, i < n → P (Event.bufRead (off + i))) : Emits P st (st.logReads off n) := by
  refine ⟨_, rfl, ?_⟩
  intro e he
  simp only [List.mem_map, List.mem_range] at he
  obtain ⟨i, hi, rfl⟩ := he
  exact h i hi

/-- A busy wait only polls its status register. -/
theorem pollBusy_events (sr : Reg) (hw : List Nat) :
    ∀ e ∈ (pollBusy sr hw).1, ∃ v, e = Event.poll sr v := by
  induction hw with
  | nil => simp [pollBusy]
  | cons v rest ih =>
    unfold pollBusy
    split_ifs with h
    · intro e he
      rcases List.mem_cons.1 he with h1 | h1
      · exact ⟨v, h1⟩
      · exact ih e h1
    · simp

/-- A busy wait reads the status register until a value has the busy flag clear. -/
theorem pollBusy_isBusyWait (sr : Reg) (hw : List Nat) : IsBusyWait sr (pollBusy sr hw).1 := by
  induction hw with
  | nil => exact ⟨[], 0, rfl, (fun _ h => by cases h), by decide⟩
  | cons v rest ih =>
    unfold pollBusy
    split_ifs with h
    · obtain ⟨vs, x, e, h1, h2⟩ := ih
      refine ⟨v :: vs, x, by simp [e], ?_, h2⟩
      intro u hu
      rcases List.mem_cons.1 hu with h3 | h3
      · rw [h3]; exact h
      · exact h1 u h3
    · exact ⟨[], v, rfl, (fun _ h => by cases h), by simpa using h⟩

theorem emits_waitNotBusy (P : Event → Prop) (st : State) (sr : Reg)
    (h : ∀ v, P (Event.poll sr v)) : Emits P st (st.waitNotBusy sr) := by
  refine ⟨_, rfl, ?_⟩
  intro e he
  obtain ⟨v, rfl⟩ := pollBusy_events sr st.hw e he
  exact h v

theorem Emits.emWr {P : Event → Prop} {st s1 : State} (h : Emits P st s1) (r : Reg) (v : Nat)
    (hp : P (Event.wr r v)) : Emits P st (s1.wr r v) :=
  h.emTrans (emits_wr P s1 r v hp)

theorem Emits.emM32 {P : Event → Prop} {st s1 : State} (h : Emits P st s1) (a v : Nat)
    (hp : P (Event.store32 a v)) : Emits P st (s1.M32 a v) :=
  h.emTrans (emits_M32 P s1 a v hp)

theorem Emits.emWait {P : Event → Prop} {st s1 : State} (h : Emits P st s1) (sr : Reg)
    (hp : ∀ v, P (Event.poll sr v)) : Emits P st (s1.waitNotBusy sr) :=
  h.emTrans (emits_waitNotBusy P s1 sr hp)

theorem Emits.emRead {P : Event → Prop} {st s1 : State} (h : Emits P st s1) (sr : Reg)
    (hp : ∀ v, P (Event.check sr v)) : Emits P st (s1.readStatus sr).2 :=
  h.emTrans (emits_readStatus P s1 sr hp)

theorem Emits.emReads {P : Event → Prop} {st s1 : State} (h : Emits P st s1) (off n : Nat)
    (hp : ∀ i, i < n → P (Event.bufRead (off + i))) : Emits P st (s1.logReads off n) :=
  h.emTrans (emits_logReads P s1 off n hp)

theorem Emits.emTab {P : Event → Prop} {st s1 : State} (h : Emits P st s1) (a : Nat)
    (tab : Nat → Byte) (hp : ∀ x w, P (Event.store32 x w)) :
    Emits P st (s1.storeTab a tab) :=
  (h.emM32 _ _ (hp _ _)).emM32 _ _ (hp _ _)

theorem Emits.emBuf {P : Event → Prop} {st s1 : State} (h : Emits P st s1) (a : Nat)
    (buf : Nat → Byte) (off : Nat) (hp : ∀ x w, P (Event.store32 x w))
    (hb : ∀ i, i < 8 → P (Event.bufRead (off + i))) :
    Emits P st (s1.storeBuf a buf off) :=
  (((h.emReads off 4 (fun i hi => hb i (by omega))).emM32 _ _ (hp _ _)).emReads (off + 4) 4
    (fun i hi => by rw [Nat.add_assoc]; exact hb (4 + i) (by omega))).emM32 _ _ (hp _ _)

/-! ## Confinement of register stores -/

theorem Confined.cfRefl (S : Reg → Bool) (st : State) : Confined S st st :=
  ⟨Emits.emRefl _ _, fun _ _ => rfl⟩

theorem Confined.cfTrans {S : Reg → Bool} {s1 s2 s3 : State} (h1 : Confined S s1 s2)
    (h2 : Confined S s2 s3) : Confined S s1 s3 :=
  ⟨h1.1.emTrans h2.1, fun r hr => Eq.trans (h2.2 r hr) (h1.2 r hr)⟩

theorem Confined.cfOnly {S : Reg → Bool} {st st' : State} (h : Confined S st st') :
    WritesOnly S st st' :=
  ⟨fun r v hm => h.1.emNew _ hm r v rfl, h.2⟩

theorem Confined.cfWr {S : Reg → Bool} {st s1 : State} (h : Confined S st s1) (r : Reg)
    (v : Nat) (hr : S r = true) : Confined S st (s1.wr r v) := by
  refine h.cfTrans ⟨emits_wr _ _ _ _ ?_, ?_⟩
  · intro r' v' e
    cases e
    exact hr
  · intro r' hr'
    have : r' ≠ r := by
      intro e; rw [e, hr] at hr'; cases hr'
    simp [Function.update_noteq this]

theorem Confined.cfSet {S : Reg → Bool} {st s1 : State} (h : Confined S st s1) (r : Reg)
    (v : Nat) (hr : S r = true) : Confined S st (s1.setBits r v) :=
  h.cfWr r _ hr

theorem Confined.cfClear {S : Reg → Bool} {st s1 : State} (h : Confined S st s1)
    (r : Reg) (v : Nat) (hr : S r = true) : Confined S st (s1.clearBits r v) :=
  h.cfWr r _ hr

theorem Confined.cfWait {S : Reg → Bool} {st s1 : State} (h : Confined S st s1)
    (sr : Reg) : Confined S st (s1.waitNotBusy sr) :=
  h.cfTrans ⟨emits_waitNotBusy _ _ _ (fun _ _ _ e => by cases e), fun _ _ => rfl⟩

theorem Confined.cfRead {S : Reg → Bool} {st s1 : State} (h : Confined S st s1)
    (sr : Reg) : Confined S st (s1.readStatus sr).2 :=
  h.cfTrans ⟨emits_readStatus _ _ _ (fun _ _ _ e => by cases e), fun _ _ => rfl⟩

theorem Confined.cfM32 {S : Reg → Bool} {st s1 : State} (h : Confined S st s1)
    (a v : Nat) : Confined S st (s1.M32 a v) :=
  h.cfTrans ⟨emits_M32 _ _ _ _ (fun _ _ e => by cases e), fun _ _ => rfl⟩

theorem Confined.cfReads {S : Reg → Bool} {st s1 : State} (h : Confined S st s1)
    (off n : Nat) : Confined S st (s1.logReads off n) :=
  h.cfTrans ⟨emits_logReads _ _ _ _ (fun _ _ _ _ e => by cases e), fun _ _ => rfl⟩

theorem Confined.cfIrq {S : Reg → Bool} {st s1 : State} (h : Confined S st s1) :
    Confined S st (s1.log Event.irqOff) :=
  h.cfTrans ⟨emits_log _ _ _ (fun _ _ e => by cases e), fun _ _ => rfl⟩

theorem Confined.cfDsb {S : Reg → Bool} {st s1 : State} (h : Confined S st s1) :
    Confined S st (s1.log Event.dsb) :=
  h.cfTrans ⟨emits_log _ _ _ (fun _ _ e => by cases e), fun _ _ => rfl⟩

theorem domainRegs_SR (ns : Bool) : domainRegs ns (activeSR ns) = true := by
  cases ns <;> rfl

theorem domainRegs_CR (ns : Bool) : domainRegs ns (activeCR ns) = true := by
  cases ns <;> rfl

theorem Init_confined (st : State) (adr clk fnc : Nat) :
    Confined (domainRegs (nonSecure st)) st (Init st adr clk fnc).2 := by
  have hn : nonSecure (st.log Event.irqOff) = nonSecure st := rfl
  unfold Init
  simp only [hn]
  cases h : nonSecure st
  · simp only [Bool.false_eq_true, if_false]
    have h0 : Confined isSecureReg st ((((st.log Event.irqOff).wr Reg.SECBBR1 0xffffffff).wr
        Reg.SECBBR2 0xffffffff).wr Reg.SECBBR3 0xffffffff) :=
      ((((Confined.cfRefl _ st).cfIrq).cfWr _ _ (by rfl)).cfWr _ _ (by rfl)).cfWr _ _ (by rfl)
    have h1 := h0.cfWr Reg.SECBBR4 0xffffffff rfl
    refine Confined.cfM32 (Confined.cfM32 (Confined.cfM32 (Confined.cfM32
      (Confined.cfWait ?_ _) _ _) _ _) _ _) _ _
    split_ifs
    · exact ((((((h1.cfWr _ _ (by rfl)).cfWr _ _ (by rfl)).cfWr _ _ (by rfl)).cfWr _ _ (by rfl))).cfWr _ _ (by rfl)).cfWr _ _ (by rfl)
    · exact ((((h1.cfWr _ _ (by rfl)).cfWr _ _ (by rfl)).cfWr _ _ (by rfl)).cfWr _ _ (by rfl))
    · exact (h1.cfWr _ _ (by rfl)).cfWr _ _ (by rfl)
    · exact h1
  · simp only [if_true]
    refine Confined.cfWait ?_ _
    split_ifs
    · exact (((Confined.cfRefl _ st).cfIrq).cfWr _ _ (by rfl)).cfWr _ _ (by rfl)
    · exact (Confined.cfRefl _ st).cfIrq

theorem UnInit_confined (st : State) (fnc : Nat) :
    Confined (domainRegs (nonSecure st)) st (UnInit st fnc).2 :=
  ((Confined.cfRefl _ st).cfSet _ _ (domainRegs_CR _)).cfDsb

theorem massErase_confined {S : Reg → Bool} {st s1 : State} (h : Confined S st s1)
    (sr cr : Reg) (mer : Nat) (hcr : S cr = true) :
    Confined S st (massErase s1 sr cr mer) :=
  (((h.cfSet cr _ hcr).cfSet cr _ hcr).cfWait sr).cfClear cr _ hcr

theorem EraseChip_confined (st : State) :
    Confined (domainRegs (nonSecure st)) st (EraseChip st).2 := by
  have h0 := ((Confined.cfRefl (domainRegs (nonSecure st)) st).cfWait
    (activeSR (nonSecure st))).cfWr _ FLASH_PGAERR (domainRegs_SR _)
  unfold EraseChip
  refine Confined.cfDsb ?_
  split_ifs
  · exact massErase_confined (massErase_confined h0 _ _ _ (domainRegs_CR _)) _ _ _
      (domainRegs_CR _)
  · exact massErase_confined h0 _ _ _ (domainRegs_CR _)

theorem selectPage_confined {S : Reg → Bool} {st s1 : State} (h : Confined S st s1)
    (cr : Reg) (adr : Nat) (hcr : S cr = true) :
    Confined S st (selectPage s1 cr adr).2 := by
  unfold selectPage
  split_ifs
  · exact h
  · exact h.cfSet _ _ hcr
  · exact h.cfClear _ _ hcr
  · exact h

theorem eraseStart_confined (st : State) (adr : Nat) :
    Confined (domainRegs (nonSecure st)) st (eraseStart st adr) := by
  have hc := domainRegs_CR (nonSecure st)
  have h0 := ((Confined.cfRefl (domainRegs (nonSecure st)) st).cfWr _ FLASH_PGAERR
    (domainRegs_SR _)).cfSet _ FLASH_PER hc
  unfold eraseStart
  exact (((selectPage_confined h0 _ _ hc).cfClear _ _ hc).cfSet _ _ hc).cfSet _ _ hc

theorem EraseSector_confined (st : State) (adr : Nat) :
    Confined (domainRegs (nonSecure st)) st (EraseSector st adr).2 := by
  have hc := domainRegs_CR (nonSecure st)
  have h0 := ((eraseStart_confined st adr).cfWait (activeSR (nonSecure st))).cfRead
    (activeSR (nonSecure st))
  simp only [EraseSector]
  split_ifs
  · exact h0
  · exact (h0.cfClear _ _ hc).cfClear _ _ hc

/-! ## The loop of ProgramPage -/

/-- The loop variables after one pass: the invariant is kept, `sz` has decreased, and
the buffer pointer has advanced by what `sz` has lost. -/
theorem loopBody_vars (sr : Reg) (clr : Nat) (buf : Nat → Byte) (st : State) (v : Vars)
    (hi : LoopInv v) (hz : v.sz ≠ 0) :
    LoopInv (loopBody sr clr buf st v).2 ∧ (loopBody sr clr buf st v).2.sz < v.sz ∧
    (loopBody sr clr buf st v).2.off + (loopBody sr clr buf st v).2.sz = v.off + v.sz := by
  obtain ⟨h1, h2, h3⟩ := hi
  unfold LoopInv loopBody hybridUnit
  unfold W32 at h1
  by_cases h8 : v.sz ≥ 8
  · by_cases ha : v.align ≠ 0
    · have h16 : 16 ≤ v.sz := by
        rcases h3 ha with h | h
        · exact absurd h hz
        · exact h
      simp only [if_pos h8, if_pos ha, sub32, W32]
      omega
    · simp only [if_pos h8, if_neg ha, sub32, W32]
      omega
  · simp only [if_neg h8, W32]
    omega

/-- A Hoare rule for the loop: an invariant `I` of the state and the loop variables that
implies `LoopInv` and is kept by a pass whose error test succeeds gives the
postcondition for both ways of leaving the loop, and the iteration budget is not used
up. -/
theorem progLoop_rule (sr : Reg) (clr : Nat) (buf : Nat → Byte)
    (I : State → Vars → Prop) (Post : Bool → State → Prop)
    (hinv : ∀ st v, I st v → LoopInv v)
    (hexit : ∀ st v, I st v → v.sz = 0 → Post false st)
    (hfail : ∀ st v, I st v → v.sz ≠ 0 →
      (loopPass sr clr buf st v).1 &&& FLASH_PGERR ≠ 0 →
      Post true ((loopPass sr clr buf st v).2.1.wr sr FLASH_PGERR))
    (hstep : ∀ st v, I st v → v.sz ≠ 0 →
      (loopPass sr clr buf st v).1 &&& FLASH_PGERR = 0 →
      I (loopPass sr clr buf st v).2.1 (loopPass sr clr buf st v).2.2) :
    ∀ (fuel : Nat) (st : State) (v : Vars), I st v → v.sz ≤ fuel →
      ∃ b st', progLoop sr clr buf fuel st v = some (b, st') ∧ Post b st' := by
  intro fuel
  induction fuel with
  | zero =>
    intro st v hI hle
    have hz : v.sz = 0 := by omega
    exact ⟨false, st, by simp [progLoop, hz], hexit st v hI hz⟩
  | succ n ih =>
    intro st v hI hle
    by_cases hz : v.sz = 0
    · exact ⟨false, st, by simp [progLoop, hz], hexit st v hI hz⟩
    · by_cases hf : (loopPass sr clr buf st v).1 &&& FLASH_PGERR ≠ 0
      · exact ⟨true, _, by simp only [progLoop, if_neg hz, if_pos hf], hfail st v hI hz hf⟩
      · have hf0 : (loopPass sr clr buf st v).1 &&& FLASH_PGERR = 0 := by simpa using hf
        have hv := loopBody_vars sr clr buf st v (hinv st v hI) hz
        have hlt : (loopPass sr clr buf st v).2.2.sz ≤ n := by
          have : (loopPass sr clr buf st v).2.2 = (loopBody sr clr buf st v).2 := rfl
          rw [this]; omega
        obtain ⟨b, st', e, hp⟩ := ih _ _ (hstep st v hI hz hf0) hlt
        exact ⟨b, st', by simp only [progLoop, if_neg hz, if_neg hf]; exact e, hp⟩

/-- What one pass of the loop body appends to the trace: the store of `clr` to the
status register, polls of that register, 32-bit stores, and reads of buffer bytes that
lie between the current buffer pointer and `sz` bytes further. -/
theorem loopBody_emits (P : Event → Prop) (sr : Reg) (clr : Nat) (buf : Nat → Byte)
    (st : State) (v : Vars) (hi : LoopInv v) (hz : v.sz ≠ 0)
    (hwr : P (Event.wr sr clr)) (hpoll : ∀ x, P (Event.poll sr x))
    (hst : ∀ a w, P (Event.store32 a w))
    (hbuf : ∀ o, v.off ≤ o → o < v.off + v.sz → P (Event.bufRead o)) :
    Emits P st (loopBody sr clr buf st v).1 := by
  obtain ⟨h1, h2, h3⟩ := hi
  unfold loopBody hybridUnit
  by_cases h8 : v.sz ≥ 8
  · by_cases ha : v.align ≠ 0
    · have h16 : 16 ≤ v.sz := by
        rcases h3 ha with h | h
        · exact absurd h hz
        · exact h
      simp only [if_pos h8, if_pos ha]
      refine Emits.emBuf (Emits.emWait (Emits.emTab (Emits.emWait
        (Emits.emReads (Emits.emWr (Emits.emRefl P st) sr clr hwr) _ _ ?_) sr hpoll) _ _ hst)
        sr hpoll) _ _ _ hst ?_
      · intro i hi'
        exact hbuf _ (by omega) (by omega)
      · intro i hi'
        exact hbuf _ (by omega) (by omega)
    · simp only [if_pos h8, if_neg ha]
      refine Emits.emBuf (Emits.emWait (Emits.emWr (Emits.emRefl P st) sr clr hwr)
        sr hpoll) _ _ _ hst ?_
      intro i hi'
      exact hbuf _ (by omega) (by omega)
  · simp only [if_neg h8]
    refine Emits.emTab (Emits.emWait (Emits.emReads (Emits.emRefl P st) _ _ ?_)
      sr hpoll) _ _ hst
    intro i hi'
    exact hbuf _ (by omega) (by omega)

/-- One pass of the loop body changes no register but the status register. -/
theorem loopBody_regs (sr : Reg) (clr : Nat) (buf : Nat → Byte) (st : State) (v : Vars)
    (r : Reg) (hr : r ≠ sr) : (loopBody sr clr buf st v).1.regs r = st.regs r := by
  unfold loopBody hybridUnit State.storeBuf State.storeTab
  split_ifs <;> simp [Function.update_noteq hr]

theorem loopPass_emits (P : Event → Prop) (sr : Reg) (clr : Nat) (buf : Nat → Byte)
    (st : State) (v : Vars) (hi : LoopInv v) (hz : v.sz ≠ 0)
    (hwr : P (Event.wr sr clr)) (hpoll : ∀ x, P (Event.poll sr x))
    (hchk : ∀ x, P (Event.check sr x)) (hst : ∀ a w, P (Event.store32 a w))
    (hbuf : ∀ o, v.off ≤ o → o < v.off + v.sz → P (Event.bufRead o)) :
    Emits P st (loopPass sr clr buf st v).2.1 :=
  ((loopBody_emits P sr clr buf st v hi hz hwr hpoll hst hbuf).emWait sr
    hpoll).emRead sr hchk

theorem loopPass_regs (sr : Reg) (clr : Nat) (buf : Nat → Byte) (st : State) (v : Vars)
    (r : Reg) (hr : r ≠ sr) : (loopPass sr clr buf st v).2.1.regs r = st.regs r :=
  loopBody_regs sr clr buf st v r hr

/-- The loop of `ProgramPage` ends, and everything it appends to the trace is a store to
the status register, a read of it, a 32-bit store, or a read of one of the next `sz`
bytes of the buffer; it changes no register but the status register. -/
theorem progLoop_emits (P : Event → Prop) (sr : Reg) (clr : Nat) (buf : Nat → Byte)
    (st : State) (v : Vars) (hi : LoopInv v)
    (hwr : ∀ x, P (Event.wr sr x)) (hpoll : ∀ x, P (Event.poll sr x))
    (hchk : ∀ x, P (Event.check sr x)) (hst : ∀ a w, P (Event.store32 a w))
    (hbuf : ∀ o, v.off ≤ o → o < v.off + v.sz → P (Event.bufRead o)) :
    ∃ b st', progLoop sr clr buf v.sz st v = some (b, st') ∧ Emits P st st' ∧
      ∀ r, r ≠ sr → st'.regs r = st.regs r := by
  refine progLoop_rule sr clr buf
    (fun s w => LoopInv w ∧ Emits P st s ∧ (∀ r, r ≠ sr → s.regs r = st.regs r) ∧
      ∀ o, w.off ≤ o → o < w.off + w.sz → P (Event.bufRead o))
    (fun _ s => Emits P st s ∧ ∀ r, r ≠ sr → s.regs r = st.regs r)
    (fun _ _ h => h.1) (fun _ _ h _ => ⟨h.2.1, h.2.2.1⟩) ?_ ?_ v.sz st v
    ⟨hi, Emits.emRefl P st, fun _ _ => rfl, hbuf⟩ (Nat.le_refl _)
  · intro s w h hz _
    refine ⟨(h.2.1.emTrans (loopPass_emits P sr clr buf s w h.1 hz (hwr _) hpoll hchk hst
      h.2.2.2)).emWr _ _ (hwr _), ?_⟩
    intro r hr
    rw [wr_regs, Function.update_noteq hr, loopPass_regs sr clr buf s w r hr]
    exact h.2.2.1 r hr
  · intro s w h hz _
    have hv := loopBody_vars sr clr buf s w h.1 hz
    refine ⟨hv.1, h.2.1.emTrans (loopPass_emits P sr clr buf s w h.1 hz (hwr _) hpoll hchk hst
      h.2.2.2), ?_, ?_⟩
    · intro r hr
      rw [loopPass_regs sr clr buf s w r hr]
      exact h.2.2.1 r hr
    · intro o ho1 ho2
      have e : (loopPass sr clr buf s w).2.2 = (loopBody sr clr buf s w).2 := rfl
      rw [e] at ho1 ho2
      exact h.2.2.2 o (by omega) (by omega)

/-! ## ProgramPage -/

/-- The rounding `(sz + 15) & ~15` is the 32-bit sum rounded down to a multiple of 16. -/
theorem roundSize_eq (sz : Nat) : roundSize sz = (sz + 15) % W32 / 16 * 16 := by
  have hlt : (sz + 15) % W32 < 2 ^ 32 := by
    rw [← W32_eq]; exact Nat.mod_lt _ (by decide)
  have e : (sz + 15) % W32 / 16 * 16 = (((sz + 15) % W32) >>> 4) <<< 4 := by
    rw [Nat.shiftLeft_eq, Nat.shiftRight_eq_div_pow]
  unfold roundSize
  rw [e]
  apply Nat.eq_of_testBit_eq
  intro i
  have h15 : (15 : Nat).testBit i = decide (i < 4) := by
    have : (15 : Nat) = 2 ^ 4 - 1 := by decide
    rw [this, Nat.testBit_two_pow_sub_one]
  rw [Nat.testBit_and, testBit_not32, h15, Nat.testBit_shiftLeft, Nat.testBit_shiftRight]
  by_cases h4 : i < 4
  · simp [h4]
  · have h4' : 4 ≤ i := by omega
    have e2 : 4 + (i - 4) = i := by omega
    by_cases h32 : i < 32
    · simp [h4, h32, h4', e2]
    · have : ((sz + 15) % W32).testBit i = false := by
        apply Nat.testBit_lt_two_pow
        calc (sz + 15) % W32 < 2 ^ 32 := hlt
          _ ≤ 2 ^ i := Nat.pow_le_pow_right (by decide) (by omega)
      simp [this, e2]

/-- When `sz + 15` does not wrap, the rounded size is `sz` rounded up to a multiple of
16. -/
theorem roundSize_of_lt (sz : Nat) (h : sz + 15 < W32) : roundSize sz = (sz + 15) / 16 * 16 := by
  rw [roundSize_eq, Nat.mod_eq_of_lt h]

theorem roundSize_lt (sz : Nat) : roundSize sz < W32 := by
  rw [roundSize_eq]
  have : (sz + 15) % W32 < W32 := Nat.mod_lt _ (by decide)
  omega

theorem roundSize_mod (sz : Nat) : roundSize sz % 16 = 0 := by
  rw [roundSize_eq]; omega

/-- The loop variables `ProgramPage` starts with satisfy the loop invariant. -/
theorem LoopInv_start (adr sz : Nat) :
    LoopInv { adr := adr, sz := roundSize sz, off := 0, align := adr % 8 } := by
  have h1 := roundSize_lt sz
  have h2 := roundSize_mod sz
  refine ⟨h1, Nat.mod_lt _ (by decide), fun _ => ?_⟩
  show roundSize sz = 0 ∨ 16 ≤ roundSize sz
  omega

/-- The status register `ProgramPage` uses, its control register, and the value it stores
to the status register at the head of a full iteration. -/
theorem ProgramPage_eq (st : State) (adr sz : Nat) (buf : Nat → Byte) :
    ProgramPage st adr sz buf =
      (progLoop (activeSR (nonSecure st)) (if nonSecure st then FLASH_PGAERR else 0x000001FF)
        buf (roundSize sz)
        (if nonSecure st then st.wr Reg.NSCR1 FLASH_PG
          else (st.wr Reg.SECSR FLASH_PGERR).wr Reg.SECCR1 FLASH_PG)
        { adr := adr, sz := roundSize sz, off := 0, align := adr % 8 }).map
      fun r => if r.1 then (1, r.2) else (0, r.2.wr (activeCR (nonSecure st)) 0) := by
  unfold ProgramPage
  cases nonSecure st <;> simp [activeSR, activeCR]

/-- `ProgramPage` returns 0 or 1; what it appends to the trace are stores to its status
and control registers, reads of its status register, 32-bit stores, and reads of buffer
bytes at offsets below the rounded size; registers other than its status and control
register are unchanged. -/
theorem ProgramPage_emits (P : Event → Prop) (st : State) (adr sz : Nat) (buf : Nat → Byte)
    (hwrS : ∀ x, P (Event.wr (activeSR (nonSecure st)) x))
    (hwrC : ∀ x, P (Event.wr (activeCR (nonSecure st)) x))
    (hpoll : ∀ x, P (Event.poll (activeSR (nonSecure st)) x))
    (hchk : ∀ x, P (Event.check (activeSR (nonSecure st)) x))
    (hst : ∀ a w, P (Event.store32 a w))
    (hbuf : ∀ o, o < roundSize sz → P (Event.bufRead o)) :
    ∃ r st', ProgramPage st adr sz buf = some (r, st') ∧ (r = 0 ∨ r = 1) ∧ Emits P st st' ∧
      ∀ x, x ≠ activeSR (nonSecure st) → x ≠ activeCR (nonSecure st) →
        st'.regs x = st.regs x := by
  have h0 : Emits P st (if nonSecure st then st.wr Reg.NSCR1 FLASH_PG
      else (st.wr Reg.SECSR FLASH_PGERR).wr Reg.SECCR1 FLASH_PG) ∧
      ∀ x, x ≠ activeSR (nonSecure st) → x ≠ activeCR (nonSecure st) →
        (if nonSecure st then st.wr Reg.NSCR1 FLASH_PG
          else (st.wr Reg.SECSR FLASH_PGERR).wr Reg.SECCR1 FLASH_PG).regs x = st.regs x := by
    cases h : nonSecure st
    · rw [h] at hwrS hwrC
      refine ⟨((Emits.emRefl P st).emWr _ _ (hwrS _)).emWr _ _ (hwrC _), ?_⟩
      intro x h1 h2
      simp only [Bool.false_eq_true, if_false, wr_regs]
      rw [Function.update_noteq (show x ≠ Reg.SECCR1 from h2),
        Function.update_noteq (show x ≠ Reg.SECSR from h1)]
    · rw [h] at hwrC
      refine ⟨(Emits.emRefl P st).emWr _ _ (hwrC _), ?_⟩
      intro x h1 h2
      simp only [if_true, wr_regs]
      rw [Function.update_noteq (show x ≠ Reg.NSCR1 from h2)]
  obtain ⟨b, s1, e, hE, hR⟩ := progLoop_emits P (activeSR (nonSecure st))
    (if nonSecure st then FLASH_PGAERR else 0x000001FF) buf
    (if nonSecure st then st.wr Reg.NSCR1 FLASH_PG
      else (st.wr Reg.SECSR FLASH_PGERR).wr Reg.SECCR1 FLASH_PG)
    { adr := adr, sz := roundSize sz, off := 0, align := adr % 8 } (LoopInv_start adr sz)
    hwrS hpoll hchk hst (fun o _ ho => hbuf o (by simpa using ho))
  rw [ProgramPage_eq]
  have e' : progLoop (activeSR (nonSecure st))
      (if nonSecure st then FLASH_PGAERR else 0x000001FF) buf (roundSize sz)
      (if nonSecure st then st.wr Reg.NSCR1 FLASH_PG
        else (st.wr Reg.SECSR FLASH_PGERR).wr Reg.SECCR1 FLASH_PG)
      { adr := adr, sz := roundSize sz, off := 0, align := adr % 8 } = some (b, s1) := e
  rw [e']
  cases b
  · refine ⟨0, s1.wr (activeCR (nonSecure st)) 0, by simp, Or.inl rfl,
      (h0.1.emTrans hE).emWr _ _ (hwrC _), ?_⟩
    intro x h1 h2
    rw [wr_regs, Function.update_noteq h2, hR x h1, h0.2 x h1 h2]
  · refine ⟨1, s1, by simp, Or.inr rfl, h0.1.emTrans hE, ?_⟩
    intro x h1 h2
    rw [hR x h1, h0.2 x h1 h2]

/-- `ProgramPage` returns, and its stores to registers stay within the register set of
the branch taken. -/
theorem ProgramPage_confined (st : State) (adr sz : Nat) (buf : Nat → Byte) :
    ∃ r st', ProgramPage st adr sz buf = some (r, st') ∧
      Confined (domainRegs (nonSecure st)) st st' := by
  obtain ⟨r, st', e, _, hE, hR⟩ := ProgramPage_emits
    (fun e => ∀ r v, e = Event.wr r v → domainRegs (nonSecure st) r = true) st adr sz buf
    (fun _ _ _ h => by cases h; exact domainRegs_SR _)
    (fun _ _ _ h => by cases h; exact domainRegs_CR _)
    (fun _ _ _ h => by cases h) (fun _ _ _ h => by cases h) (fun _ _ _ _ h => by cases h)
    (fun _ _ _ _ h => by cases h)
  refine ⟨r, st', e, hE, ?_⟩
  intro x hx
  apply hR
  · intro h; rw [h, domainRegs_SR] at hx; cases hx
  · intro h; rw [h, domainRegs_CR] at hx; cases hx

/-! ## Memory -/

theorem byteOf_word32 (t : Nat → Byte) (i : Nat) (hi : i < 4) :
    byteOf (word32 t) i = t i := by
  have h0 := (t 0).isLt
  have h1 := (t 1).isLt
  have h2 := (t 2).isLt
  have h3 := (t 3).isLt
  apply Fin.ext
  unfold byteOf word32
  interval_cases i <;> simp <;> omega

theorem blit_zero (m : Nat → Byte) (a : Nat) (src : Nat → Byte) : blit m a 0 src = m := by
  funext x
  simp [blit]

theorem blit_congr (m : Nat → Byte) (a n : Nat) (s s' : Nat → Byte)
    (h : ∀ j, j < n → s j = s' j) : blit m a n s = blit m a n s' := by
  funext x
  unfold blit
  split_ifs with hx
  · exact h _ hx.2
  · rfl

/-- Storing `n'` bytes right after `n` bytes is storing `n + n'` bytes. -/
theorem blit_blit (m : Nat → Byte) (a n n' : Nat) (s s' : Nat → Byte) (ha : a < W32)
    (hn : n + n' ≤ W32) :
    blit (blit m a n s) ((a + n) % W32) n' s' =
      blit m a (n + n') (fun j => if j < n then s j else s' (j - n)) := by
  funext x
  unfold blit W32
  unfold W32 at ha hn
  by_cases hx : x < 4294967296
  · by_cases h1 : (x + 4294967296 - a % 4294967296) % 4294967296 < n
    · have h2 : ¬ (x + 4294967296 - (a + n) % 4294967296 % 4294967296) % 4294967296 < n' := by
        omega
      have h3 : (x + 4294967296 - a % 4294967296) % 4294967296 < n + n' := by omega
      simp only [hx, h1, h2, h3, true_and, and_false, and_self, if_true, if_false]
    · by_cases h2 : (x + 4294967296 - (a + n) % 4294967296 % 4294967296) % 4294967296 < n'
      · have h3 : (x + 4294967296 - a % 4294967296) % 4294967296 < n + n' := by omega
        have h4 : (x + 4294967296 - (a + n) % 4294967296 % 4294967296) % 4294967296 =
            (x + 4294967296 - a % 4294967296) % 4294967296 - n := by omega
        rw [if_pos ⟨hx, h2⟩, if_pos ⟨hx, h3⟩]
        simp only [h1, if_false, h4]
      · have h3 : ¬ (x + 4294967296 - a % 4294967296) % 4294967296 < n + n' := by omega
        simp only [hx, h1, h2, h3, true_and, and_false, if_false]
  · simp only [hx, false_and, if_false]

/-- The two 32-bit stores of a double word at an 8-byte aligned address store the eight
bytes of the table. -/
theorem storeTab_mem (st : State) (a : Nat) (tab : Nat → Byte) (h8 : a % 8 = 0)
    (ha : a < W32) : (st.storeTab a tab).mem = blit st.mem a 8 tab := by
  funext x
  unfold W32 at ha
  have e4 : add32 a 4 = a + 4 := by unfold add32 W32; omega
  simp only [State.storeTab, M32_mem, e4, blit, W32]
  by_cases h1 : a + 4 ≤ x ∧ x < a + 4 + 4
  · have h2 : x < 4294967296 ∧ (x + 4294967296 - a % 4294967296) % 4294967296 < 8 := by
      omega
    have h3 : (x + 4294967296 - a % 4294967296) % 4294967296 = x - (a + 4) + 4 := by omega
    rw [if_pos h1, if_pos h2, h3, byteOf_word32 _ _ (by omega)]
  · rw [if_neg h1]
    by_cases h4 : a ≤ x ∧ x < a + 4
    · have h2 : x < 4294967296 ∧ (x + 4294967296 - a % 4294967296) % 4294967296 < 8 := by
        omega
      have h3 : (x + 4294967296 - a % 4294967296) % 4294967296 = x - a := by omega
      rw [if_pos h4, if_pos h2, h3, byteOf_word32 _ _ (by omega)]
    · have h2 : ¬ (x < 4294967296 ∧ (x + 4294967296 - a % 4294967296) % 4294967296 < 8) := by
        omega
      rw [if_neg h4, if_neg h2]

/-- The two 32-bit stores of a double word read from the buffer store its next eight
bytes. -/
theorem storeBuf_mem (st : State) (a : Nat) (buf : Nat → Byte) (off : Nat) (h8 : a % 8 = 0)
    (ha : a < W32) :
    (st.storeBuf a buf off).mem = blit st.mem a 8 (fun j => buf (off + j)) := by
  have e : (st.storeBuf a buf off).mem = (st.storeTab a (fun j => buf (off + j))).mem := by
    funext x
    simp only [State.storeBuf, State.storeTab, M32_mem, logReads_mem, Nat.add_assoc,
      Nat.add_comm 4]
  rw [e, storeTab_mem st a _ h8 ha]

/-- A full iteration entered with `align = 0`: the next eight bytes of the buffer go to
`adr`. -/
theorem loopBody_full (sr : Reg) (clr : Nat) (buf : Nat → Byte) (st : State) (v : Vars)
    (h8 : v.sz ≥ 8) (ha : v.align = 0) (hm : v.adr % 8 = 0) (hlt : v.adr < W32) :
    (loopBody sr clr buf st v).1.mem = blit st.mem v.adr 8 (fun j => buf (v.off + j)) ∧
    (loopBody sr clr buf st v).2 =
      { adr := add32 v.adr 8, sz := sub32 v.sz 8, off := v.off + 8, align := 0 } := by
  unfold loopBody
  simp only [if_pos h8, ha, ne_eq, not_true_eq_false, if_false]
  exact ⟨by rw [storeBuf_mem _ _ _ _ hm hlt]; rfl, trivial⟩

/-- The last iteration, entered with `0 < sz < 8`: the remaining bytes of the buffer
followed by `0xFF` go to `adr`. -/
theorem loopBody_tail (sr : Reg) (clr : Nat) (buf : Nat → Byte) (st : State) (v : Vars)
    (h8 : ¬ v.sz ≥ 8) (hm : v.adr % 8 = 0) (hlt : v.adr < W32) :
    (loopBody sr clr buf st v).1.mem =
      blit st.mem v.adr 8 (fun j => if j < v.sz then buf (v.off + j) else 0xFF) ∧
    (loopBody sr clr buf st v).2 =
      { adr := v.adr, sz := 0, off := v.off + v.sz, align := v.align } := by
  unfold loopBody
  simp only [if_neg h8]
  exact ⟨by rw [storeTab_mem _ _ _ hm hlt]; rfl, trivial⟩

/-- The first iteration of a call with an unaligned address: the `align` bytes found
before `adr` and the first `8 - align` bytes of the buffer go to `adr - align`, the next
eight bytes of the buffer to the double word after it. -/
theorem loopBody_hybrid (sr : Reg) (clr : Nat) (buf : Nat → Byte) (st : State) (v : Vars)
    (h8 : v.sz ≥ 8) (ha : v.align ≠ 0) (hal : v.align = v.adr % 8) (hlt : v.adr < W32) :
    (loopBody sr clr buf st v).1.mem =
      blit st.mem (v.adr - v.align) 16
        (fun j => if j < v.align then st.mem (v.adr - v.align + j)
          else buf (v.off + (j - v.align))) ∧
    (loopBody sr clr buf st v).2 =
      { adr := add32 (add32 v.adr (8 - v.align)) 8,
        sz := sub32 (sub32 v.sz (8 - v.align)) 8,
        off := v.off + (8 - v.align) + 8, align := 0 } := by
  have hW : W32 = 4294967296 := rfl
  have hA : sub32 v.adr v.align = v.adr - v.align := by
    unfold sub32; rw [hW] at hlt ⊢; omega
  have hA8 : (v.adr - v.align) % 8 = 0 := by omega
  have hAlt : v.adr - v.align < W32 := by omega
  have hB : add32 v.adr (8 - v.align) = (v.adr - v.align + 8) % W32 := by
    unfold add32; rw [hW] at hlt ⊢; omega
  have hB8 : (v.adr - v.align + 8) % W32 % 8 = 0 := by rw [hW] at hlt ⊢; omega
  have hBlt : (v.adr - v.align + 8) % W32 < W32 := Nat.mod_lt _ (by decide)
  unfold loopBody hybridUnit
  simp only [if_pos h8, if_pos ha]
  refine ⟨?_, trivial⟩
  simp only [hA, hB]
  rw [storeBuf_mem _ _ _ _ hB8 hBlt]
  simp only [waitNotBusy_mem]
  rw [storeTab_mem _ _ _ hA8 hAlt]
  simp only [waitNotBusy_mem, logReads_mem, wr_mem]
  rw [blit_blit _ _ 8 8 _ _ hAlt (by rw [hW]; omega)]
  apply blit_congr
  intro j hj
  by_cases h1 : j < 8
  · by_cases h2 : j < v.align
    · have e : add32 (v.adr - v.align) j = v.adr - v.align + j := by
        unfold add32; rw [hW] at hlt ⊢; omega
      simp only [h1, h2, if_true, e]
    · simp only [h1, h2, if_true, if_false]
  · have h2 : ¬ j < v.align := by omega
    simp only [h1, h2, if_false]
    exact congrArg buf (by omega)

/-- One pass of the loop keeps the memory invariant. -/
theorem MemInv_step (sr : Reg) (clr : Nat) (m0 : Nat → Byte) (adr sz : Nat)
    (buf : Nat → Byte) (hadr : adr < W32) (st : State) (v : Vars)
    (hI : MemInv m0 adr sz buf st v) (hz : v.sz ≠ 0) :
    MemInv m0 adr sz buf (loopPass sr clr buf st v).2.1 (loopPass sr clr buf st v).2.2 := by
  have hW : W32 = 4294967296 := rfl
  have hR1 := roundSize_lt sz
  have hR2 := roundSize_mod sz
  obtain ⟨hL, hsum, hcase⟩ := hI
  have hv := loopBody_vars sr clr buf st v hL hz
  have e1 : (loopPass sr clr buf st v).2.1.mem = (loopBody sr clr buf st v).1.mem := rfl
  have e2 : (loopPass sr clr buf st v).2.2 = (loopBody sr clr buf st v).2 := rfl
  have hAlt : adr - adr % 8 < W32 := by omega
  refine ⟨by rw [e2]; exact hv.1, by rw [e2, hv.2.2]; exact hsum, Or.inr ?_⟩
  rw [e1, e2]
  rcases hcase with ⟨hal, ha0, hoff, hvadr, hmem⟩ | ⟨hal, hmem, hrest⟩
  · -- first iteration of an unaligned call
    have h16 : 16 ≤ v.sz := by
      rcases hL.2.2 (by rw [hal]; exact ha0) with h | h
      · exact absurd h hz
      · exact h
    obtain ⟨hm, hvars⟩ := loopBody_hybrid sr clr buf st v (by omega) (by rw [hal]; exact ha0)
      (by rw [hal, hvadr]) (by rw [hvadr]; exact hadr)
    rw [hm, hvars]
    refine ⟨rfl, ?_, fun _ => ?_⟩
    · have e16 : (adr % 8 + (v.off + (8 - v.align) + 8) + 7) / 8 * 8 = 16 := by
        show (adr % 8 + (v.off + (8 - v.align) + 8) + 7) / 8 * 8 = 16
        rw [hoff, hal]; omega
      show _ = blit m0 (adr - adr % 8) ((adr % 8 + (v.off + (8 - v.align) + 8) + 7) / 8 * 8) _
      rw [e16, hvadr, hal, hmem, hoff]
      apply blit_congr
      intro j hj
      unfold pageStream
      by_cases h1 : j < adr % 8
      · simp only [h1, if_true]
      · have h2 : j < adr % 8 + roundSize sz := by omega
        simp only [h1, h2, if_true, if_false]
        exact congrArg buf (by omega)
    · show (adr % 8 + (v.off + (8 - v.align) + 8)) % 8 = 0 ∧
        add32 (add32 v.adr (8 - v.align)) 8 = (adr + (v.off + (8 - v.align) + 8)) % W32
      rw [hoff, hal, hvadr]
      unfold add32
      rw [hW] at hadr ⊢
      omega
  · obtain ⟨hmod, hvadr⟩ := hrest hz
    have hm8 : v.adr % 8 = 0 := by rw [hvadr, hW]; omega
    have hlt : v.adr < W32 := by rw [hvadr]; exact Nat.mod_lt _ (by decide)
    have hpad : (adr % 8 + v.off + 7) / 8 * 8 = adr % 8 + v.off := by omega
    have hbase : v.adr = (adr - adr % 8 + (adr % 8 + v.off)) % W32 := by
      rw [hvadr]; congr 1; omega
    by_cases h8 : v.sz ≥ 8
    · -- a full iteration
      obtain ⟨hm, hvars⟩ := loopBody_full sr clr buf st v h8 hal hm8 hlt
      rw [hm, hvars]
      refine ⟨rfl, ?_, fun _ => ?_⟩
      · show _ = blit m0 (adr - adr % 8) ((adr % 8 + (v.off + 8) + 7) / 8 * 8) _
        have hpad' : (adr % 8 + (v.off + 8) + 7) / 8 * 8 = adr % 8 + v.off + 8 := by omega
        rw [hpad', hmem, hpad, hbase, blit_blit _ _ _ _ _ _ hAlt (by rw [hW] at hR1 ⊢; omega)]
        apply blit_congr
        intro j hj
        by_cases h1 : j < adr % 8 + v.off
        · simp only [h1, if_true]
        · simp only [h1, if_false]
          unfold pageStream
          have h2 : ¬ j < adr % 8 := by omega
          have h3 : j < adr % 8 + roundSize sz := by omega
          simp only [h2, h3, if_true, if_false]
          exact congrArg buf (by omega)
      · show (adr % 8 + (v.off + 8)) % 8 = 0 ∧ add32 v.adr 8 = (adr + (v.off + 8)) % W32
        rw [hvadr]
        unfold add32
        rw [hW]
        omega
    · -- the last, padded iteration
      obtain ⟨hm, hvars⟩ := loopBody_tail sr clr buf st v h8 hm8 hlt
      rw [hm, hvars]
      refine ⟨hal, ?_, fun h => absurd rfl h⟩
      show _ = blit m0 (adr - adr % 8) ((adr % 8 + (v.off + v.sz) + 7) / 8 * 8) _
      have hpad' : (adr % 8 + (v.off + v.sz) + 7) / 8 * 8 = adr % 8 + v.off + 8 := by omega
      rw [hpad', hmem, hpad, hbase, blit_blit _ _ _ _ _ _ hAlt (by rw [hW] at hR1 ⊢; omega)]
      apply blit_congr
      intro j hj
      by_cases h1 : j < adr % 8 + v.off
      · simp only [h1, if_true]
      · simp only [h1, if_false]
        unfold pageStream
        have h2 : ¬ j < adr % 8 := by omega
        by_cases h3 : j < adr % 8 + roundSize sz
        · have h4 : j - (adr % 8 + v.off) < v.sz := by omega
          simp only [h2, h3, h4, if_true, if_false]
          exact congrArg buf (by omega)
        · have h4 : ¬ j - (adr % 8 + v.off) < v.sz := by omega
          simp only [h2, h3, h4, if_false]

/-- When the loop of `ProgramPage` ends without a failed error test, memory holds the
whole of `pageStream`, rounded up to a double word, from `adr - adr % 8` on. -/
theorem progLoop_mem (sr : Reg) (clr : Nat) (m0 : Nat → Byte) (adr sz : Nat)
    (buf : Nat → Byte) (hadr : adr < W32) (hR : roundSize sz ≠ 0) (st : State) (v : Vars)
    (hI : MemInv m0 adr sz buf st v) :
    ∃ b st', progLoop sr clr buf v.sz st v = some (b, st') ∧
      (b = false → st'.mem = blit m0 (adr - adr % 8) ((adr % 8 + roundSize sz + 7) / 8 * 8)
        (pageStream m0 adr sz buf)) := by
  refine progLoop_rule sr clr buf (MemInv m0 adr sz buf)
    (fun b s => b = false → s.mem = blit m0 (adr - adr % 8)
      ((adr % 8 + roundSize sz + 7) / 8 * 8) (pageStream m0 adr sz buf))
    (fun _ _ h => h.1) ?_ (fun _ _ _ _ _ h => by cases h)
    (fun s w h hz _ => MemInv_step sr clr m0 adr sz buf hadr s w h hz) v.sz st v hI
    (Nat.le_refl _)
  intro s w h hz _
  obtain ⟨_, hsum, hcase⟩ := h
  rcases hcase with ⟨_, _, hoff, _, _⟩ | ⟨_, hmem, _⟩
  · exact absurd (by omega) hR
  · have : w.off = roundSize sz := by omega
    rw [hmem, this]

/-- The memory invariant holds when `ProgramPage` enters its loop. -/
theorem MemInv_start (st : State) (adr sz : Nat) (buf : Nat → Byte) (hadr : adr < W32) :
    MemInv st.mem adr sz buf st
      { adr := adr, sz := roundSize sz, off := 0, align := adr % 8 } := by
  refine ⟨LoopInv_start adr sz, by simp, ?_⟩
  by_cases ha : adr % 8 = 0
  · refine Or.inr ⟨ha, ?_, fun _ => ⟨?_, ?_⟩⟩
    · show st.mem = blit st.mem (adr - adr % 8) ((adr % 8 + 0 + 7) / 8 * 8) _
      have : (adr % 8 + 0 + 7) / 8 * 8 = 0 := by omega
      rw [this, blit_zero]
    · show (adr % 8 + 0) % 8 = 0
      omega
    · show adr = (adr + 0) % W32
      rw [Nat.add_zero, Nat.mod_eq_of_lt hadr]
  · exact Or.inl ⟨rfl, ha, rfl, rfl, rfl⟩

/-- `ProgramPage` returns, and when it returns 0 memory holds the whole of `pageStream`,
rounded up to a double word, from `adr - adr % 8` on. -/
theorem ProgramPage_mem (st : State) (adr sz : Nat) (buf : Nat → Byte) (hadr : adr < W32)
    (hR : roundSize sz ≠ 0) :
    ∃ r st', ProgramPage st adr sz buf = some (r, st') ∧
      (r = 0 → st'.mem = blit st.mem (adr - adr % 8) ((adr % 8 + roundSize sz + 7) / 8 * 8)
        (pageStream st.mem adr sz buf)) := by
  have hI : MemInv st.mem adr sz buf
      (if nonSecure st then st.wr Reg.NSCR1 FLASH_PG
        else (st.wr Reg.SECSR FLASH_PGERR).wr Reg.SECCR1 FLASH_PG)
      { adr := adr, sz := roundSize sz, off := 0, align := adr % 8 } := by
    have := MemInv_start st adr sz buf hadr
    cases nonSecure st <;> exact this
  obtain ⟨b, s1, e, hm⟩ := progLoop_mem (activeSR (nonSecure st))
    (if nonSecure st then FLASH_PGAERR else 0x000001FF) st.mem adr sz buf hadr hR _ _ hI
  rw [ProgramPage_eq]
  have e' : progLoop (activeSR (nonSecure st))
      (if nonSecure st then FLASH_PGAERR else 0x000001FF) buf (roundSize sz)
      (if nonSecure st then st.wr Reg.NSCR1 FLASH_PG
        else (st.wr Reg.SECSR FLASH_PGERR).wr Reg.SECCR1 FLASH_PG)
      { adr := adr, sz := roundSize sz, off := 0, align := adr % 8 } = some (b, s1) := e
  rw [e']
  cases b
  · exact ⟨0, s1.wr (activeCR (nonSecure st)) 0, by simp, fun _ => hm rfl⟩
  · exact ⟨1, s1, by simp, fun h => by cases h⟩

/-! ## A quiet controller -/

theorem Quiet_tail (hw : List Nat) (h : Quiet hw) : Quiet hw.tail :=
  fun v hv => h v (List.mem_of_mem_tail hv)

theorem Quiet_head (hw : List Nat) (h : Quiet hw) :
    hw.headD 0 &&& FLASH_BSY = 0 ∧ hw.headD 0 &&& FLASH_PGERR = 0 := by
  cases hw with
  | nil => exact ⟨by decide, by decide⟩
  | cons v rest => exact h v (List.mem_cons_self _ _)

/-- On a quiet controller a busy wait takes one read. -/
theorem pollBusy_quiet (sr : Reg) (hw : List Nat) (h : Quiet hw) :
    pollBusy sr hw = ([Event.poll sr (hw.headD 0)], hw.tail) := by
  cases hw with
  | nil => rfl
  | cons v rest =>
    have := (h v (List.mem_cons_self _ _)).1
    simp [pollBusy, this]

theorem Quiet_waitNotBusy (st : State) (sr : Reg) (h : Quiet st.hw) :
    Quiet (st.waitNotBusy sr).hw := by
  rw [waitNotBusy_hw, pollBusy_quiet sr st.hw h]
  exact Quiet_tail _ h

/-- One pass of the loop on a quiet controller: the error test sees no flag, and the
controller stays quiet. -/
theorem loopPass_quiet (sr : Reg) (clr : Nat) (buf : Nat → Byte) (st : State) (v : Vars)
    (h : Quiet st.hw) :
    (loopPass sr clr buf st v).1 &&& FLASH_PGERR = 0 ∧
    Quiet (loopPass sr clr buf st v).2.1.hw := by
  have hb : Quiet (loopBody sr clr buf st v).1.hw := by
    unfold loopBody hybridUnit State.storeBuf State.storeTab
    split_ifs
    · exact Quiet_waitNotBusy _ _ (Quiet_waitNotBusy _ _ h)
    · exact Quiet_waitNotBusy _ _ h
    · exact Quiet_waitNotBusy _ _ h
  have hw := Quiet_waitNotBusy _ sr hb
  exact ⟨(Quiet_head _ hw).2, Quiet_tail _ hw⟩

/-- On a quiet controller `ProgramPage` returns 0. -/
theorem ProgramPage_quiet (st : State) (adr sz : Nat) (buf : Nat → Byte)
    (hq : Quiet st.hw) : ∃ st', ProgramPage st adr sz buf = some (0, st') := by
  obtain ⟨b, s1, e, hb⟩ := progLoop_rule (activeSR (nonSecure st))
    (if nonSecure st then FLASH_PGAERR else 0x000001FF) buf
    (fun s w => LoopInv w ∧ Quiet s.hw) (fun b _ => b = false)
    (fun _ _ h => h.1) (fun _ _ _ _ => rfl)
    (fun s w h _ hf => absurd (loopPass_quiet _ _ buf s w h.2).1 hf)
    (fun s w h hz _ => ⟨by
        have e2 : (loopPass (activeSR (nonSecure st))
          (if nonSecure st then FLASH_PGAERR else 0x000001FF) buf s w).2.2 =
            (loopBody (activeSR (nonSecure st))
              (if nonSecure st then FLASH_PGAERR else 0x000001FF) buf s w).2 := rfl
        rw [e2]; exact (loopBody_vars _ _ buf s w h.1 hz).1,
      (loopPass_quiet _ _ buf s w h.2).2⟩)
    (roundSize sz)
    (if nonSecure st then st.wr Reg.NSCR1 FLASH_PG
      else (st.wr Reg.SECSR FLASH_PGERR).wr Reg.SECCR1 FLASH_PG)
    { adr := adr, sz := roundSize sz, off := 0, align := adr % 8 }
    ⟨LoopInv_start adr sz, by cases nonSecure st <;> exact hq⟩ (Nat.le_refl _)
  rw [ProgramPage_eq, e, hb]
  exact ⟨s1.wr (activeCR (nonSecure st)) 0, by simp⟩

theorem blit_apply (m : Nat → Byte) (a n : Nat) (s : Nat → Byte) (x d : Nat) (hx : x < W32)
    (hd : (x + W32 - a % W32) % W32 = d) (hdn : d < n) : blit m a n s x = s d := by
  unfold blit
  rw [hd, if_pos ⟨hx, hdn⟩]

/-- Every pass of the loop body ends with a 32-bit store, and reads the status register
only in busy waits. -/
theorem loopBody_ends_with_store (sr : Reg) (clr : Nat) (buf : Nat → Byte) (st : State)
    (v : Vars) :
    ∃ s0 a w, (loopBody sr clr buf st v).1 = s0.M32 a w ∧
      Emits (fun e => ∀ r u, e ≠ Event.check r u) st s0 := by
  have hwr : ∀ r x, ∀ r' u, Event.wr r x ≠ Event.check r' u := fun _ _ _ _ h => by cases h
  have hpoll : ∀ x, ∀ r u, Event.poll sr x ≠ Event.check r u := fun _ _ _ h => by cases h
  have hst : ∀ a w, ∀ r u, Event.store32 a w ≠ Event.check r u := fun _ _ _ _ h => by cases h
  have hrd : ∀ o n i, i < n → ∀ r u, Event.bufRead (o + i) ≠ Event.check r u :=
    fun _ _ _ _ _ _ h => by cases h
  unfold loopBody hybridUnit State.storeBuf State.storeTab
  split_ifs
  · refine ⟨_, _, _, rfl, ?_⟩
    refine Emits.emReads ?_ _ _ (hrd _ _)
    refine Emits.emM32 ?_ _ _ (hst _ _)
    refine Emits.emReads ?_ _ _ (hrd _ _)
    refine Emits.emWait ?_ sr hpoll
    refine Emits.emM32 ?_ _ _ (hst _ _)
    refine Emits.emM32 ?_ _ _ (hst _ _)
    refine Emits.emWait ?_ sr hpoll
    refine Emits.emReads ?_ _ _ (hrd _ _)
    exact Emits.emWr (Emits.emRefl _ st) sr clr (hwr _ _)
  · refine ⟨_, _, _, rfl, ?_⟩
    refine Emits.emReads ?_ _ _ (hrd _ _)
    refine Emits.emM32 ?_ _ _ (hst _ _)
    refine Emits.emReads ?_ _ _ (hrd _ _)
    refine Emits.emWait ?_ sr hpoll
    exact Emits.emWr (Emits.emRefl _ st) sr clr (hwr _ _)
  · refine ⟨_, _, _, rfl, ?_⟩
    refine Emits.emM32 ?_ _ _ (hst _ _)
    refine Emits.emWait ?_ sr hpoll
    exact Emits.emReads (Emits.emRefl _ st) _ _ (hrd _ _)

/-- The trace of one pass of the loop: events without a read by an error test, then a
32-bit store, the polls of the busy wait, and the read of the error test. -/
theorem loopPass_trace (sr : Reg) (clr : Nat) (buf : Nat → Byte) (st : State) (v : Vars) :
    ∃ l a w ps, (loopPass sr clr buf st v).2.1.trace =
        st.trace ++ (l ++ [Event.store32 a w] ++ ps ++
          [Event.check sr (loopPass sr clr buf st v).1]) ∧
      (∀ e ∈ l, ∀ r u, e ≠ Event.check r u) ∧ (∀ e ∈ ps, ∃ p, e = Event.poll sr p) := by
  obtain ⟨s0, a, w, e, l, hl, hp⟩ := loopBody_ends_with_store sr clr buf st v
  refine ⟨l, a, w, (pollBusy sr (loopBody sr clr buf st v).1.hw).1, ?_, hp,
    pollBusy_events sr _⟩
  have e1 : (loopPass sr clr buf st v).1 =
      ((loopBody sr clr buf st v).1.waitNotBusy sr).nextStatus := rfl
  show ((loopBody sr clr buf st v).1.waitNotBusy sr).trace ++ _ = _
  rw [waitNotBusy_trace, e1, e, M32_trace, hl]
  simp only [List.append_assoc, M32_hw]

theorem CleanChecks_append (sr : Reg) (l1 l2 : List Event) (h1 : CleanChecks sr l1)
    (h2 : CleanChecks sr l2) : CleanChecks sr (l1 ++ l2) := by
  intro u hu
  rcases List.mem_append.1 hu with h | h
  · exact h1 u h
  · exact h2 u h

theorem CleanChecks_of_no_check (sr : Reg) (l : List Event)
    (h : ∀ e ∈ l, ∀ r u, e ≠ Event.check r u) : CleanChecks sr l :=
  fun u hu => absurd rfl (h _ hu sr u)

theorem CleanChecks_polls (sr : Reg) (ps : List Event)
    (h : ∀ e ∈ ps, ∃ p, e = Event.poll sr p) : CleanChecks sr ps := by
  intro u hu
  obtain ⟨p, hp⟩ := h _ hu
  cases hp

/-- The loop of `ProgramPage` ends; if it ends with `sz = 0` every error test passed, and
if it ends on a failed error test that test and the reset of the flags are the last two
events. -/
theorem progLoop_result (sr : Reg) (clr : Nat) (buf : Nat → Byte) (st : State) (v : Vars)
    (hi : LoopInv v) :
    ∃ b st', progLoop sr clr buf v.sz st v = some (b, st') ∧
      ∃ l, st'.trace = st.trace ++ l ∧ (b = false → CleanChecks sr l) ∧
        (b = true → EndsInFailure sr l) := by
  refine progLoop_rule sr clr buf
    (fun s w => LoopInv w ∧ ∃ l, s.trace = st.trace ++ l ∧ CleanChecks sr l)
    (fun b s => ∃ l, s.trace = st.trace ++ l ∧ (b = false → CleanChecks sr l) ∧
      (b = true → EndsInFailure sr l))
    (fun _ _ h => h.1) ?_ ?_ ?_ v.sz st v
    ⟨hi, [], by simp, fun _ h => by cases h⟩ (Nat.le_refl _)
  · rintro s w ⟨_, l, hl, hc⟩ _
    exact ⟨l, hl, fun _ => hc, fun h => by cases h⟩
  · rintro s w ⟨_, l0, hl0, hc0⟩ _ hbad
    obtain ⟨lb, a, x, ps, ht, hlb, hps⟩ := loopPass_trace sr clr buf s w
    refine ⟨l0 ++ lb ++ [Event.store32 a x] ++ ps ++
      [Event.check sr (loopPass sr clr buf s w).1, Event.wr sr FLASH_PGERR], ?_,
      (fun h => by cases h), fun _ => ⟨l0 ++ lb, a, x, ps, _, rfl, hps, hbad,
        CleanChecks_append sr _ _ hc0 (CleanChecks_of_no_check sr _ hlb)⟩⟩
    rw [wr_trace, ht, hl0]
    simp only [List.append_assoc, List.singleton_append]
  · rintro s w ⟨hL, l0, hl0, hc0⟩ hz hok
    obtain ⟨lb, a, x, ps, ht, hlb, hps⟩ := loopPass_trace sr clr buf s w
    have e2 : (loopPass sr clr buf s w).2.2 = (loopBody sr clr buf s w).2 := rfl
    refine ⟨by rw [e2]; exact (loopBody_vars sr clr buf s w hL hz).1,
      l0 ++ (lb ++ [Event.store32 a x] ++ ps ++
        [Event.check sr (loopPass sr clr buf s w).1]), by rw [ht, hl0, List.append_assoc], ?_⟩
    refine CleanChecks_append sr _ _ hc0 (CleanChecks_append sr _ _
      (CleanChecks_append sr _ _ (CleanChecks_append sr _ _
        (CleanChecks_of_no_check sr _ hlb) ?_) (CleanChecks_polls sr _ hps)) ?_)
    · intro u hu
      simp at hu
    · intro u hu
      simp only [List.mem_singleton, Event.check.injEq, true_and] at hu
      rw [hu]; exact hok

/-! ## The stores of ProgramPage -/

theorem stores_append (l1 l2 : List Event) : stores (l1 ++ l2) = stores l1 ++ stores l2 := by
  induction l1 with
  | nil => rfl
  | cons e l ih =>
    cases e <;> simp [stores, ih]

theorem stores_polls (sr : Reg) (l : List Event) (h : ∀ e ∈ l, ∃ p, e = Event.poll sr p) :
    stores l = [] := by
  induction l with
  | nil => rfl
  | cons e l ih =>
    obtain ⟨p, rfl⟩ := h e (List.mem_cons_self _ _)
    simp [stores, ih (fun x hx => h x (List.mem_cons_of_mem _ hx))]

theorem stores_reads (off : Nat) (l : List Nat) :
    stores (l.map (fun i => Event.bufRead (off + i))) = [] := by
  induction l with
  | nil => rfl
  | cons e l ih => simp [stores, ih]

@[simp] theorem stores_wr (st : State) (r : Reg) (v : Nat) :
    stores (st.wr r v).trace = stores st.trace := by
  simp [stores_append, stores]

@[simp] theorem stores_M32 (st : State) (a v : Nat) :
    stores (st.M32 a v).trace = stores st.trace ++ [(a, v)] := by
  simp [stores_append, stores]

@[simp] theorem stores_waitNotBusy (st : State) (sr : Reg) :
    stores (st.waitNotBusy sr).trace = stores st.trace := by
  simp [stores_append, stores_polls sr _ (pollBusy_events sr st.hw)]

@[simp] theorem stores_readStatus (st : State) (sr : Reg) :
    stores (st.readStatus sr).2.trace = stores st.trace := by
  simp [stores_append, stores]

@[simp] theorem stores_logReads (st : State) (off n : Nat) :
    stores (st.logReads off n).trace = stores st.trace := by
  simp [stores_append, stores_reads]

theorem word32_congr (f g : Nat → Byte) (h : ∀ j, j < 4 → f j = g j) :
    word32 f = word32 g := by
  unfold word32
  rw [h 0 (by decide), h 1 (by decide), h 2 (by decide), h 3 (by decide)]

theorem unitStores_succ (A : Nat) (src : Nat → Byte) (k : Nat) :
    unitStores A src (k + 1) = unitStores A src k ++
      [((A + 8 * k) % W32, word32 (fun j => src (8 * k + j))),
       ((A + 8 * k) % W32 + 4, word32 (fun j => src (8 * k + 4 + j)))] := by
  simp [unitStores, List.range_succ]

theorem stores_loopBody_full (sr : Reg) (clr : Nat) (buf : Nat → Byte) (st : State)
    (v : Vars) (h8 : v.sz ≥ 8) (ha : v.align = 0) :
    stores (loopBody sr clr buf st v).1.trace = stores st.trace ++
      [(v.adr, word32 (fun j => buf (v.off + j))),
       (add32 v.adr 4, word32 (fun j => buf (v.off + 4 + j)))] := by
  unfold loopBody State.storeBuf
  simp only [if_pos h8, ha, ne_eq, not_true_eq_false, if_false, stores_M32, stores_logReads,
    stores_waitNotBusy, stores_wr, List.append_assoc, List.singleton_append]

theorem stores_loopBody_tail (sr : Reg) (clr : Nat) (buf : Nat → Byte) (st : State)
    (v : Vars) (h8 : ¬ v.sz ≥ 8) :
    stores (loopBody sr clr buf st v).1.trace = stores st.trace ++
      [(v.adr, word32 (fun j => if j < v.sz then buf (v.off + j) else 0xFF)),
       (add32 v.adr 4, word32 (fun j => if j + 4 < v.sz then buf (v.off + (j + 4)) else 0xFF))] := by
  unfold loopBody State.storeTab
  simp only [if_neg h8, stores_M32, stores_logReads, stores_waitNotBusy, stores_wr,
    List.append_assoc, List.singleton_append]

theorem stores_loopBody_hybrid (sr : Reg) (clr : Nat) (buf : Nat → Byte) (st : State)
    (v : Vars) (h8 : v.sz ≥ 8) (ha : v.align ≠ 0) :
    stores (loopBody sr clr buf st v).1.trace = stores st.trace ++
      [(sub32 v.adr v.align, word32 (fun j => if j < v.align
          then st.mem (add32 (sub32 v.adr v.align) j) else buf (v.off + (j - v.align)))),
       (add32 (sub32 v.adr v.align) 4, word32 (fun j => if j + 4 < v.align
          then st.mem (add32 (sub32 v.adr v.align) (j + 4))
          else buf (v.off + (j + 4 - v.align)))),
       (add32 v.adr (8 - v.align), word32 (fun j => buf (v.off + (8 - v.align) + j))),
       (add32 (add32 v.adr (8 - v.align)) 4,
        word32 (fun j => buf (v.off + (8 - v.align) + 4 + j)))] := by
  unfold loopBody hybridUnit State.storeBuf State.storeTab
  simp only [if_pos h8, if_pos ha, stores_M32, stores_logReads, stores_waitNotBusy,
    stores_wr, List.append_assoc, List.singleton_append, List.cons_append, List.nil_append,
    waitNotBusy_mem, logReads_mem, wr_mem]

/-- One pass of the loop appends the next double word of `pageStream` to the stores made
so far (the next two in the first pass of a call with an unaligned address). -/
theorem stores_step (sr : Reg) (clr : Nat) (tr0 : List Event) (m0 : Nat → Byte)
    (adr sz : Nat) (buf : Nat → Byte) (hadr : adr < W32) (st : State) (v : Vars)
    (hI : MemInv m0 adr sz buf st v) (hz : v.sz ≠ 0)
    (hS : stores st.trace = stores tr0 ++ unitStores (adr - adr % 8)
      (pageStream m0 adr sz buf) (if v.align = 0 then (adr % 8 + v.off + 7) / 8 else 0)) :
    stores (loopPass sr clr buf st v).2.1.trace = stores tr0 ++
      unitStores (adr - adr % 8) (pageStream m0 adr sz buf)
        (if (loopPass sr clr buf st v).2.2.align = 0
          then (adr % 8 + (loopPass sr clr buf st v).2.2.off + 7) / 8 else 0) := by
  have hW : W32 = 4294967296 := rfl
  have hR1 := roundSize_lt sz
  have hR2 := roundSize_mod sz
  obtain ⟨hL, hsum, hcase⟩ := hI
  have e1 : stores (loopPass sr clr buf st v).2.1.trace =
      stores (loopBody sr clr buf st v).1.trace := by
    show stores (((loopBody sr clr buf st v).1.waitNotBusy sr).readStatus sr).2.trace = _
    rw [stores_readStatus, stores_waitNotBusy]
  have e2 : (loopPass sr clr buf st v).2.2 = (loopBody sr clr buf st v).2 := rfl
  rw [e1, e2]
  rcases hcase with ⟨hal, ha0, hoff, hvadr, hmem⟩ | ⟨hal, hmem, hrest⟩
  · -- first iteration of an unaligned call
    have h16 : 16 ≤ v.sz := by
      rcases hL.2.2 (by rw [hal]; exact ha0) with h | h
      · exact absurd h hz
      · exact h
    have hne : v.align ≠ 0 := by rw [hal]; exact ha0
    obtain ⟨_, hvars⟩ := loopBody_hybrid sr clr buf st v (by omega) hne
      (by rw [hal, hvadr]) (by rw [hvadr]; exact hadr)
    rw [stores_loopBody_hybrid sr clr buf st v (by omega) hne, hvars, hS, if_neg hne]
    have hk : (if (0 : Nat) = 0 then (adr % 8 + (v.off + (8 - v.align) + 8) + 7) / 8 else 0)
        = 0 + 1 + 1 := by
      rw [if_pos rfl, hoff, hal]; omega
    show _ = stores tr0 ++ unitStores _ _
      (if (0 : Nat) = 0 then (adr % 8 + (v.off + (8 - v.align) + 8) + 7) / 8 else 0)
    rw [hk, unitStores_succ, unitStores_succ]
    have hu0 : unitStores (adr - adr % 8) (pageStream m0 adr sz buf) 0 = [] := rfl
    rw [hu0, List.nil_append, List.append_nil, hal, hvadr, hoff, hmem]
    have hA : sub32 adr (adr % 8) = (adr - adr % 8 + 8 * 0) % W32 := by
      unfold sub32; rw [hW] at hadr ⊢; omega
    have hA' : (adr - adr % 8 + 8 * 0) % W32 = adr - adr % 8 := by
      rw [hW] at hadr ⊢; omega
    have hA4 : add32 ((adr - adr % 8 + 8 * 0) % W32) 4 = (adr - adr % 8 + 8 * 0) % W32 + 4 := by
      unfold add32; rw [hW] at hadr ⊢; omega
    have hB : add32 adr (8 - adr % 8) = (adr - adr % 8 + 8 * (0 + 1)) % W32 := by
      unfold add32; rw [hW] at hadr ⊢; omega
    have hB4 : add32 ((adr - adr % 8 + 8 * (0 + 1)) % W32) 4 =
        (adr - adr % 8 + 8 * (0 + 1)) % W32 + 4 := by
      unfold add32; rw [hW] at hadr ⊢; omega
    rw [hA, hA4, hB, hB4]
    have w0 : word32 (fun j => if j < adr % 8
          then m0 (add32 ((adr - adr % 8 + 8 * 0) % W32) j) else buf (0 + (j - adr % 8))) =
        word32 (fun j => pageStream m0 adr sz buf (8 * 0 + j)) := by
      apply word32_congr
      intro j hj
      unfold pageStream
      by_cases h1 : j < adr % 8
      · have : add32 ((adr - adr % 8 + 8 * 0) % W32) j = adr - adr % 8 + (8 * 0 + j) := by
          unfold add32; rw [hW] at hadr ⊢; omega
        simp only [h1, if_true, this, Nat.mul_zero, Nat.zero_add]
      · have h2 : ¬ 8 * 0 + j < adr % 8 := by omega
        have h3 : 8 * 0 + j < adr % 8 + roundSize sz := by omega
        simp only [h1, h2, h3, if_true, if_false]
        exact congrArg buf (by omega)
    have w1 : word32 (fun j => if j + 4 < adr % 8
          then m0 (add32 ((adr - adr % 8 + 8 * 0) % W32) (j + 4))
          else buf (0 + (j + 4 - adr % 8))) =
        word32 (fun j => pageStream m0 adr sz buf (8 * 0 + 4 + j)) := by
      apply word32_congr
      intro j hj
      unfold pageStream
      by_cases h1 : j + 4 < adr % 8
      · have : add32 ((adr - adr % 8 + 8 * 0) % W32) (j + 4) =
            adr - adr % 8 + (8 * 0 + 4 + j) := by
          unfold add32; rw [hW] at hadr ⊢; omega
        have h2 : 8 * 0 + 4 + j < adr % 8 := by omega
        simp only [h1, h2, if_true, this]
      · have h2 : ¬ 8 * 0 + 4 + j < adr % 8 := by omega
        have h3 : 8 * 0 + 4 + j < adr % 8 + roundSize sz := by omega
        simp only [h1, h2, h3, if_true, if_false]
        exact congrArg buf (by omega)
    have w2 : word32 (fun j => buf (0 + (8 - adr % 8) + j)) =
        word32 (fun j => pageStream m0 adr sz buf (8 * (0 + 1) + j)) := by
      apply word32_congr
      intro j hj
      unfold pageStream
      have h2 : ¬ 8 * (0 + 1) + j < adr % 8 := by omega
      have h3 : 8 * (0 + 1) + j < adr % 8 + roundSize sz := by omega
      simp only [h2, h3, if_true, if_false]
      exact congrArg buf (by omega)
    have w3 : word32 (fun j => buf (0 + (8 - adr % 8) + 4 + j)) =
        word32 (fun j => pageStream m0 adr sz buf (8 * (0 + 1) + 4 + j)) := by
      apply word32_congr
      intro j hj
      unfold pageStream
      have h2 : ¬ 8 * (0 + 1) + 4 + j < adr % 8 := by omega
      have h3 : 8 * (0 + 1) + 4 + j < adr % 8 + roundSize sz := by omega
      simp only [h2, h3, if_true, if_false]
      exact congrArg buf (by omega)
    rw [w0, w1, w2, w3]
    simp only [List.append_assoc, List.cons_append, List.nil_append]
  · obtain ⟨hmod, hvadr⟩ := hrest hz
    have hm8 : v.adr % 8 = 0 := by rw [hvadr, hW]; omega
    have hlt : v.adr < W32 := by rw [hvadr]; exact Nat.mod_lt _ (by decide)
    have hk0 : 8 * ((adr % 8 + v.off + 7) / 8) = adr % 8 + v.off := by omega
    have hbase : v.adr = (adr - adr % 8 + 8 * ((adr % 8 + v.off + 7) / 8)) % W32 := by
      rw [hvadr, hk0]; congr 1; omega
    have h4 : add32 v.adr 4 = v.adr + 4 := by
      unfold add32; rw [hW] at hlt ⊢; omega
    rw [if_pos hal] at hS
    by_cases h8 : v.sz ≥ 8
    · -- a full iteration
      obtain ⟨_, hvars⟩ := loopBody_full sr clr buf st v h8 hal hm8 hlt
      rw [stores_loopBody_full sr clr buf st v h8 hal, hvars, hS]
      have hk : (if (0 : Nat) = 0 then (adr % 8 + (v.off + 8) + 7) / 8 else 0) =
          (adr % 8 + v.off + 7) / 8 + 1 := by
        rw [if_pos rfl]; omega
      show _ = stores tr0 ++ unitStores _ _
        (if (0 : Nat) = 0 then (adr % 8 + (v.off + 8) + 7) / 8 else 0)
      rw [hk, unitStores_succ, h4, ← hbase]
      have w0 : word32 (fun j => buf (v.off + j)) =
          word32 (fun j => pageStream m0 adr sz buf (8 * ((adr % 8 + v.off + 7) / 8) + j)) := by
        apply word32_congr
        intro j hj
        unfold pageStream
        rw [hk0, if_neg (by omega), if_pos (by omega)]
        exact congrArg buf (by omega)
      have w1 : word32 (fun j => buf (v.off + 4 + j)) =
          word32 (fun j => pageStream m0 adr sz buf
            (8 * ((adr % 8 + v.off + 7) / 8) + 4 + j)) := by
        apply word32_congr
        intro j hj
        unfold pageStream
        rw [hk0, if_neg (by omega), if_pos (by omega)]
        exact congrArg buf (by omega)
      rw [w0, w1, List.append_assoc]
    · -- the last, padded iteration
      obtain ⟨_, hvars⟩ := loopBody_tail sr clr buf st v h8 hm8 hlt
      rw [stores_loopBody_tail sr clr buf st v h8, hvars, hS]
      have hk : (if v.align = 0 then (adr % 8 + (v.off + v.sz) + 7) / 8 else 0) =
          (adr % 8 + v.off + 7) / 8 + 1 := by
        rw [if_pos hal]; omega
      show _ = stores tr0 ++ unitStores _ _
        (if v.align = 0 then (adr % 8 + (v.off + v.sz) + 7) / 8 else 0)
      rw [hk, unitStores_succ, h4, ← hbase]
      have w0 : word32 (fun j => if j < v.sz then buf (v.off + j) else 0xFF) =
          word32 (fun j => pageStream m0 adr sz buf (8 * ((adr % 8 + v.off + 7) / 8) + j)) := by
        apply word32_congr
        intro j hj
        unfold pageStream
        have c1 : ¬ adr % 8 + v.off + j < adr % 8 := by omega
        by_cases hj2 : j < v.sz
        · have c2 : adr % 8 + v.off + j < adr % 8 + roundSize sz := by omega
          simp only [hk0, hj2, c1, c2, if_true, if_false]
          exact congrArg buf (by omega)
        · have c2 : ¬ adr % 8 + v.off + j < adr % 8 + roundSize sz := by omega
          simp only [hk0, hj2, c1, c2, if_false]
      have w1 : word32 (fun j => if j + 4 < v.sz then buf (v.off + (j + 4)) else 0xFF) =
          word32 (fun j => pageStream m0 adr sz buf
            (8 * ((adr % 8 + v.off + 7) / 8) + 4 + j)) := by
        apply word32_congr
        intro j hj
        unfold pageStream
        have c1 : ¬ adr % 8 + v.off + 4 + j < adr % 8 := by omega
        by_cases hj2 : j + 4 < v.sz
        · have c2 : adr % 8 + v.off + 4 + j < adr % 8 + roundSize sz := by omega
          simp only [hk0, hj2, c1, c2, if_true, if_false]
          exact congrArg buf (by omega)
        · have c2 : ¬ adr % 8 + v.off + 4 + j < adr % 8 + roundSize sz := by omega
          simp only [hk0, hj2, c1, c2, if_false]
      rw [w0, w1, List.append_assoc]

/-- When `ProgramPage` returns 0 its 32-bit stores are, in order, the double words of
`pageStream`: `unitCount adr sz` of them, at `adr - adr % 8`, `adr - adr % 8 + 8`, ... -/
theorem ProgramPage_stores (st : State) (adr sz : Nat) (buf : Nat → Byte) (hadr : adr < W32) :
    ∃ r st', ProgramPage st adr sz buf = some (r, st') ∧
      (r = 0 → stores (newEvents st st') =
        unitStores (adr - adr % 8) (pageStream st.mem adr sz buf) (unitCount adr sz)) := by
  obtain ⟨r, st', e, _, ⟨l, hl, _⟩, _⟩ := ProgramPage_emits (fun _ => True) st adr sz buf
    (fun _ => trivial) (fun _ => trivial) (fun _ => trivial) (fun _ => trivial)
    (fun _ _ => trivial) (fun _ _ => trivial)
  refine ⟨r, st', e, fun hr => ?_⟩
  subst hr
  have hnew : newEvents st st' = l := newEvents_append st st' l hl
  have h0 : stores (if nonSecure st then st.wr Reg.NSCR1 FLASH_PG
      else (st.wr Reg.SECSR FLASH_PGERR).wr Reg.SECCR1 FLASH_PG).trace = stores st.trace := by
    cases nonSecure st <;> simp only [stores_wr, if_true, Bool.false_eq_true, if_false]
  have key : stores st'.trace = stores st.trace ++
      unitStores (adr - adr % 8) (pageStream st.mem adr sz buf) (unitCount adr sz) := by
    by_cases hR0 : roundSize sz = 0
    · -- nothing to program
      rw [ProgramPage_eq, hR0] at e
      simp only [progLoop, if_true, Option.map_some', Bool.false_eq_true, if_false,
        Option.some.injEq, Prod.mk.injEq, true_and] at e
      rw [← e, stores_wr, h0]
      unfold unitCount
      rw [if_pos hR0]
      simp [unitStores]
    · have hI : MemInv st.mem adr sz buf
          (if nonSecure st then st.wr Reg.NSCR1 FLASH_PG
            else (st.wr Reg.SECSR FLASH_PGERR).wr Reg.SECCR1 FLASH_PG)
          { adr := adr, sz := roundSize sz, off := 0, align := adr % 8 } := by
        have := MemInv_start st adr sz buf hadr
        cases nonSecure st <;> exact this
      obtain ⟨b, s1, e1, hp⟩ := progLoop_rule (activeSR (nonSecure st))
        (if nonSecure st then FLASH_PGAERR else 0x000001FF) buf
        (fun s w => MemInv st.mem adr sz buf s w ∧
          stores s.trace = stores st.trace ++ unitStores (adr - adr % 8)
            (pageStream st.mem adr sz buf)
            (if w.align = 0 then (adr % 8 + w.off + 7) / 8 else 0))
        (fun b s => b = false → stores s.trace = stores st.trace ++
          unitStores (adr - adr % 8) (pageStream st.mem adr sz buf) (unitCount adr sz))
        (fun _ _ h => h.1.1)
        (fun s w h hz _ => by
          obtain ⟨⟨_, hsum, hcase⟩, hS⟩ := h
          rw [hS]
          unfold unitCount
          rw [if_neg hR0]
          rcases hcase with ⟨hal, ha0, hoff, _, _⟩ | ⟨hal, _, _⟩
          · exact absurd (by omega) hR0
          · have hoff : w.off = roundSize sz := by omega
            rw [if_pos hal, hoff])
        (fun _ _ _ _ _ h => by cases h)
        (fun s w h hz _ => ⟨MemInv_step _ _ st.mem adr sz buf hadr s w h.1 hz,
          stores_step _ _ st.trace st.mem adr sz buf hadr s w h.1 hz h.2⟩)
        (roundSize sz) _ { adr := adr, sz := roundSize sz, off := 0, align := adr % 8 }
        ⟨hI, by
          rw [h0]
          show stores st.trace = stores st.trace ++ unitStores _ _
            (if adr % 8 = 0 then (adr % 8 + 0 + 7) / 8 else 0)
          have : (if adr % 8 = 0 then (adr % 8 + 0 + 7) / 8 else 0) = 0 := by
            split_ifs <;> omega
          rw [this]
          simp [unitStores]⟩ (Nat.le_refl _)
      rw [ProgramPage_eq, e1] at e
      cases b
      · simp only [Option.map_some', Bool.false_eq_true, if_false, Option.some.injEq,
          Prod.mk.injEq, true_and] at e
        rw [← e, stores_wr]
        exact hp rfl
      · simp at e
  rw [hl, stores_append] at key
  rw [hnew]
  exact List.append_cancel_left key

/-! ## The bytes of the buffer that matter -/

/-- One pass of the loop body is the same for two buffers that agree on the next `sz`
bytes. -/
theorem loopBody_congr (sr : Reg) (clr : Nat) (buf buf' : Nat → Byte) (st : State)
    (v : Vars) (hi : LoopInv v) (hz : v.sz ≠ 0)
    (hb : ∀ o, v.off ≤ o → o < v.off + v.sz → buf o = buf' o) :
    loopBody sr clr buf st v = loopBody sr clr buf' st v := by
  obtain ⟨h1, h2, h3⟩ := hi
  unfold loopBody hybridUnit State.storeBuf State.storeTab
  by_cases h8 : v.sz ≥ 8
  · by_cases ha : v.align ≠ 0
    · have h16 : 16 ≤ v.sz := by
        rcases h3 ha with h | h
        · exact absurd h hz
        · exact h
      have w0 : word32 (fun i => if i < v.align
            then (st.wr sr clr).mem (add32 (sub32 v.adr v.align) i)
            else buf (v.off + (i - v.align))) =
          word32 (fun i => if i < v.align
            then (st.wr sr clr).mem (add32 (sub32 v.adr v.align) i)
            else buf' (v.off + (i - v.align))) := by
        apply word32_congr
        intro j hj
        by_cases hj2 : j < v.align
        · simp only [hj2, if_true]
        · simp only [hj2, if_false]
          exact hb _ (by omega) (by omega)
      have w1 : word32 (fun i => if i + 4 < v.align
            then (st.wr sr clr).mem (add32 (sub32 v.adr v.align) (i + 4))
            else buf (v.off + (i + 4 - v.align))) =
          word32 (fun i => if i + 4 < v.align
            then (st.wr sr clr).mem (add32 (sub32 v.adr v.align) (i + 4))
            else buf' (v.off + (i + 4 - v.align))) := by
        apply word32_congr
        intro j hj
        by_cases hj2 : j + 4 < v.align
        · simp only [hj2, if_true]
        · simp only [hj2, if_false]
          exact hb _ (by omega) (by omega)
      have w2 : word32 (fun i => buf (v.off + (8 - v.align) + i)) =
          word32 (fun i => buf' (v.off + (8 - v.align) + i)) :=
        word32_congr _ _ (fun j hj => hb _ (by omega) (by omega))
      have w3 : word32 (fun i => buf (v.off + (8 - v.align) + 4 + i)) =
          word32 (fun i => buf' (v.off + (8 - v.align) + 4 + i)) :=
        word32_congr _ _ (fun j hj => hb _ (by omega) (by omega))
      simp only [if_pos h8, if_pos ha, w0, w1, w2, w3]
    · have w2 : word32 (fun i => buf (v.off + i)) = word32 (fun i => buf' (v.off + i)) :=
        word32_congr _ _ (fun j hj => hb _ (by omega) (by omega))
      have w3 : word32 (fun i => buf (v.off + 4 + i)) =
          word32 (fun i => buf' (v.off + 4 + i)) :=
        word32_congr _ _ (fun j hj => hb _ (by omega) (by omega))
      simp only [if_pos h8, if_neg ha, w2, w3]
  · have w0 : word32 (fun i => if i < v.sz then buf (v.off + i) else 0xFF) =
        word32 (fun i => if i < v.sz then buf' (v.off + i) else 0xFF) := by
      apply word32_congr
      intro j hj
      by_cases hj2 : j < v.sz
      · simp only [hj2, if_true]
        exact hb _ (by omega) (by omega)
      · simp only [hj2, if_false]
    have w1 : word32 (fun i => if i + 4 < v.sz then buf (v.off + (i + 4)) else 0xFF) =
        word32 (fun i => if i + 4 < v.sz then buf' (v.off + (i + 4)) else 0xFF) := by
      apply word32_congr
      intro j hj
      by_cases hj2 : j + 4 < v.sz
      · simp only [hj2, if_true]
        exact hb _ (by omega) (by omega)
      · simp only [hj2, if_false]
    simp only [if_neg h8, w0, w1]

/-- The loop of `ProgramPage` is the same for two buffers that agree on the next `sz`
bytes. -/
theorem progLoop_congr (sr : Reg) (clr : Nat) (buf buf' : Nat → Byte) :
    ∀ (fuel : Nat) (st : State) (v : Vars), LoopInv v →
      (∀ o, v.off ≤ o → o < v.off + v.sz → buf o = buf' o) →
      progLoop sr clr buf fuel st v = progLoop sr clr buf' fuel st v := by
  intro fuel
  induction fuel with
  | zero => intro st v _ _; rfl
  | succ n ih =>
    intro st v hi hb
    by_cases hz : v.sz = 0
    · simp only [progLoop, if_pos hz]
    · have e : loopPass sr clr buf st v = loopPass sr clr buf' st v := by
        unfold loopPass
        rw [loopBody_congr sr clr buf buf' st v hi hz hb]
      have hv := loopBody_vars sr clr buf' st v hi hz
      have e2 : (loopPass sr clr buf' st v).2.2 = (loopBody sr clr buf' st v).2 := rfl
      simp only [progLoop, if_neg hz, e]
      split_ifs
      · rfl
      · apply ih
        · rw [e2]; exact hv.1
        · intro o ho1 ho2
          rw [e2] at ho1 ho2
          exact hb o (by omega) (by omega)

/-- The outcome of `ProgramPage` depends on the buffer only through its bytes at the
offsets below the rounded size. -/
theorem ProgramPage_congr (st : State) (adr N : Nat) (buf buf' : Nat → Byte)
    (hb : ∀ o, o < roundSize N → buf o = buf' o) :
    ProgramPage st adr N buf = ProgramPage st adr N buf' := by
  rw [ProgramPage_eq, ProgramPage_eq,
    progLoop_congr _ _ buf buf' _ _ _ (LoopInv_start adr N) (fun o _ ho => hb o (by simpa using ho))]


/-! ## Write units -/

theorem writeUnits_append (l1 l2 : List (Nat × Nat)) (w1 w2 : List Nat)
    (h1 : writeUnits l1 = some w1) (h2 : writeUnits l2 = some w2) :
    writeUnits (l1 ++ l2) = some (w1 ++ w2) := by
  induction l1 using writeUnits.induct generalizing w1 with
  | case1 =>
    simp only [writeUnits, Option.some.injEq] at h1
    subst h1
    simpa using h2
  | case2 x => simp [writeUnits] at h1
  | case3 a x b y rest hc ih =>
    simp only [writeUnits, if_pos hc] at h1
    cases hr : writeUnits rest with
    | none => rw [hr] at h1; simp at h1
    | some ws =>
      rw [hr] at h1
      simp only [Option.map_some', Option.some.injEq] at h1
      subst h1
      have e := ih ws hr
      simp only [List.cons_append, writeUnits, if_pos hc]
      have e2 : rest.append l2 = rest ++ l2 := rfl
      rw [e2, e]
      rfl
  | case4 a x b y rest hc =>
    simp only [writeUnits, if_neg hc] at h1
    cases h1

/-- The stores of `unitStores` are write units, at the addresses `A`, `A + 8`, ...
taken modulo `2 ^ 32`. -/
theorem writeUnits_unitStores (A : Nat) (src : Nat → Byte) (hA : A % 8 = 0) (k : Nat) :
    writeUnits (unitStores A src k) = some ((List.range k).map fun i => (A + 8 * i) % W32) := by
  induction k with
  | zero => rfl
  | succ k ih =>
    rw [unitStores_succ, List.range_succ, List.map_append]
    refine writeUnits_append _ _ _ _ ih ?_
    have h8 : (A + 8 * k) % W32 % 8 = 0 := by unfold W32; omega
    simp [writeUnits, h8]

/-- Fewer than `2 ^ 29` consecutive double words have different addresses modulo
`2 ^ 32`. -/
theorem unit_addresses_nodup (A k : Nat) (hk : k ≤ 536870912) :
    ((List.range k).map fun i => (A + 8 * i) % W32).Nodup := by
  apply List.Nodup.map_on _ (List.nodup_range k)
  intro x hx y hy h
  rw [List.mem_range] at hx hy
  unfold W32 at h
  omega

theorem unitCount_le (adr sz : Nat) : unitCount adr sz ≤ 536870912 := by
  have h1 := roundSize_lt sz
  have h2 := roundSize_mod sz
  unfold W32 at h1
  unfold unitCount
  split_ifs <;> omega

/-- Whatever its result, the 32-bit stores of `ProgramPage` are, in order, the first `k`
double words of `pageStream`, for some `k` that is at most `unitCount adr sz` and equal
to it when the result is 0. -/
theorem ProgramPage_stores_upto (st : State) (adr sz : Nat) (buf : Nat → Byte)
    (hadr : adr < W32) :
    ∃ r st' k, ProgramPage st adr sz buf = some (r, st') ∧ k ≤ unitCount adr sz ∧
      (r = 0 → k = unitCount adr sz) ∧
      stores (newEvents st st') =
        unitStores (adr - adr % 8) (pageStream st.mem adr sz buf) k := by
  obtain ⟨r, st', e, _, ⟨l, hl, _⟩, _⟩ := ProgramPage_emits (fun _ => True) st adr sz buf
    (fun _ => trivial) (fun _ => trivial) (fun _ => trivial) (fun _ => trivial)
    (fun _ _ => trivial) (fun _ _ => trivial)
  have hnew : newEvents st st' = l := newEvents_append st st' l hl
  have h0 : stores (if nonSecure st then st.wr Reg.NSCR1 FLASH_PG
      else (st.wr Reg.SECSR FLASH_PGERR).wr Reg.SECCR1 FLASH_PG).trace = stores st.trace := by
    cases nonSecure st <;> simp only [stores_wr, if_true, Bool.false_eq_true, if_false]
  have key : ∃ k, k ≤ unitCount adr sz ∧ (r = 0 → k = unitCount adr sz) ∧
      stores st'.trace = stores st.trace ++
        unitStores (adr - adr % 8) (pageStream st.mem adr sz buf) k := by
    by_cases hR0 : roundSize sz = 0
    · -- nothing to program
      rw [ProgramPage_eq, hR0] at e
      simp only [progLoop, if_true, Option.map_some', Bool.false_eq_true, if_false,
        Option.some.injEq, Prod.mk.injEq] at e
      refine ⟨0, Nat.zero_le _, fun _ => by unfold unitCount; rw [if_pos hR0], ?_⟩
      rw [← e.2, stores_wr, h0]
      simp [unitStores]
    · have hI : MemInv st.mem adr sz buf
          (if nonSecure st then st.wr Reg.NSCR1 FLASH_PG
            else (st.wr Reg.SECSR FLASH_PGERR).wr Reg.SECCR1 FLASH_PG)
          { adr := adr, sz := roundSize sz, off := 0, align := adr % 8 } := by
        have := MemInv_start st adr sz buf hadr
        cases nonSecure st <;> exact this
      have hcount : ∀ w : Vars, w.off + w.sz = roundSize sz →
          (if w.align = 0 then (adr % 8 + w.off + 7) / 8 else 0) ≤ unitCount adr sz := by
        intro w hw
        unfold unitCount
        rw [if_neg hR0]
        split_ifs <;> omega
      obtain ⟨b, s1, e1, hp⟩ := progLoop_rule (activeSR (nonSecure st))
        (if nonSecure st then FLASH_PGAERR else 0x000001FF) buf
        (fun s w => MemInv st.mem adr sz buf s w ∧
          stores s.trace = stores st.trace ++ unitStores (adr - adr % 8)
            (pageStream st.mem adr sz buf)
            (if w.align = 0 then (adr % 8 + w.off + 7) / 8 else 0))
        (fun b s => ∃ k, k ≤ unitCount adr sz ∧ (b = false → k = unitCount adr sz) ∧
          stores s.trace = stores st.trace ++
            unitStores (adr - adr % 8) (pageStream st.mem adr sz buf) k)
        (fun _ _ h => h.1.1)
        (fun s w h hz => by
          obtain ⟨⟨_, hsum, hcase⟩, hS⟩ := h
          refine ⟨unitCount adr sz, Nat.le_refl _, fun _ => rfl, ?_⟩
          rw [hS]
          unfold unitCount
          rw [if_neg hR0]
          rcases hcase with ⟨hal, ha0, hoff, _, _⟩ | ⟨hal, _, _⟩
          · exact absurd (by omega) hR0
          · have hoff : w.off = roundSize sz := by omega
            rw [if_pos hal, hoff])
        (fun s w h hz _ => by
          have hM := MemInv_step (activeSR (nonSecure st))
            (if nonSecure st then FLASH_PGAERR else 0x000001FF) st.mem adr sz buf hadr s w
            h.1 hz
          refine ⟨_, hcount _ hM.2.1, (fun hb => by cases hb), ?_⟩
          rw [stores_wr]
          exact stores_step _ _ st.trace st.mem adr sz buf hadr s w h.1 hz h.2)
        (fun s w h hz _ => ⟨MemInv_step _ _ st.mem adr sz buf hadr s w h.1 hz,
          stores_step _ _ st.trace st.mem adr sz buf hadr s w h.1 hz h.2⟩)
        (roundSize sz) _ { adr := adr, sz := roundSize sz, off := 0, align := adr % 8 }
        ⟨hI, by
          rw [h0]
          show stores st.trace = stores st.trace ++ unitStores _ _
            (if adr % 8 = 0 then (adr % 8 + 0 + 7) / 8 else 0)
          have : (if adr % 8 = 0 then (adr % 8 + 0 + 7) / 8 else 0) = 0 := by
            split_ifs <;> omega
          rw [this]
          simp [unitStores]⟩ (Nat.le_refl _)
      obtain ⟨k, hk1, hk2, hk3⟩ := hp
      rw [ProgramPage_eq, e1] at e
      cases b
      · simp only [Option.map_some', Bool.false_eq_true, if_false, Option.some.injEq,
          Prod.mk.injEq] at e
        refine ⟨k, hk1, fun _ => hk2 rfl, ?_⟩
        rw [← e.2, stores_wr]
        exact hk3
      · simp only [Option.map_some', if_true, Option.some.injEq, Prod.mk.injEq] at e
        refine ⟨k, hk1, fun h => ?_, ?_⟩
        · rw [← e.1] at h; cases h
        · rw [← e.2]; exact hk3
  obtain ⟨k, hk1, hk2, hk3⟩ := key
  refine ⟨r, st', k, e, hk1, hk2, ?_⟩
  rw [hl, stores_append] at hk3
  rw [hnew]
  exact List.append_cancel_left hk3

/-! ## The size counter of ProgramPage -/

/-- The values assigned to `sz` in one pass: each is smaller than the one before, and
the last one is the value of `sz` after the pass. -/
theorem passSizes_chain (sr : Reg) (clr : Nat) (buf : Nat → Byte) (st : State) (v : Vars)
    (hi : LoopInv v) (hz : v.sz ≠ 0) (rest : List Nat)
    (hrest : List.Chain' (fun a b => b < a) ((loopBody sr clr buf st v).2.sz :: rest)) :
    List.Chain' (fun a b => b < a) (v.sz :: (passSizes sr clr buf st v ++ rest)) ∧
    (v.sz :: (passSizes sr clr buf st v ++ rest)).getLast? =
      ((loopBody sr clr buf st v).2.sz :: rest).getLast? := by
  obtain ⟨h1, h2, h3⟩ := hi
  unfold W32 at h1
  have hv := (loopBody_vars sr clr buf st v ⟨h1, h2, h3⟩ hz).2.1
  unfold passSizes
  by_cases hc : v.sz ≥ 8 ∧ v.align ≠ 0
  · have h16 : 16 ≤ v.sz := by
      rcases h3 hc.2 with h | h
      · exact absurd h hz
      · exact h
    have hmid : (hybridUnit sr buf (st.wr sr clr) v).2.sz = v.sz - (8 - v.align) := by
      simp only [hybridUnit, sub32, W32]
      omega
    have hend : (loopBody sr clr buf st v).2.sz = v.sz - (8 - v.align) - 8 := by
      simp only [loopBody, hybridUnit, if_pos hc.1, if_pos hc.2, sub32, W32]
      omega
    rw [if_pos hc, hmid]
    refine ⟨?_, ?_⟩
    · simp only [List.cons_append, List.nil_append]
      refine List.Chain'.cons (by omega) (List.Chain'.cons (by rw [hend]; omega) hrest)
    · simp only [List.cons_append, List.nil_append, List.getLast?_cons_cons]
  · rw [if_neg hc]
    refine ⟨?_, ?_⟩
    · simp only [List.cons_append, List.nil_append]
      exact List.Chain'.cons hv hrest
    · simp only [List.cons_append, List.nil_append, List.getLast?_cons_cons]

/-- On a quiet controller the values taken by `sz` in the loop decrease strictly and end
with 0. -/
theorem szTrace_chain (sr : Reg) (clr : Nat) (buf : Nat → Byte) :
    ∀ (fuel : Nat) (st : State) (v : Vars), LoopInv v → Quiet st.hw → v.sz ≤ fuel →
      List.Chain' (fun a b => b < a) (v.sz :: szTrace sr clr buf fuel st v) ∧
      (v.sz :: szTrace sr clr buf fuel st v).getLast? = some 0 := by
  intro fuel
  induction fuel with
  | zero =>
    intro st v _ _ hle
    have hz : v.sz = 0 := by omega
    simp [szTrace, hz]
  | succ n ih =>
    intro st v hi hq hle
    by_cases hz : v.sz = 0
    · simp [szTrace, hz]
    · have hok := loopPass_quiet sr clr buf st v hq
      have hv := loopBody_vars sr clr buf st v hi hz
      have e2 : (loopPass sr clr buf st v).2.2 = (loopBody sr clr buf st v).2 := rfl
      have hrec := ih (loopPass sr clr buf st v).2.1 (loopPass sr clr buf st v).2.2
        (by rw [e2]; exact hv.1) hok.2 (by rw [e2]; omega)
      rw [e2] at hrec
      have hp := passSizes_chain sr clr buf st v hi hz _ hrec.1
      have e : szTrace sr clr buf (n + 1) st v = passSizes sr clr buf st v ++
          szTrace sr clr buf n (loopPass sr clr buf st v).2.1 (loopBody sr clr buf st v).2 := by
        simp only [szTrace, if_neg hz, hok.1, ne_eq, not_true_eq_false, if_false]
        rfl
      rw [e]
      exact ⟨hp.1, hp.2.trans hrec.2⟩

/-- On a quiet controller the values taken by the variable `sz` of `ProgramPage` decrease
strictly from the rounded size down to 0. -/
theorem ProgramPage_szTrace_chain (st : State) (adr sz : Nat) (buf : Nat → Byte)
    (hq : Quiet st.hw) :
    List.Chain' (fun a b => b < a) (ProgramPage_szTrace st adr sz buf) ∧
    (ProgramPage_szTrace st adr sz buf).head? = some (roundSize sz) ∧
    (ProgramPage_szTrace st adr sz buf).getLast? = some 0 := by
  unfold ProgramPage_szTrace
  cases nonSecure st
  · have h := szTrace_chain Reg.SECSR 0x000001FF buf (roundSize sz)
      ((st.wr Reg.SECSR FLASH_PGERR).wr Reg.SECCR1 FLASH_PG)
      { adr := adr, sz := roundSize sz, off := 0, align := adr % 8 } (LoopInv_start adr sz)
      hq (Nat.le_refl _)
    exact ⟨h.1, rfl, h.2⟩
  · have h := szTrace_chain Reg.NSSR FLASH_PGAERR buf (roundSize sz)
      (st.wr Reg.NSCR1 FLASH_PG)
      { adr := adr, sz := roundSize sz, off := 0, align := adr % 8 } (LoopInv_start adr sz)
      hq (Nat.le_refl _)
    exact ⟨h.1, rfl, h.2⟩

/-! ## The passes of the loop of ProgramPage -/

theorem allBufReads_logReads (off n : Nat) :
    AllBufReads ((List.range n).map (fun i => Event.bufRead (off + i))) := by
  intro e he
  obtain ⟨i, _, rfl⟩ := List.mem_map.1 he
  exact ⟨_, rfl⟩

/-- A busy wait followed by the two stores of a double word taken from `tab` is a write
unit, together with the stores to the status register and the buffer reads `pre` made
since the state `s0`. -/
theorem storeTab_block (sr : Reg) (s0 s : State) (pre : List Event)
    (h : s.trace = s0.trace ++ pre)
    (hpre : ∀ e ∈ pre, (∃ v, e = Event.wr sr v) ∨ ∃ o, e = Event.bufRead o)
    (a : Nat) (tab : Nat → Byte) :
    ∃ b, ((s.waitNotBusy sr).storeTab a tab).trace = s0.trace ++ b ∧ IsUnitBlock sr b := by
  refine ⟨pre ++ (pollBusy sr s.hw).1 ++ ([] ++ [Event.store32 a (word32 tab)] ++ [] ++
    [Event.store32 (add32 a 4) (word32 (fun i => tab (i + 4)))]), ?_,
    ⟨pre, _, [], a, _, [], _, rfl, hpre, pollBusy_isBusyWait sr _,
      (fun _ h => by cases h), (fun _ h => by cases h)⟩⟩
  simp only [State.storeTab, M32_trace, waitNotBusy_trace, h, List.append_assoc,
    List.nil_append]

/-- A busy wait followed by the two stores of a double word read from the buffer is a
write unit. -/
theorem storeBuf_block (sr : Reg) (s0 s : State) (pre : List Event)
    (h : s.trace = s0.trace ++ pre)
    (hpre : ∀ e ∈ pre, (∃ v, e = Event.wr sr v) ∨ ∃ o, e = Event.bufRead o)
    (a : Nat) (buf : Nat → Byte) (off : Nat) :
    ∃ b, ((s.waitNotBusy sr).storeBuf a buf off).trace = s0.trace ++ b ∧
      IsUnitBlock sr b := by
  refine ⟨pre ++ (pollBusy sr s.hw).1 ++
    ((List.range 4).map (fun i => Event.bufRead (off + i)) ++
      [Event.store32 a (word32 (fun i => buf (off + i)))] ++
      (List.range 4).map (fun i => Event.bufRead (off + 4 + i)) ++
      [Event.store32 (add32 a 4) (word32 (fun i => buf (off + 4 + i)))]), ?_,
    ⟨pre, _, _, a, _, _, _, rfl, hpre, pollBusy_isBusyWait sr _,
      allBufReads_logReads _ _, allBufReads_logReads _ _⟩⟩
  simp only [State.storeBuf, M32_trace, logReads_trace, waitNotBusy_trace, h,
    List.append_assoc]

/-- One pass of the loop: two write units when it is entered with `align ≠ 0`, otherwise
one, then a busy wait and the error test. -/
theorem loopPass_isPass (sr : Reg) (clr : Nat) (buf : Nat → Byte) (st : State) (v : Vars)
    (hi : LoopInv v) (hz : v.sz ≠ 0) :
    ∃ l, (loopPass sr clr buf st v).2.1.trace = st.trace ++ l ∧
      IsPass sr (if v.align = 0 then 1 else 2) (loopPass sr clr buf st v).1 l := by
  have hfin : ∀ (s : State) (blocks : List (List Event)) (n : Nat),
      s.trace = st.trace ++ blocks.flatten → blocks.length = n →
      (∀ b ∈ blocks, IsUnitBlock sr b) →
      ∃ l, ((s.waitNotBusy sr).readStatus sr).2.trace = st.trace ++ l ∧
        IsPass sr n ((s.waitNotBusy sr).readStatus sr).1 l := by
    intro s blocks n ht hn hb
    refine ⟨blocks.flatten ++ (pollBusy sr s.hw).1 ++
      [Event.check sr ((s.waitNotBusy sr).readStatus sr).1], ?_,
      ⟨blocks, _, hn, hb, pollBusy_isBusyWait sr _, rfl⟩⟩
    simp only [readStatus_trace, waitNotBusy_trace, ht, List.append_assoc, readStatus_fst]
  have hwr : ∀ x, ∀ e ∈ [Event.wr sr x], (∃ v, e = Event.wr sr v) ∨ ∃ o, e = Event.bufRead o :=
    fun x e he => Or.inl ⟨x, List.mem_singleton.1 he⟩
  obtain ⟨h1, h2, h3⟩ := hi
  by_cases h8 : v.sz ≥ 8
  · by_cases ha : v.align = 0
    · -- a full pass
      obtain ⟨b, hb, hB⟩ := storeBuf_block sr st (st.wr sr clr) [Event.wr sr clr] rfl
        (hwr clr) v.adr buf v.off
      have eb : (loopBody sr clr buf st v).1 =
          ((st.wr sr clr).waitNotBusy sr).storeBuf v.adr buf v.off := by
        simp only [loopBody, if_pos h8, ha, ne_eq, not_true_eq_false, if_false]
      rw [if_pos ha]
      exact hfin (loopBody sr clr buf st v).1 [b] 1 (by rw [eb]; simpa using hb) rfl
        (fun x hx => by rw [List.mem_singleton.1 hx]; exact hB)
    · -- the pass that stores the hybrid unit
      obtain ⟨b1, hb1, hB1⟩ := storeTab_block sr st
        ((st.wr sr clr).logReads v.off (8 - v.align))
        ([Event.wr sr clr] ++ (List.range (8 - v.align)).map
          (fun i => Event.bufRead (v.off + i)))
        (by simp only [logReads_trace, wr_trace, List.append_assoc])
        (by
          intro e he
          rcases List.mem_append.1 he with h | h
          · exact hwr clr e h
          · exact Or.inr (allBufReads_logReads _ _ e h))
        (sub32 v.adr v.align)
        (fun i => if i < v.align then (st.wr sr clr).mem (add32 (sub32 v.adr v.align) i)
          else buf (v.off + (i - v.align)))
      obtain ⟨b2, hb2, hB2⟩ := storeBuf_block sr
        ((((st.wr sr clr).logReads v.off (8 - v.align)).waitNotBusy sr).storeTab
          (sub32 v.adr v.align)
          (fun i => if i < v.align then (st.wr sr clr).mem (add32 (sub32 v.adr v.align) i)
            else buf (v.off + (i - v.align))))
        ((((st.wr sr clr).logReads v.off (8 - v.align)).waitNotBusy sr).storeTab
          (sub32 v.adr v.align)
          (fun i => if i < v.align then (st.wr sr clr).mem (add32 (sub32 v.adr v.align) i)
            else buf (v.off + (i - v.align))))
        [] (by simp) (fun _ h => by cases h)
        (add32 v.adr (8 - v.align)) buf (v.off + (8 - v.align))
      have eb : (loopBody sr clr buf st v).1 =
          ((((((st.wr sr clr).logReads v.off (8 - v.align)).waitNotBusy sr).storeTab
            (sub32 v.adr v.align)
            (fun i => if i < v.align then (st.wr sr clr).mem (add32 (sub32 v.adr v.align) i)
              else buf (v.off + (i - v.align)))).waitNotBusy sr).storeBuf
              (add32 v.adr (8 - v.align)) buf (v.off + (8 - v.align))) := by
        simp only [loopBody, hybridUnit, if_pos h8, ha, ne_eq, not_false_eq_true, if_true]
      rw [if_neg ha]
      refine hfin (loopBody sr clr buf st v).1 [b1, b2] 2 ?_ rfl ?_
      · rw [eb, hb2, hb1]
        simp only [List.flatten_cons, List.flatten_nil, List.append_nil, List.append_assoc]
      · intro x hx
        simp only [List.mem_cons, List.mem_singleton, List.not_mem_nil, or_false] at hx
        rcases hx with rfl | rfl
        · exact hB1
        · exact hB2
  · -- the padded pass
    have ha : v.align = 0 := by
      by_contra hne
      rcases h3 hne with h | h
      · exact hz h
      · omega
    obtain ⟨b, hb, hB⟩ := storeTab_block sr st (st.logReads v.off v.sz)
      ((List.range v.sz).map (fun i => Event.bufRead (v.off + i))) rfl
      (fun e he => Or.inr (allBufReads_logReads _ _ e he)) v.adr
      (fun i => if i < v.sz then buf (v.off + i) else 0xFF)
    have eb : (loopBody sr clr buf st v).1 =
        ((st.logReads v.off v.sz).waitNotBusy sr).storeTab v.adr
          (fun i => if i < v.sz then buf (v.off + i) else 0xFF) := by
      simp only [loopBody, if_neg h8]
    rw [if_pos ha]
    exact hfin (loopBody sr clr buf st v).1 [b] 1 (by rw [eb]; simpa using hb) rfl
      (fun x hx => by rw [List.mem_singleton.1 hx]; exact hB)

/-- After a pass of the loop `align` is 0. -/
theorem loopBody_align (sr : Reg) (clr : Nat) (buf : Nat → Byte) (st : State) (v : Vars)
    (hi : LoopInv v) (hz : v.sz ≠ 0) : (loopBody sr clr buf st v).2.align = 0 := by
  obtain ⟨_, _, h3⟩ := hi
  unfold loopBody hybridUnit
  by_cases h8 : v.sz ≥ 8
  · by_cases ha : v.align ≠ 0
    · simp only [if_pos h8, if_pos ha]
    · simp only [if_pos h8, if_neg ha]
      exact not_not.1 ha
  · simp only [if_neg h8]
    by_contra hne
    rcases h3 hne with h | h
    · exact hz h
    · omega

theorem IsPassList_concat (sr : Reg) (n : Nat) (passes : List (Nat × List Event))
    (x : Nat × List Event) (h : IsPassList sr n passes)
    (hx : IsPass sr (if passes = [] then n else 1) x.1 x.2) :
    IsPassList sr n (passes ++ [x]) := by
  cases passes with
  | nil =>
    refine ⟨fun p hp => ?_, fun p hp => by simp at hp⟩
    simp only [List.nil_append, List.head?_cons, Option.some.injEq] at hp
    subst hp
    simpa using hx
  | cons q qs =>
    refine ⟨fun p hp => h.1 p (by simpa using hp), fun p hp => ?_⟩
    simp only [List.cons_append, List.tail_cons, List.mem_append, List.mem_singleton] at hp
    rcases hp with hp | hp
    · exact h.2 p (by simpa using hp)
    · subst hp
      simpa using hx

/-- The trace of the loop of `ProgramPage` is a sequence of passes, each ending with its
error test; every test but the last reads no bit of `FLASH_PGERR`, the loop ends on a
failed test exactly when the last test reads such a bit, and then the reset of the flags
follows. -/
theorem progLoop_passes (sr : Reg) (clr : Nat) (buf : Nat → Byte) (st : State) (v : Vars)
    (hi : LoopInv v) :
    ∃ b st', progLoop sr clr buf v.sz st v = some (b, st') ∧
      ∃ passes : List (Nat × List Event),
        st'.trace = st.trace ++ (passes.map Prod.snd).flatten ++
          (if b = true then [Event.wr sr FLASH_PGERR] else []) ∧
        IsPassList sr (if v.align = 0 then 1 else 2) passes ∧
        (∀ p ∈ passes.dropLast, p.1 &&& FLASH_PGERR = 0) ∧
        (b = true ↔ ∃ p, passes.getLast? = some p ∧ p.1 &&& FLASH_PGERR ≠ 0) ∧
        (passes = [] ↔ v.sz = 0) := by
  refine progLoop_rule sr clr buf
    (fun s w => LoopInv w ∧ ∃ passes : List (Nat × List Event),
      s.trace = st.trace ++ (passes.map Prod.snd).flatten ∧
      IsPassList sr (if v.align = 0 then 1 else 2) passes ∧
      (∀ p ∈ passes, p.1 &&& FLASH_PGERR = 0) ∧
      (passes = [] → w = v) ∧ (passes ≠ [] → v.sz ≠ 0 ∧ w.align = 0))
    (fun b s => ∃ passes : List (Nat × List Event),
      s.trace = st.trace ++ (passes.map Prod.snd).flatten ++
        (if b = true then [Event.wr sr FLASH_PGERR] else []) ∧
      IsPassList sr (if v.align = 0 then 1 else 2) passes ∧
      (∀ p ∈ passes.dropLast, p.1 &&& FLASH_PGERR = 0) ∧
      (b = true ↔ ∃ p, passes.getLast? = some p ∧ p.1 &&& FLASH_PGERR ≠ 0) ∧
      (passes = [] ↔ v.sz = 0))
    (fun _ _ h => h.1) ?_ ?_ ?_ v.sz st v
    ⟨hi, [], by simp, ⟨fun p hp => by simp at hp, fun p hp => by simp at hp⟩,
      (fun p hp => by simp at hp), (fun _ => rfl), (fun h => absurd rfl h)⟩ (Nat.le_refl _)
  · -- the loop ends with `sz = 0`
    rintro s w ⟨_, passes, ht, hl, hc, hnil, hcons⟩ hz
    refine ⟨passes, by simpa using ht, hl,
      (fun p hp => hc p (List.mem_of_mem_dropLast hp)), ?_, ?_⟩
    · constructor
      · intro h; cases h
      · rintro ⟨p, hp, hbad⟩
        exact absurd (hc p (List.mem_of_getLast?_eq_some hp)) hbad
    · constructor
      · intro h
        rw [← hnil h]; exact hz
      · intro h
        by_contra hne
        exact (hcons hne).1 h
  · -- an error test fails
    rintro s w ⟨hL, passes, ht, hl, hc, hnil, hcons⟩ hz hbad
    obtain ⟨l, hlt, hP⟩ := loopPass_isPass sr clr buf s w hL hz
    have hn : (if w.align = 0 then 1 else 2) =
        (if passes = [] then (if v.align = 0 then 1 else 2) else 1) := by
      by_cases hp : passes = []
      · rw [if_pos hp, hnil hp]
      · rw [if_neg hp, if_pos (hcons hp).2]
    rw [hn] at hP
    refine ⟨passes ++ [((loopPass sr clr buf s w).1, l)], ?_,
      IsPassList_concat sr _ passes _ hl hP, ?_, ?_, ?_⟩
    · rw [wr_trace, hlt, ht]
      simp only [List.map_append, List.flatten_append, List.map_cons, List.map_nil,
        List.flatten_cons, List.flatten_nil, List.append_nil, List.append_assoc, if_true]
    · rw [List.dropLast_concat]; exact hc
    · constructor
      · intro _
        exact ⟨_, List.getLast?_concat _, hbad⟩
      · intro _; rfl
    · constructor
      · intro h; simp at h
      · intro h
        by_cases hp : passes = []
        · rw [hnil hp] at hz; exact absurd h hz
        · exact absurd h (hcons hp).1
  · -- the error test passes
    rintro s w ⟨hL, passes, ht, hl, hc, hnil, hcons⟩ hz hok
    obtain ⟨l, hlt, hP⟩ := loopPass_isPass sr clr buf s w hL hz
    have hn : (if w.align = 0 then 1 else 2) =
        (if passes = [] then (if v.align = 0 then 1 else 2) else 1) := by
      by_cases hp : passes = []
      · rw [if_pos hp, hnil hp]
      · rw [if_neg hp, if_pos (hcons hp).2]
    rw [hn] at hP
    have e2 : (loopPass sr clr buf s w).2.2 = (loopBody sr clr buf s w).2 := rfl
    refine ⟨by rw [e2]; exact (loopBody_vars sr clr buf s w hL hz).1,
      passes ++ [((loopPass sr clr buf s w).1, l)], ?_,
      IsPassList_concat sr _ passes _ hl hP, ?_, ?_, ?_⟩
    · rw [hlt, ht]
      simp only [List.map_append, List.flatten_append, List.map_cons, List.map_nil,
        List.flatten_cons, List.flatten_nil, List.append_nil, List.append_assoc]
    · intro p hp
      rcases List.mem_append.1 hp with h | h
      · exact hc p h
      · rw [List.mem_singleton.1 h]; exact hok
    · intro h; simp at h
    · intro _
      refine ⟨?_, by rw [e2]; exact loopBody_align sr clr buf s w hL hz⟩
      by_cases hp : passes = []
      · rw [← hnil hp]; exact hz
      · exact (hcons hp).1

/-- The trace of `ProgramPage`: the stores before the loop, a sequence of passes each
ending with its error test, and one last store, the reset of the flags when the last
test has failed (result 1) and the reset of the control register otherwise (result 0).
The first pass stores two write units when `adr` is not a multiple of 8. -/
theorem ProgramPage_passes (st : State) (adr N : Nat) (buf : Nat → Byte) :
    ∃ r st', ProgramPage st adr N buf = some (r, st') ∧
      ∃ passes : List (Nat × List Event),
        newEvents st st' = prologue st ++ (passes.map Prod.snd).flatten ++
          [if r = 1 then Event.wr (activeSR (nonSecure st)) FLASH_PGERR
            else Event.wr (activeCR (nonSecure st)) 0] ∧
        IsPassList (activeSR (nonSecure st)) (if adr % 8 = 0 then 1 else 2) passes ∧
        (∀ p ∈ passes.dropLast, p.1 &&& FLASH_PGERR = 0) ∧
        (r = 1 ↔ ∃ p, passes.getLast? = some p ∧ p.1 &&& FLASH_PGERR ≠ 0) ∧
        (passes = [] ↔ roundSize N = 0) := by
  obtain ⟨b, s1, e, passes, ht, hl, hc, hb, hn⟩ := progLoop_passes (activeSR (nonSecure st))
    (if nonSecure st then FLASH_PGAERR else 0x000001FF) buf
    (if nonSecure st then st.wr Reg.NSCR1 FLASH_PG
      else (st.wr Reg.SECSR FLASH_PGERR).wr Reg.SECCR1 FLASH_PG)
    { adr := adr, sz := roundSize N, off := 0, align := adr % 8 } (LoopInv_start adr N)
  have h0 : (if nonSecure st then st.wr Reg.NSCR1 FLASH_PG
      else (st.wr Reg.SECSR FLASH_PGERR).wr Reg.SECCR1 FLASH_PG).trace =
      st.trace ++ prologue st := by
    unfold prologue
    cases nonSecure st <;> simp
  rw [h0] at ht
  have e' : progLoop (activeSR (nonSecure st))
      (if nonSecure st then FLASH_PGAERR else 0x000001FF) buf (roundSize N)
      (if nonSecure st then st.wr Reg.NSCR1 FLASH_PG
        else (st.wr Reg.SECSR FLASH_PGERR).wr Reg.SECCR1 FLASH_PG)
      { adr := adr, sz := roundSize N, off := 0, align := adr % 8 } = some (b, s1) := e
  rw [ProgramPage_eq, e']
  cases b
  · refine ⟨0, s1.wr (activeCR (nonSecure st)) 0, by simp, passes, ?_, hl, hc, ?_, hn⟩
    · apply newEvents_append
      rw [wr_trace, ht]
      simp only [Bool.false_eq_true, if_false, List.append_nil, List.append_assoc,
        Nat.zero_ne_one]
    · constructor
      · intro h; cases h
      · intro h
        exact absurd (hb.2 h) (by decide)
  · refine ⟨1, s1, by simp, passes, ?_, hl, hc, ?_, hn⟩
    · apply newEvents_append
      rw [ht]
      simp only [if_true, List.append_assoc]
    · constructor
      · intro _; exact hb.1 rfl
      · intro _; rfl
/-! ## Programming at an unaligned address -/

/-- C1, as stated, fails. (1) For the sizes whose 32-bit rounding `(N + 15) & ~15` wraps
to 0, `ProgramPage 0x08000003 0xFFFFFFFF buf` on a quiet controller returns 0 without
storing anything, so the byte at `0x08000003` is still the erased `0xFF` and not
`buf[0]`. (2) The error test also looks at the end-of-operation flag: with a status
register that reads `FLASH_EOP` (busy flag clear, none of the seven error flags set)
`ProgramPage 0x08000003 5 buf` returns 1. -/
theorem ProgramPage_round_trip_counterexample :
    (0x08000003 % 8 = 3 ∧ (1 : Nat) ≤ 0xFFFFFFFF ∧ roundSize 0xFFFFFFFF = 0 ∧
      (ProgramPage (dualBank 0x800 []) 0x08000003 0xFFFFFFFF (fun _ => 0xAA)).map
          (fun r => (r.1, r.2.mem 0x08000003)) = some (0, 0xFF) ∧
      (0xAA : Byte) ≠ 0xFF) ∧
    (FLASH_EOP &&& FLASH_BSY = 0 ∧
      FLASH_EOP &&& (FLASH_OPERR ||| FLASH_PROGERR ||| FLASH_WRPERR ||| FLASH_PGAERR |||
        FLASH_SIZERR ||| FLASH_PGSERR ||| FLASH_OPTWERR) = 0 ∧
      (ProgramPage (dualBank 0x800 [FLASH_EOP, FLASH_EOP, FLASH_EOP, FLASH_EOP]) 0x08000003 5
          (fun _ => 0xAA)).map Prod.fst = some 1) := by
  decide

/-- C1, amended: for every address `adr` with `0 < adr % 8`, every size `N` with
`1 ≤ N ≤ 2 ^ 32 - 16` and every buffer, when every read of the status register shows the
busy flag clear and no bit of `FLASH_PGERR` (the seven error flags and `FLASH_EOP`),
`ProgramPage adr N buf` returns 0; afterwards
the `adr % 8` bytes that precede `adr` in its double word are what they were before the
call and the bytes at `adr .. adr + N - 1` (addresses modulo `2 ^ 32`) are
`buf[0 .. N - 1]`. -/
theorem ProgramPage_round_trip (st : State) (adr N : Nat) (buf : Nat → Byte)
    (hadr : adr < W32) (ha : 0 < adr % 8) (hN1 : 1 ≤ N) (hN : N ≤ W32 - 16)
    (hq : Quiet st.hw) :
    ∃ st', ProgramPage st adr N buf = some (0, st') ∧
      (∀ i, i < adr % 8 → st'.mem (adr - adr % 8 + i) = st.mem (adr - adr % 8 + i)) ∧
      (∀ i, i < N → st'.mem ((adr + i) % W32) = buf i) := by
  have hW : W32 = 4294967296 := rfl
  have hR : roundSize N = (N + 15) / 16 * 16 := roundSize_of_lt N (by rw [hW] at hN ⊢; omega)
  obtain ⟨st', e⟩ := ProgramPage_quiet st adr N buf hq
  obtain ⟨r, s2, e2, hm⟩ := ProgramPage_mem st adr N buf hadr (by rw [hR]; omega)
  rw [e] at e2
  cases e2
  have hmem := hm rfl
  refine ⟨st', e, fun i hi => ?_, fun i hi => ?_⟩
  · rw [hmem, blit_apply _ _ _ _ _ i (by rw [hW] at hadr ⊢; omega)
      (by rw [hW] at hadr ⊢; omega) (by rw [hR]; omega)]
    unfold pageStream
    rw [if_pos hi]
  · rw [hmem, blit_apply _ _ _ _ _ (adr % 8 + i) (Nat.mod_lt _ (by decide))
      (by rw [hW] at hadr hN ⊢; omega) (by rw [hR]; omega)]
    unfold pageStream
    rw [if_neg (by omega), if_pos (by rw [hR]; omega)]
    exact congrArg buf (by omega)

theorem ProgramPage_round_trip_witness :
    0x08000003 < W32 ∧ 0 < 0x08000003 % 8 ∧ 1 ≤ 5 ∧ 5 ≤ W32 - 16 ∧
    Quiet (dualBank 0x800 []).hw ∧
    ∃ st', ProgramPage (dualBank 0x800 []) 0x08000003 5 (fun _ => 0xAA) = some (0, st') ∧
      (∀ i, i < 0x08000003 % 8 →
        st'.mem (0x08000003 - 0x08000003 % 8 + i) =
          (dualBank 0x800 []).mem (0x08000003 - 0x08000003 % 8 + i)) ∧
      (∀ i, i < 5 → st'.mem ((0x08000003 + i) % W32) = (fun _ => 0xAA) i) :=
  ⟨by decide, by decide, by decide, by decide, (fun _ h => by cases h),
    ProgramPage_round_trip (dualBank 0x800 []) 0x08000003 5 (fun _ => 0xAA) (by decide)
      (by decide) (by decide) (by decide) (fun _ h => by cases h)⟩

/-! ## What follows the declared data -/

/-- C3, as stated, fails: the call makes three double-word stores, not two. The second
one, at `0x08000008`, holds the eight buffer bytes that follow the five declared ones
(zero when the buffer goes on with `0x00`), and there is a third one at `0x08000010`
that holds three more buffer bytes and five `0xFF`; even with a buffer that goes on with
`0xFF` the third store is made. -/
theorem ProgramPage_scenario_counterexample :
    (ProgramPage scenarioState 0x08000003 5 (scenarioBuf 0x00)).map
        (fun r => (r.1, stores (newEvents scenarioState r.2))) =
      some (0, [(0x08000000, 0xAA332211), (0x08000004, 0xEEDDCCBB),
        (0x08000008, 0x00000000), (0x0800000C, 0x00000000),
        (0x08000010, 0xFF000000), (0x08000014, 0xFFFFFFFF)]) ∧
    (ProgramPage scenarioState 0x08000003 5 (scenarioBuf 0xFF)).map
        (fun r => (r.1, stores (newEvents scenarioState r.2))) =
      some (0, [(0x08000000, 0xAA332211), (0x08000004, 0xEEDDCCBB),
        (0x08000008, 0xFFFFFFFF), (0x0800000C, 0xFFFFFFFF),
        (0x08000010, 0xFFFFFFFF), (0x08000014, 0xFFFFFFFF)]) := by
  decide

/-- C3, amended: with memory bytes `0x08000000 .. 0x08000002 = [0x11, 0x22, 0x33]` and a
controller that shows neither the busy flag nor a bit of `FLASH_PGERR`,
`ProgramPage 0x08000003 5 buf` with `buf[0 .. 4] = [0xAA, 0xBB, 0xCC, 0xDD, 0xEE]` returns
0 and makes exactly three double-word stores and no other store: at `0x08000000` the
bytes `[0x11, 0x22, 0x33, 0xAA, 0xBB, 0xCC, 0xDD, 0xEE]`, at `0x08000008` the eight
buffer bytes `buf[5 .. 12]`, and at `0x08000010` the bytes `buf[13 .. 15]` followed by
five `0xFF`. -/
theorem ProgramPage_scenario (st : State) (buf : Nat → Byte)
    (hm0 : st.mem 0x08000000 = 0x11) (hm1 : st.mem 0x08000001 = 0x22)
    (hm2 : st.mem 0x08000002 = 0x33)
    (hb0 : buf 0 = 0xAA) (hb1 : buf 1 = 0xBB) (hb2 : buf 2 = 0xCC) (hb3 : buf 3 = 0xDD)
    (hb4 : buf 4 = 0xEE) (hq : Quiet st.hw) :
    ∃ st', ProgramPage st 0x08000003 5 buf = some (0, st') ∧
      stores (newEvents st st') =
        [(0x08000000, 0xAA332211), (0x08000004, 0xEEDDCCBB),
         (0x08000008, word32 (fun j => buf (5 + j))),
         (0x0800000C, word32 (fun j => buf (9 + j))),
         (0x08000010, word32 (fun j => if j < 3 then buf (13 + j) else 0xFF)),
         (0x08000014, 0xFFFFFFFF)] := by
  obtain ⟨st', e⟩ := ProgramPage_quiet st 0x08000003 5 buf hq
  obtain ⟨r, s2, e2, hs⟩ := ProgramPage_stores st 0x08000003 5 buf (by decide)
  rw [e] at e2
  cases e2
  refine ⟨st', e, ?_⟩
  rw [hs rfl]
  have hR : roundSize 5 = 16 := by decide
  have hc : unitCount 0x08000003 5 = 0 + 1 + 1 + 1 := by
    unfold unitCount; rw [hR]; decide
  rw [hc, unitStores_succ, unitStores_succ, unitStores_succ]
  have hu0 : ∀ A src, unitStores A src 0 = [] := fun _ _ => rfl
  rw [hu0]
  simp only [List.nil_append, List.cons_append, List.singleton_append]
  have hp : ∀ j, pageStream st.mem 0x08000003 5 buf j =
      if j < 3 then st.mem (0x08000000 + j) else if j < 19 then buf (j - 3) else 0xFF := by
    intro j
    unfold pageStream
    rw [hR]
  have w0 : word32 (fun j => pageStream st.mem 0x08000003 5 buf (8 * 0 + j)) = 0xAA332211 := by
    unfold word32
    simp only [hp]
    norm_num [hm0, hm1, hm2, hb0]
    rfl
  have w1 : word32 (fun j => pageStream st.mem 0x08000003 5 buf (8 * 0 + 4 + j)) =
      0xEEDDCCBB := by
    unfold word32
    simp only [hp]
    norm_num [hb1, hb2, hb3, hb4]
    rfl
  have w2 : word32 (fun j => pageStream st.mem 0x08000003 5 buf (8 * (0 + 1) + j)) =
      word32 (fun j => buf (5 + j)) := by
    apply word32_congr
    intro j hj
    rw [hp, if_neg (by omega), if_pos (by omega)]
    exact congrArg buf (by omega)
  have w3 : word32 (fun j => pageStream st.mem 0x08000003 5 buf (8 * (0 + 1) + 4 + j)) =
      word32 (fun j => buf (9 + j)) := by
    apply word32_congr
    intro j hj
    rw [hp, if_neg (by omega), if_pos (by omega)]
    exact congrArg buf (by omega)
  have w4 : word32 (fun j => pageStream st.mem 0x08000003 5 buf (8 * (0 + 1 + 1) + j)) =
      word32 (fun j => if j < 3 then buf (13 + j) else 0xFF) := by
    apply word32_congr
    intro j hj
    rw [hp, if_neg (by omega)]
    by_cases h3 : j < 3
    · rw [if_pos h3, if_pos (by omega)]
      exact congrArg buf (by omega)
    · rw [if_neg h3, if_neg (by omega)]
  have w5 : word32 (fun j => pageStream st.mem 0x08000003 5 buf (8 * (0 + 1 + 1) + 4 + j)) =
      0xFFFFFFFF := by
    unfold word32
    simp only [hp]
    norm_num
    rfl
  rw [w0, w1, w2, w3, w4, w5]
  rfl

theorem ProgramPage_scenario_witness :
    scenarioState.mem 0x08000000 = 0x11 ∧ scenarioState.mem 0x08000001 = 0x22 ∧
    scenarioState.mem 0x08000002 = 0x33 ∧
    scenarioBuf 0x5A 0 = 0xAA ∧ scenarioBuf 0x5A 1 = 0xBB ∧ scenarioBuf 0x5A 2 = 0xCC ∧
    scenarioBuf 0x5A 3 = 0xDD ∧ scenarioBuf 0x5A 4 = 0xEE ∧ Quiet scenarioState.hw ∧
    ∃ st', ProgramPage scenarioState 0x08000003 5 (scenarioBuf 0x5A) = some (0, st') ∧
      stores (newEvents scenarioState st') =
        [(0x08000000, 0xAA332211), (0x08000004, 0xEEDDCCBB),
         (0x08000008, word32 (fun j => scenarioBuf 0x5A (5 + j))),
         (0x0800000C, word32 (fun j => scenarioBuf 0x5A (9 + j))),
         (0x08000010, word32 (fun j => if j < 3 then scenarioBuf 0x5A (13 + j) else 0xFF)),
         (0x08000014, 0xFFFFFFFF)] :=
  ⟨rfl, rfl, rfl, rfl, rfl, rfl, rfl, rfl, (fun _ h => by cases h),
    ProgramPage_scenario scenarioState (scenarioBuf 0x5A) rfl rfl rfl rfl rfl rfl rfl rfl
      (fun _ h => by cases h)⟩

/-! ## Alias folding in EraseSector -/

/-- C4, as stated, fails: on a non-secure 2 MiB dual-bank part the address `0x10000000`
lies at or above `0x0C000000`, is folded once to `0x0C000000` and selects bank 2
(bank-select bit set), whereas `0x10000000 - 0x04000000 = 0x0C000000` is itself folded
to `0x08000000` and selects bank 1 (bank-select bit clear). -/
theorem EraseSector_alias_counterexample :
    0x10000000 ≥ 0x0C000000 ∧
    (EraseSector (dualBank 0x800 []) 0x10000000).2.regs Reg.NSCR1 &&& FLASH_BKER
      = FLASH_BKER ∧
    (EraseSector (dualBank 0x800 []) (0x10000000 - 0x04000000)).2.regs Reg.NSCR1
      &&& FLASH_BKER = 0 := by
  decide

/-- C4, amended: for every state and every address `A` with
`0x0C000000 ≤ A < 0x10000000`, `EraseSector A` and `EraseSector (A - 0x04000000)` run
from the same state give the same return value and the same final state, hence the same
page-number field and bank-select bit in the active control register. -/
theorem EraseSector_alias (st : State) (A : Nat) (h1 : 0x0C000000 ≤ A)
    (h2 : A < 0x10000000) : EraseSector st A = EraseSector st (A - 0x04000000) := by
  have e : eraseStart st A = eraseStart st (A - 0x04000000) := by
    simp only [eraseStart]
    rw [if_pos (show A ≥ 0x0C000000 from h1),
      if_neg (show ¬ A - 0x04000000 ≥ 0x0C000000 by omega)]
  simp only [EraseSector, e]

theorem EraseSector_alias_witness :
    0x0C000000 ≤ 0x0C100000 ∧ 0x0C100000 < 0x10000000 ∧
    EraseSector (dualBank 0x800 []) 0x0C100000 =
      EraseSector (dualBank 0x800 []) (0x0C100000 - 0x04000000) :=
  ⟨by decide, by decide, EraseSector_alias _ _ (by decide) (by decide)⟩

/-! ## Bank selection in EraseSector -/

/-- C5, as stated, fails. (1) On a dual-bank part in the reduced configuration (1 MiB,
option bit 21 clear) `EraseSector` does not touch the bank-select bit: for
`adr = 0x08080000 ≥ GetFlashBank()` it is still 0 when the start bit is set. (2) With
512 sectors per bank (8 MiB) the page-number mask `0x1FF << 3` covers the bank-select
bit, and the bit set for `adr = 0x08400000 ≥ GetFlashBank()` is cleared again before the
start bit. (3) With a size descriptor of `0x801` KiB the bank size is not a whole number
of sectors, and the page-number fields written for `0x08102000` and for its mirror
differ. (4) With 192 sectors per bank (3 MiB, not a power of two) the page-number fields
written for `0x08300000` and for its mirror differ. -/
theorem EraseSector_bank_counterexample :
    (GetFlashType (dualBank 0x400 []) = 1 ∧ 0x08080000 < 0x0C000000 ∧
      0x08080000 ≥ GetFlashBank (dualBank 0x400 []) ∧
      (eraseStart (dualBank 0x400 []) 0x08080000).regs Reg.NSCR1 &&& FLASH_BKER = 0) ∧
    (GetFlashType (dualBank 0x2000 []) = 1 ∧ 0x08400000 < 0x0C000000 ∧
      0x08400000 ≥ GetFlashBank (dualBank 0x2000 []) ∧
      (eraseStart (dualBank 0x2000 []) 0x08400000).regs Reg.NSCR1 &&& FLASH_BKER = 0) ∧
    (GetFlashType (dualBank 0x801 []) = 1 ∧ 0x08102000 < 0x0C000000 ∧
      0x08102000 ≥ GetFlashBank (dualBank 0x801 []) ∧
      pnbField (dualBank 0x801 []) ((eraseStart (dualBank 0x801 []) 0x08102000).regs Reg.NSCR1)
        ≠ pnbField (dualBank 0x801 []) ((eraseStart (dualBank 0x801 [])
            (0x08102000 - GetFlashSize (dualBank 0x801 []) / 2)).regs Reg.NSCR1)) ∧
    (GetFlashType (dualBank 0xC00 []) = 1 ∧ 0x08300000 < 0x0C000000 ∧
      0x08300000 ≥ GetFlashBank (dualBank 0xC00 []) ∧
      pnbField (dualBank 0xC00 []) ((eraseStart (dualBank 0xC00 []) 0x08300000).regs Reg.NSCR1)
        ≠ pnbField (dualBank 0xC00 []) ((eraseStart (dualBank 0xC00 [])
            (0x08300000 - GetFlashSize (dualBank 0xC00 []) / 2)).regs Reg.NSCR1)) := by
  decide

/-- C5, amended: on a dual-bank part (`GetFlashType() = 1`), for every `adr` below the
alias window. (1) When the part is not in the reduced configuration
(`GetFlashSize() ≥ 0x200000` or option bit 21 set) and has `2 ^ k` sectors per bank with
`k ≤ 8` (the size descriptor reads `16 * 2 ^ k` KiB): when `EraseSector adr` has set the
start bit the bank-select bit of the active control register is 0 if
`adr < GetFlashBank()` and 1 if `adr ≥ GetFlashBank()`; the page-number field holds
`(adr >> 13) mod 2 ^ k`; for `adr ≥ GetFlashBank()` the page-number field written for
`adr` equals the one written for `adr - GetFlashSize()/2`; and with flash size
`0x200000` (mask `0x7F`) `EraseSector 0x08100000` starts with bank-select 1 and
page index 0. (2) In the reduced configuration (`GetFlashSize() < 0x200000` and option
bit 21 clear) the mask is the single-bank one, and up to the start bit `EraseSector`
makes exactly these stores: the reset of the error flag, then to the active control
register set PER, clear the page-number field, set the page number
`(adr >> 13) & PNBMASK_val()`, set STRT; none of them is a store that sets or clears
the bank-select bit, which keeps its value when the mask is below `0x100`. -/
theorem EraseSector_bank_select (st : State) (adr : Nat) (ht : GetFlashType st = 1)
    (ha : adr < 0x0C000000) :
    (¬ (GetFlashSize st < 0x200000 ∧ st.regs Reg.OPTR &&& 0x200000 = 0) →
      ∀ k, k ≤ 8 → st.flashsize &&& 0xFFFF = 16 * 2 ^ k →
        (adr < GetFlashBank st →
          (eraseStart st adr).regs (activeCR (nonSecure st)) &&& FLASH_BKER = 0) ∧
        (GetFlashBank st ≤ adr →
          (eraseStart st adr).regs (activeCR (nonSecure st)) &&& FLASH_BKER ≠ 0) ∧
        pnbField st ((eraseStart st adr).regs (activeCR (nonSecure st))) =
          ((adr >>> 13) % 2 ^ k) <<< 3 ∧
        (GetFlashBank st ≤ adr →
          pnbField st ((eraseStart st adr).regs (activeCR (nonSecure st))) =
            pnbField st ((eraseStart st (adr - GetFlashSize st / 2)).regs
              (activeCR (nonSecure st)))) ∧
        (st.flashsize &&& 0xFFFF = 0x800 → adr = 0x08100000 →
          (eraseStart st adr).regs (activeCR (nonSecure st)) &&& FLASH_BKER ≠ 0 ∧
          pnbField st ((eraseStart st adr).regs (activeCR (nonSecure st))) = 0)) ∧
    (GetFlashSize st < 0x200000 ∧ st.regs Reg.OPTR &&& 0x200000 = 0 →
      PNBMASK_val st = sub32 (((st.desc0BF907A0 &&& 0xFFF) * 0x400) / 0x2000) 1 ∧
      newEvents st (eraseStart st adr) =
        [Event.wr (activeSR (nonSecure st)) FLASH_PGAERR,
         Event.wr (activeCR (nonSecure st)) (st.regs (activeCR (nonSecure st)) ||| FLASH_PER),
         Event.wr (activeCR (nonSecure st))
          ((st.regs (activeCR (nonSecure st)) ||| FLASH_PER) &&&
            not32 ((PNBMASK_val st <<< 3) % W32)),
         Event.wr (activeCR (nonSecure st))
          ((st.regs (activeCR (nonSecure st)) ||| FLASH_PER) &&&
            not32 ((PNBMASK_val st <<< 3) % W32) |||
            (((adr >>> 13) &&& PNBMASK_val st) <<< 3) % W32),
         Event.wr (activeCR (nonSecure st))
          ((st.regs (activeCR (nonSecure st)) ||| FLASH_PER) &&&
            not32 ((PNBMASK_val st <<< 3) % W32) |||
            (((adr >>> 13) &&& PNBMASK_val st) <<< 3) % W32 ||| FLASH_STRT)] ∧
      (eraseStart st adr).regs (activeCR (nonSecure st)) =
        (st.regs (activeCR (nonSecure st)) ||| FLASH_PER) &&&
          not32 ((PNBMASK_val st <<< 3) % W32) |||
          (((adr >>> 13) &&& PNBMASK_val st) <<< 3) % W32 ||| FLASH_STRT ∧
      (PNBMASK_val st < 0x100 →
        (eraseStart st adr).regs (activeCR (nonSecure st)) &&& FLASH_BKER =
          st.regs (activeCR (nonSecure st)) &&& FLASH_BKER)) := by
  constructor
  · intro hr k hk hs
    have hm := PNBMASK_val_pow st k hk ht hr hs
    have hbit : ∀ a, a < 0x0C000000 →
        ((eraseStart st a).regs (activeCR (nonSecure st))).testBit 11 =
          decide (GetFlashBank st ≤ a) := by
      intro a haa
      rw [eraseStart_regs st a k hk ht hr hs haa]
      have hM : (2 ^ k - 1).testBit 8 = false := by
        by_contra hc
        have := testBit_mask_lt k 8 hk (by simpa using hc)
        omega
      have hP : ((a / 8192) % 2 ^ k).testBit 8 = false := by
        by_contra hc
        have := testBit_mod_pow_lt _ k 8 hk (by simpa using hc)
        omega
      by_cases hb : GetFlashBank st ≤ a <;>
        simp [hb, testBit_not32, testBit_mod_W32, testBit_FLASH_PER, testBit_FLASH_BKER,
          testBit_FLASH_STRT, hM, hP]
    have hfield : ∀ a, a < 0x0C000000 → ∀ i,
        (pnbField st ((eraseStart st a).regs (activeCR (nonSecure st)))).testBit i =
          (decide (3 ≤ i) && ((a / 8192) % 2 ^ k).testBit (i - 3)) := by
      intro a haa i
      rw [eraseStart_regs st a k hk ht hr hs haa, pnbField, hm]
      by_cases h3 : 3 ≤ i
      · by_cases hM : (2 ^ k - 1).testBit (i - 3) = true
        · have := testBit_mask_lt k _ hk hM
          have h32 : i < 32 := by omega
          have h16 : ¬ 16 = i := by omega
          simp [h3, hM, h32, h16, testBit_not32, testBit_mod_W32, testBit_FLASH_STRT]
        · have hP : ((a / 8192) % 2 ^ k).testBit (i - 3) = false := by
            rw [Nat.testBit_two_pow_sub_one] at hM
            rw [Nat.testBit_mod_two_pow]
            simp at hM ⊢
            intro hh; omega
          simp [h3, hM, hP, testBit_mod_W32]
      · simp [h3, testBit_mod_W32]
    refine ⟨fun hlt => ?_, fun hge => ?_, ?_, fun hge => ?_, fun h800 hadr => ⟨?_, ?_⟩⟩
    · rw [and_FLASH_BKER_eq_zero, hbit adr ha]; simpa using hlt
    · rw [and_FLASH_BKER_ne_zero, hbit adr ha]; simpa using hge
    · apply Nat.eq_of_testBit_eq
      intro i
      rw [hfield adr ha, Nat.testBit_shiftLeft, Nat.shiftRight_eq_div_pow]
    · apply Nat.eq_of_testBit_eq
      intro i
      have hsz : GetFlashSize st / 2 = 2 ^ k * 8192 := by
        unfold GetFlashSize; rw [hs]; omega
      have hbk : GetFlashBank st = 2 ^ k * 8192 + 0x8000000 := by
        unfold GetFlashBank; rw [hs]; omega
      rw [hfield adr ha, hfield _ (by omega), hsz, mirror_page adr k hk (by omega)]
    · subst hadr
      have hbk : GetFlashBank st = 0x08100000 := by
        unfold GetFlashBank; rw [h800]
      rw [and_FLASH_BKER_ne_zero, hbit _ ha, hbk]; decide
    · subst hadr
      have hk7 : k = 7 := by
        rw [h800] at hs
        interval_cases k <;> omega
      subst hk7
      apply Nat.eq_of_testBit_eq
      intro i
      rw [hfield _ ha]
      simp
  · intro hr
    obtain ⟨ht1, hr1⟩ := eraseStart_reduced st adr ht hr ha
    refine ⟨?_, newEvents_append _ _ _ ht1, hr1, fun hm => ?_⟩
    · unfold PNBMASK_val
      rw [if_neg (by omega), if_pos hr]
    · rw [hr1]
      apply and_FLASH_BKER_congr
      have hM : (PNBMASK_val st).testBit 8 = false :=
        Nat.testBit_lt_two_pow (by simpa using hm)
      simp [Nat.testBit_or, Nat.testBit_and, Nat.testBit_shiftLeft, testBit_not32,
        testBit_mod_W32, testBit_FLASH_PER, testBit_FLASH_STRT, hM]

theorem EraseSector_bank_select_witness :
    GetFlashType (dualBank 0x800 []) = 1 ∧ 0x08100000 < 0x0C000000 ∧
    ¬ (GetFlashSize (dualBank 0x800 []) < 0x200000 ∧
        (dualBank 0x800 []).regs Reg.OPTR &&& 0x200000 = 0) ∧
    7 ≤ 8 ∧ (dualBank 0x800 []).flashsize &&& 0xFFFF = 16 * 2 ^ 7 ∧
    (eraseStart (dualBank 0x800 []) 0x08100000).regs
        (activeCR (nonSecure (dualBank 0x800 []))) &&& FLASH_BKER ≠ 0 ∧
    pnbField (dualBank 0x800 []) ((eraseStart (dualBank 0x800 []) 0x08100000).regs
        (activeCR (nonSecure (dualBank 0x800 [])))) = 0 ∧
    (GetFlashType (dualBank 0x400 []) = 1 ∧ 0x08082000 < 0x0C000000 ∧
      (GetFlashSize (dualBank 0x400 []) < 0x200000 ∧
        (dualBank 0x400 []).regs Reg.OPTR &&& 0x200000 = 0) ∧
      PNBMASK_val (dualBank 0x400 []) < 0x100 ∧
      (eraseStart (dualBank 0x400 []) 0x08082000).regs
          (activeCR (nonSecure (dualBank 0x400 []))) &&& FLASH_BKER =
        (dualBank 0x400 []).regs (activeCR (nonSecure (dualBank 0x400 []))) &&& FLASH_BKER) :=
  ⟨by decide, by decide, by decide, by decide, by decide,
    ((EraseSector_bank_select (dualBank 0x800 []) 0x08100000 (by decide) (by decide)).1
      (by decide) 7 (by decide) (by decide)).2.2.2.2 (by decide) rfl |>.1,
    ((EraseSector_bank_select (dualBank 0x800 []) 0x08100000 (by decide) (by decide)).1
      (by decide) 7 (by decide) (by decide)).2.2.2.2 (by decide) rfl |>.2,
    by decide, by decide, by decide, by decide,
    ((EraseSector_bank_select (dualBank 0x400 []) 0x08082000 (by decide) (by decide)).2
      (by decide)).2.2.2 (by decide)⟩
/-! ## Result of EraseSector -/

/-- C6: for every address and initial state, `EraseSector` returns 1 exactly when the
operation-error flag is set in the value of the active status register read after the
busy wait that follows the start bit, and returns 0 exactly when it is clear; when it
returns 1 the page-erase-enable bit of the active control register is set, and when it
returns 0 both that bit and the page-number field (the bits of `PNBMASK_val() << 3`) of
the active control register are clear. -/
theorem EraseSector_result (st : State) (adr : Nat) :
    ((EraseSector st adr).1 = 1 ↔ eraseStatus st adr &&& FLASH_OPERR ≠ 0) ∧
    ((EraseSector st adr).1 = 0 ↔ eraseStatus st adr &&& FLASH_OPERR = 0) ∧
    ((EraseSector st adr).1 = 1 →
      (EraseSector st adr).2.regs (activeCR (nonSecure st)) &&& FLASH_PER ≠ 0) ∧
    ((EraseSector st adr).1 = 0 →
      (EraseSector st adr).2.regs (activeCR (nonSecure st)) &&& FLASH_PER = 0 ∧
      pnbField st ((EraseSector st adr).2.regs (activeCR (nonSecure st))) = 0) := by
  obtain ⟨t1, t2, t3, t4⟩ := eraseStart_topo st adr
  have hm : PNBMASK_val (((eraseStart st adr).waitNotBusy (activeSR (nonSecure st))).readStatus
      (activeSR (nonSecure st))).2 = PNBMASK_val st :=
    PNBMASK_val_congr t1 t2 t3 t4
  have hp := eraseStart_PER st adr
  by_cases h : eraseStatus st adr &&& FLASH_OPERR ≠ 0
  · have e : EraseSector st adr = (1, (((eraseStart st adr).waitNotBusy
        (activeSR (nonSecure st))).readStatus (activeSR (nonSecure st))).2) := by
      simp only [EraseSector]
      rw [if_pos (by simpa [eraseStatus] using h)]
    rw [e]
    simp [h, and_FLASH_PER_ne_zero, hp]
  · have h0 : eraseStatus st adr &&& FLASH_OPERR = 0 := by simpa using h
    have e : EraseSector st adr = (0, ((((eraseStart st adr).waitNotBusy
        (activeSR (nonSecure st))).readStatus (activeSR (nonSecure st))).2.clearBits
          (activeCR (nonSecure st)) FLASH_PER).clearBits (activeCR (nonSecure st))
            ((PNBMASK_val ((((eraseStart st adr).waitNotBusy
        (activeSR (nonSecure st))).readStatus (activeSR (nonSecure st))).2.clearBits
          (activeCR (nonSecure st)) FLASH_PER) <<< 3) % W32)) := by
      simp only [EraseSector]
      rw [if_neg (by simpa [eraseStatus] using h)]
    rw [e]
    refine ⟨by simp [h0], by simp [h0], by simp, fun _ => ⟨?_, ?_⟩⟩
    · rw [and_FLASH_PER_eq_zero]
      simp [testBit_not32, testBit_FLASH_PER]
    · simp only [pnbField, clearBits_eq, wr_regs, Function.update_same]
      rw [PNBMASK_val_wr _ _ _ (activeCR_ne_OPTR _), hm]
      exact and_not32_and_self _ _

theorem EraseSector_result_witness :
    (EraseSector (dualBank 0x800 [0x10000, 0, 2]) 0x08100000).1 = 1 ∧
    (EraseSector (dualBank 0x800 [0x10000, 0, 2]) 0x08100000).2.regs
      (activeCR (nonSecure (dualBank 0x800 [0x10000, 0, 2]))) &&& FLASH_PER ≠ 0 :=
  ⟨by decide, (EraseSector_result (dualBank 0x800 [0x10000, 0, 2]) 0x08100000).2.2.1
    (by decide)⟩

/-! ## Result of ProgramPage -/

/-- C7, as stated, fails. (1) The mask `FLASH_PGERR` tested by the code also holds the
end-of-operation flag: when the status register reads `FLASH_EOP` and none of the seven
error flags, `ProgramPage` returns 1. (2) On an unaligned address the first double word
is followed by a busy wait but by no error test. When `FLASH_PGAERR` is set after that
busy wait and stays set, a second double word is stored before `ProgramPage` returns 1;
when it is shown by that one read only, two more double words are stored and
`ProgramPage` returns 0. -/
theorem ProgramPage_result_counterexample :
    (FLASH_EOP &&& (FLASH_OPERR ||| FLASH_PROGERR ||| FLASH_WRPERR ||| FLASH_PGAERR |||
        FLASH_SIZERR ||| FLASH_PGSERR ||| FLASH_OPTWERR) = 0 ∧
      (ProgramPage (dualBank 0x800 [0, 0, FLASH_EOP]) 0x08000000 16 (fun _ => 0xAA)).map
        Prod.fst = some 1) ∧
    (ProgramPage (dualBank 0x800 [0, FLASH_PGAERR, FLASH_PGAERR, FLASH_PGAERR]) 0x08000003 5
        (fun _ => 0xAA)).map
        (fun r => (r.1, stores (newEvents
          (dualBank 0x800 [0, FLASH_PGAERR, FLASH_PGAERR, FLASH_PGAERR]) r.2))) =
      some (1, [(0x08000000, 0xAAFFFFFF), (0x08000004, 0xAAAAAAAA),
        (0x08000008, 0xAAAAAAAA), (0x0800000C, 0xAAAAAAAA)]) ∧
    (ProgramPage (dualBank 0x800 [0, FLASH_PGAERR]) 0x08000003 5 (fun _ => 0xAA)).map
        (fun r => (r.1, (newEvents (dualBank 0x800 [0, FLASH_PGAERR]) r.2).take 13)) =
      some (0, [Event.wr Reg.NSCR1 1, Event.wr Reg.NSSR 0x20,
        Event.bufRead 0, Event.bufRead 1, Event.bufRead 2, Event.bufRead 3, Event.bufRead 4,
        Event.poll Reg.NSSR 0,
        Event.store32 0x08000000 0xAAFFFFFF, Event.store32 0x08000004 0xAAAAAAAA,
        Event.poll Reg.NSSR 0x20,
        Event.bufRead 5, Event.bufRead 6]) := by
  decide

/-- `ProgramPage` returns 0 or 1. It returns 1 exactly when an error test recorded in its
trace reads a bit of `FLASH_PGERR`; the trace then ends with a 32-bit store, the polls of
a busy wait, that test and the store of `FLASH_PGERR` to the status register, and every
earlier test has passed. When it returns 0 the last thing done is the store of 0 to the
active control register. -/
theorem ProgramPage_result_trace (st : State) (adr N : Nat) (buf : Nat → Byte) :
    ∃ r st', ProgramPage st adr N buf = some (r, st') ∧ (r = 0 ∨ r = 1) ∧
      (r = 1 ↔ ∃ u, Event.check (activeSR (nonSecure st)) u ∈ newEvents st st' ∧
        u &&& FLASH_PGERR ≠ 0) ∧
      (r = 1 → EndsInFailure (activeSR (nonSecure st)) (newEvents st st')) ∧
      (r = 0 → (∃ l, newEvents st st' = l ++ [Event.wr (activeCR (nonSecure st)) 0]) ∧
        st'.regs (activeCR (nonSecure st)) = 0 ∧
        st'.regs (activeCR (nonSecure st)) &&& FLASH_PG = 0) := by
  obtain ⟨b, s1, e, l, hl, hc, hf⟩ := progLoop_result (activeSR (nonSecure st))
    (if nonSecure st then FLASH_PGAERR else 0x000001FF) buf
    (if nonSecure st then st.wr Reg.NSCR1 FLASH_PG
      else (st.wr Reg.SECSR FLASH_PGERR).wr Reg.SECCR1 FLASH_PG)
    { adr := adr, sz := roundSize N, off := 0, align := adr % 8 } (LoopInv_start adr N)
  obtain ⟨l0, hl0, hc0⟩ : ∃ l0, (if nonSecure st then st.wr Reg.NSCR1 FLASH_PG
      else (st.wr Reg.SECSR FLASH_PGERR).wr Reg.SECCR1 FLASH_PG).trace = st.trace ++ l0 ∧
      CleanChecks (activeSR (nonSecure st)) l0 := by
    cases nonSecure st
    · exact ⟨[Event.wr Reg.SECSR FLASH_PGERR, Event.wr Reg.SECCR1 FLASH_PG], by simp,
        fun u hu => by simp at hu⟩
    · exact ⟨[Event.wr Reg.NSCR1 FLASH_PG], by simp, fun u hu => by simp at hu⟩
  rw [hl0] at hl
  rw [ProgramPage_eq]
  have e' : progLoop (activeSR (nonSecure st))
      (if nonSecure st then FLASH_PGAERR else 0x000001FF) buf (roundSize N)
      (if nonSecure st then st.wr Reg.NSCR1 FLASH_PG
        else (st.wr Reg.SECSR FLASH_PGERR).wr Reg.SECCR1 FLASH_PG)
      { adr := adr, sz := roundSize N, off := 0, align := adr % 8 } = some (b, s1) := e
  rw [e']
  cases b
  · -- the loop ran to its end
    have hcl := CleanChecks_append _ _ _ hc0 (hc rfl)
    have hnew : newEvents st (s1.wr (activeCR (nonSecure st)) 0) =
        (l0 ++ l) ++ [Event.wr (activeCR (nonSecure st)) 0] := by
      apply newEvents_append
      rw [wr_trace, hl]
      simp only [List.append_assoc]
    refine ⟨0, s1.wr (activeCR (nonSecure st)) 0, by simp, Or.inl rfl, ?_,
      (fun h => by cases h), fun _ => ⟨⟨l0 ++ l, hnew⟩, by simp, by simp⟩⟩
    constructor
    · intro h; cases h
    · rintro ⟨u, hu, hbad⟩
      rw [hnew] at hu
      rcases List.mem_append.1 hu with h | h
      · exact absurd (hcl u h) hbad
      · simp at h
  · -- an error test failed
    obtain ⟨l1, a, w, ps, u, hle, hps, hbad, hc1⟩ := hf rfl
    have hnew : newEvents st s1 = l0 ++ l := by
      apply newEvents_append
      rw [hl, List.append_assoc]
    refine ⟨1, s1, by simp, Or.inr rfl, ?_, fun _ => ?_, fun h => by cases h⟩
    · constructor
      · intro _
        refine ⟨u, ?_, hbad⟩
        rw [hnew, hle]
        simp
      · intro _; rfl
    · rw [hnew, hle]
      refine ⟨l0 ++ l1, a, w, ps, u, by simp only [List.append_assoc], hps, hbad,
        CleanChecks_append _ _ _ hc0 hc1⟩


/-- C7, amended: for every address, size and buffer, `ProgramPage` returns 0 or 1. Its
accesses are the stores made before the loop, then the passes of the loop, then one last
store. A pass is made of its write units, each preceded by a busy wait, then a busy wait
and the one error test of the pass, a read of the active status register; there is no
other error test. Every pass stores one write unit, except the first pass of a call with
`adr` not a multiple of 8, which stores two: the double word stored first is followed by
the busy wait of the next unit and by no error test of its own. There is a pass exactly
when the rounded size is not 0. `ProgramPage` returns 1 exactly when the error test of the
last pass reads a bit of the mask `FLASH_PGERR` (the seven error flags and `FLASH_EOP`);
every earlier test has read none, and the last store is then that of `FLASH_PGERR` to the
status register: no further store to memory, nothing undone. Otherwise the last store
writes 0 to the active control register, which clears the programming-enable bit, and
the result is 0. Whatever the result, for a 32-bit `adr` the stores to memory are the
first double words of the byte stream of the call, at `adr - adr % 8` and upwards. -/
theorem ProgramPage_result (st : State) (adr N : Nat) (buf : Nat → Byte) :
    ∃ r st', ProgramPage st adr N buf = some (r, st') ∧ (r = 0 ∨ r = 1) ∧
      (r = 1 ↔ ∃ u, Event.check (activeSR (nonSecure st)) u ∈ newEvents st st' ∧
        u &&& FLASH_PGERR ≠ 0) ∧
      (r = 1 → EndsInFailure (activeSR (nonSecure st)) (newEvents st st')) ∧
      (r = 0 → (∃ l, newEvents st st' = l ++ [Event.wr (activeCR (nonSecure st)) 0]) ∧
        st'.regs (activeCR (nonSecure st)) = 0 ∧
        st'.regs (activeCR (nonSecure st)) &&& FLASH_PG = 0) ∧
      (∃ passes : List (Nat × List Event),
        newEvents st st' = prologue st ++ (passes.map Prod.snd).flatten ++
          [if r = 1 then Event.wr (activeSR (nonSecure st)) FLASH_PGERR
            else Event.wr (activeCR (nonSecure st)) 0] ∧
        IsPassList (activeSR (nonSecure st)) (if adr % 8 = 0 then 1 else 2) passes ∧
        (∀ p ∈ passes.dropLast, p.1 &&& FLASH_PGERR = 0) ∧
        (r = 1 ↔ ∃ p, passes.getLast? = some p ∧ p.1 &&& FLASH_PGERR ≠ 0) ∧
        (passes = [] ↔ roundSize N = 0)) ∧
      (adr < W32 → ∃ k, k ≤ unitCount adr N ∧ (r = 0 → k = unitCount adr N) ∧
        stores (newEvents st st') =
          unitStores (adr - adr % 8) (pageStream st.mem adr N buf) k) := by
  obtain ⟨r, st', e, h1, h2, h3, h4⟩ := ProgramPage_result_trace st adr N buf
  obtain ⟨r2, s2, e2, hp⟩ := ProgramPage_passes st adr N buf
  rw [e] at e2
  cases e2
  refine ⟨r, st', e, h1, h2, h3, h4, hp, fun hadr => ?_⟩
  obtain ⟨r3, s3, k, e3, hk1, hk2, hk3⟩ := ProgramPage_stores_upto st adr N buf hadr
  rw [e] at e3
  cases e3
  exact ⟨k, hk1, hk2, hk3⟩

theorem ProgramPage_result_witness :
    ∃ r st', ProgramPage (dualBank 0x800 [0, 0, FLASH_PGAERR]) 0x08000000 16
        (fun _ => 0xAA) = some (r, st') ∧ r = 1 ∧
      EndsInFailure (activeSR (nonSecure (dualBank 0x800 [0, 0, FLASH_PGAERR])))
        (newEvents (dualBank 0x800 [0, 0, FLASH_PGAERR]) st') ∧
      ∃ passes : List (Nat × List Event),
        IsPassList (activeSR (nonSecure (dualBank 0x800 [0, 0, FLASH_PGAERR]))) 1 passes ∧
        ∃ p, passes.getLast? = some p ∧ p.1 &&& FLASH_PGERR ≠ 0 := by
  obtain ⟨r, st', e, _, _, h1, _, ⟨passes, _, hl, _, hb, _⟩, _⟩ := ProgramPage_result
    (dualBank 0x800 [0, 0, FLASH_PGAERR]) 0x08000000 16 (fun _ => 0xAA)
  have hr : (ProgramPage (dualBank 0x800 [0, 0, FLASH_PGAERR]) 0x08000000 16
      (fun _ => 0xAA)).map Prod.fst = some 1 := by decide
  rw [e] at hr
  have hr1 : r = 1 := by simpa using hr
  exact ⟨r, st', e, hr1, h1 hr1, passes, hl, hb.1 hr1⟩
/-! ## Buffer reads of ProgramPage -/

/-- C8: for every address (aligned or not), size `N` and buffer, `ProgramPage` returns,
and every byte it reads from the caller buffer lies at an offset below
`R = (N + 15) & ~15`, which is at most `N + 15`: at most 15 bytes past the declared size
are read. Accordingly the outcome is the same for any other buffer with the same bytes
at the offsets below `R`. -/
theorem ProgramPage_buffer_reads (st : State) (adr N : Nat) (buf : Nat → Byte) :
    ∃ r st', ProgramPage st adr N buf = some (r, st') ∧
      (∀ off, Event.bufRead off ∈ newEvents st st' → off < roundSize N) ∧
      roundSize N ≤ N + 15 ∧
      (∀ buf' : Nat → Byte, (∀ o, o < roundSize N → buf' o = buf o) →
        ProgramPage st adr N buf' = some (r, st')) := by
  obtain ⟨r, st', e, _, hE, _⟩ := ProgramPage_emits
    (fun e => ∀ o, e = Event.bufRead o → o < roundSize N) st adr N buf
    (fun _ _ h => by cases h) (fun _ _ h => by cases h) (fun _ _ h => by cases h)
    (fun _ _ h => by cases h) (fun _ _ _ h => by cases h)
    (fun o ho _ h => by cases h; exact ho)
  refine ⟨r, st', e, fun off hm => hE.emNew _ hm off rfl, ?_, ?_⟩
  · rw [roundSize_eq]
    have : (N + 15) % W32 ≤ N + 15 := Nat.mod_le _ _
    omega
  · intro buf' hb
    rw [ProgramPage_congr st adr N buf' buf hb, e]

theorem ProgramPage_buffer_reads_witness :
    ∃ r st', ProgramPage scenarioState 0x08000003 5 (scenarioBuf 0x00) = some (r, st') ∧
      (∀ off, Event.bufRead off ∈ newEvents scenarioState st' → off < 16) ∧
      ProgramPage scenarioState 0x08000003 5
        (fun i => if i < 16 then scenarioBuf 0x00 i else 0x77) = some (r, st') := by
  obtain ⟨r, st', e, h1, _, h3⟩ :=
    ProgramPage_buffer_reads scenarioState 0x08000003 5 (scenarioBuf 0x00)
  have hR : roundSize 5 = 16 := by decide
  rw [hR] at h1 h3
  exact ⟨r, st', e, h1, h3 _ (fun o ho => by simp only [ho, if_true])⟩

/-! ## The register set of the active security domain -/

theorem nonSecure_iff (st : State) :
    nonSecure st = true ↔
      (st.regs Reg.OPTR &&& FLASH_OPTR_TZEN = 0 ∨
        st.regs Reg.OPTR &&& FLASH_OPTR_RDP = FLASH_OPTR_RDP_55) := by
  unfold nonSecure GetFlashSecureMode
  by_cases h : st.regs Reg.OPTR &&& FLASH_OPTR_TZEN = 0 <;> simp [h]

/-- C9: for each of `Init`, `UnInit`, `EraseChip`, `EraseSector` and `ProgramPage` and
every initial state: if the TZEN bit of the option register is clear or its RDP field
equals `0x55`, every register of the flash controller the operation stores to is one of
NSKEYR, NSSR, NSCR1 and every other register of the controller (SECKEYR, SECSR, SECCR1,
the SECBBR registers) is unchanged; otherwise every register it stores to is one of
SECKEYR, SECSR, SECCR1, SECBBR1..4, SECBB2R1..4 and every other one (NSKEYR, NSSR,
NSCR1) is unchanged. -/
theorem domain_confinement (st : State) (adr clk fnc sz : Nat) (buf : Nat → Byte) :
    ((st.regs Reg.OPTR &&& FLASH_OPTR_TZEN = 0 ∨
        st.regs Reg.OPTR &&& FLASH_OPTR_RDP = FLASH_OPTR_RDP_55) →
      WritesOnly isNonSecureReg st (Init st adr clk fnc).2 ∧
      WritesOnly isNonSecureReg st (UnInit st fnc).2 ∧
      WritesOnly isNonSecureReg st (EraseChip st).2 ∧
      WritesOnly isNonSecureReg st (EraseSector st adr).2 ∧
      ∃ r st', ProgramPage st adr sz buf = some (r, st') ∧
        WritesOnly isNonSecureReg st st') ∧
    (¬ (st.regs Reg.OPTR &&& FLASH_OPTR_TZEN = 0 ∨
        st.regs Reg.OPTR &&& FLASH_OPTR_RDP = FLASH_OPTR_RDP_55) →
      WritesOnly isSecureReg st (Init st adr clk fnc).2 ∧
      WritesOnly isSecureReg st (UnInit st fnc).2 ∧
      WritesOnly isSecureReg st (EraseChip st).2 ∧
      WritesOnly isSecureReg st (EraseSector st adr).2 ∧
      ∃ r st', ProgramPage st adr sz buf = some (r, st') ∧
        WritesOnly isSecureReg st st') := by
  have h1 := Init_confined st adr clk fnc
  have h2 := UnInit_confined st fnc
  have h3 := EraseChip_confined st
  have h4 := EraseSector_confined st adr
  obtain ⟨r, st', e, h5⟩ := ProgramPage_confined st adr sz buf
  constructor
  · intro h
    have hn : nonSecure st = true := (nonSecure_iff st).2 h
    rw [hn] at h1 h2 h3 h4 h5
    exact ⟨h1.cfOnly, h2.cfOnly, h3.cfOnly, h4.cfOnly, r, st', e,
      h5.cfOnly⟩
  · intro h
    have hn : nonSecure st = false := by
      cases hb : nonSecure st
      · rfl
      · exact absurd ((nonSecure_iff st).1 hb) h
    rw [hn] at h1 h2 h3 h4 h5
    exact ⟨h1.cfOnly, h2.cfOnly, h3.cfOnly, h4.cfOnly, r, st', e,
      h5.cfOnly⟩

theorem domain_confinement_witness :
    ((dualBank 0x800 []).regs Reg.OPTR &&& FLASH_OPTR_TZEN = 0 ∨
      (dualBank 0x800 []).regs Reg.OPTR &&& FLASH_OPTR_RDP = FLASH_OPTR_RDP_55) ∧
    WritesOnly isNonSecureReg (dualBank 0x800 []) (EraseSector (dualBank 0x800 []) 0x08000000).2 :=
  ⟨Or.inl (by decide),
    ((domain_confinement (dualBank 0x800 []) 0x08000000 0 0 0 (fun _ => 0)).1
      (Or.inl (by decide))).2.2.2.1⟩

/-! ## Order of the accesses of EraseSector -/

/-- Whatever the state and the address, the first thing `EraseSector` does is store
`FLASH_PGAERR` to the active status register: no read of the status register comes
before its stores to the status and control registers. -/
theorem EraseSector_first_access (st : State) (adr : Nat) :
    ∃ l, newEvents st (EraseSector st adr).2 =
      Event.wr (activeSR (nonSecure st)) FLASH_PGAERR :: l := by
  unfold newEvents
  simp only [EraseSector, eraseStart, selectPage]
  split_ifs <;> simp

/-- C10 fails on the code: `EraseSector 0x08000000` on a non-secure 2 MiB dual-bank part
with an idle controller stores to the status register and five times to the control
register (reset of the error flag, page-erase enable, bank select, page number twice,
start bit) before its first read of the status register, which is the busy poll after
the start bit. -/
theorem EraseSector_stores_before_poll :
    newEvents (dualBank 0x800 [0, 0])
        (EraseSector (dualBank 0x800 [0, 0]) 0x08000000).2 =
      [Event.wr Reg.NSSR 0x20, Event.wr Reg.NSCR1 0x2, Event.wr Reg.NSCR1 0x2,
        Event.wr Reg.NSCR1 0x2, Event.wr Reg.NSCR1 0x2, Event.wr Reg.NSCR1 0x10002,
        Event.poll Reg.NSSR 0, Event.check Reg.NSSR 0,
        Event.wr Reg.NSCR1 0x10000, Event.wr Reg.NSCR1 0x10000] := by
  decide


/-! ## The sequence of EraseChip -/

theorem testBit_FLASH_MER1 (i : Nat) : FLASH_MER1.testBit i = decide (2 = i) := by
  have : FLASH_MER1 = 2 ^ 2 := by decide
  rw [this, Nat.testBit_two_pow]

theorem testBit_FLASH_MER2 (i : Nat) : FLASH_MER2.testBit i = decide (15 = i) := by
  have : FLASH_MER2 = 2 ^ 15 := by decide
  rw [this, Nat.testBit_two_pow]

theorem and_FLASH_MER1_eq_zero (x : Nat) : x &&& FLASH_MER1 = 0 ↔ x.testBit 2 = false :=
  and_two_pow_eq_zero_iff x 2

theorem and_FLASH_MER2_eq_zero (x : Nat) : x &&& FLASH_MER2 = 0 ↔ x.testBit 15 = false :=
  and_two_pow_eq_zero_iff x 15

theorem and_FLASH_MER2_congr (x y : Nat) (h : x.testBit 15 = y.testBit 15) :
    x &&& FLASH_MER2 = y &&& FLASH_MER2 :=
  and_two_pow_congr x y 15 h

/-- The trace of the mass erase of one bank and the value it leaves in the control
register. -/
theorem massErase_trace (st : State) (sr cr : Reg) (mer : Nat) :
    (massErase st sr cr mer).trace =
      st.trace ++ bankErase cr (st.regs cr) mer (pollBusy sr st.hw).1 ∧
    (massErase st sr cr mer).regs cr = (st.regs cr ||| mer ||| FLASH_STRT) &&& not32 mer ∧
    (massErase st sr cr mer).hw = (pollBusy sr st.hw).2 := by
  simp [massErase, bankErase]

theorem writesTo_append (r : Reg) (l1 l2 : List Event) :
    writesTo r (l1 ++ l2) = writesTo r l1 ++ writesTo r l2 := by
  induction l1 with
  | nil => rfl
  | cons e l ih =>
    cases e <;> simp [writesTo, ih]
    split_ifs <;> simp

theorem writesTo_polls (r sr : Reg) (l : List Event) (h : ∀ e ∈ l, ∃ p, e = Event.poll sr p) :
    writesTo r l = [] := by
  induction l with
  | nil => rfl
  | cons e l ih =>
    obtain ⟨p, rfl⟩ := h e (List.mem_cons_self _ _)
    simp [writesTo, ih (fun x hx => h x (List.mem_cons_of_mem _ hx))]

/-- What `EraseChip` appends to the trace and the value it leaves in the active control
register, which held `c` on entry: a busy wait, the reset of the error flag, the mass
erase of bank 1 and, on a dual-bank part only, the mass erase of bank 2. -/
theorem EraseChip_trace (st : State) :
    ∃ ps0 ps1, IsBusyWait (activeSR (nonSecure st)) ps0 ∧
      IsBusyWait (activeSR (nonSecure st)) ps1 ∧
      (GetFlashType st ≠ 1 →
        newEvents st (EraseChip st).2 =
          ps0 ++ [Event.wr (activeSR (nonSecure st)) FLASH_PGAERR] ++
            bankErase (activeCR (nonSecure st)) (st.regs (activeCR (nonSecure st)))
              FLASH_MER1 ps1 ++ [Event.dsb] ∧
        (EraseChip st).2.regs (activeCR (nonSecure st)) =
          (st.regs (activeCR (nonSecure st)) ||| FLASH_MER1 ||| FLASH_STRT) &&&
            not32 FLASH_MER1) ∧
      (GetFlashType st = 1 → ∃ ps2, IsBusyWait (activeSR (nonSecure st)) ps2 ∧
        newEvents st (EraseChip st).2 =
          ps0 ++ [Event.wr (activeSR (nonSecure st)) FLASH_PGAERR] ++
            bankErase (activeCR (nonSecure st)) (st.regs (activeCR (nonSecure st)))
              FLASH_MER1 ps1 ++
            bankErase (activeCR (nonSecure st))
              ((st.regs (activeCR (nonSecure st)) ||| FLASH_MER1 ||| FLASH_STRT) &&&
                not32 FLASH_MER1) FLASH_MER2 ps2 ++ [Event.dsb] ∧
        (EraseChip st).2.regs (activeCR (nonSecure st)) =
          ((st.regs (activeCR (nonSecure st)) ||| FLASH_MER1 ||| FLASH_STRT) &&&
            not32 FLASH_MER1 ||| FLASH_MER2 ||| FLASH_STRT) &&& not32 FLASH_MER2) := by
  have hne := activeSR_ne_activeCR (nonSecure st)
  have hc : ((st.waitNotBusy (activeSR (nonSecure st))).wr (activeSR (nonSecure st))
      FLASH_PGAERR).regs (activeCR (nonSecure st)) = st.regs (activeCR (nonSecure st)) := by
    rw [wr_regs, Function.update_noteq hne.symm, waitNotBusy_regs]
  have ht : GetFlashType ((st.waitNotBusy (activeSR (nonSecure st))).wr
      (activeSR (nonSecure st)) FLASH_PGAERR) = GetFlashType st := rfl
  obtain ⟨t1, r1, w1⟩ := massErase_trace ((st.waitNotBusy (activeSR (nonSecure st))).wr
    (activeSR (nonSecure st)) FLASH_PGAERR) (activeSR (nonSecure st))
    (activeCR (nonSecure st)) FLASH_MER1
  rw [hc] at t1 r1
  refine ⟨(pollBusy (activeSR (nonSecure st)) st.hw).1,
    (pollBusy (activeSR (nonSecure st)) ((st.waitNotBusy (activeSR (nonSecure st))).wr
      (activeSR (nonSecure st)) FLASH_PGAERR).hw).1,
    pollBusy_isBusyWait _ _, pollBusy_isBusyWait _ _, fun h1 => ?_, fun h1 => ?_⟩
  · constructor
    · apply newEvents_append
      simp only [EraseChip, ht, if_neg h1, log_trace, t1, wr_trace, waitNotBusy_trace,
        List.append_assoc]
    · simp only [EraseChip, ht, if_neg h1, log_regs, r1]
  · obtain ⟨t2, r2, _⟩ := massErase_trace (massErase ((st.waitNotBusy
      (activeSR (nonSecure st))).wr (activeSR (nonSecure st)) FLASH_PGAERR)
      (activeSR (nonSecure st)) (activeCR (nonSecure st)) FLASH_MER1)
      (activeSR (nonSecure st)) (activeCR (nonSecure st)) FLASH_MER2
    rw [r1] at t2 r2
    refine ⟨(pollBusy (activeSR (nonSecure st)) (massErase ((st.waitNotBusy
      (activeSR (nonSecure st))).wr (activeSR (nonSecure st)) FLASH_PGAERR)
      (activeSR (nonSecure st)) (activeCR (nonSecure st)) FLASH_MER1).hw).1,
      pollBusy_isBusyWait _ _, ?_, ?_⟩
    · apply newEvents_append
      simp only [EraseChip, ht, if_pos h1, log_trace, t2, t1, wr_trace, waitNotBusy_trace,
        List.append_assoc]
    · simp only [EraseChip, ht, if_pos h1, log_regs, r2]

/-- C11, as stated, fails: `EraseChip` only clears the bits it has set itself. On a
single-bank part whose non-secure control register holds `FLASH_MER2` on entry, every
value it stores to that register has `FLASH_MER2` set, and so has the register on
return. -/
theorem EraseChip_sequence_counterexample :
    GetFlashType (singleBank FLASH_MER2 []) = 0 ∧
    (EraseChip (singleBank FLASH_MER2 [])).1 = 0 ∧
    writesTo Reg.NSCR1 (newEvents (singleBank FLASH_MER2 [])
      (EraseChip (singleBank FLASH_MER2 [])).2) = [0x8004, 0x18004, 0x18000] ∧
    (EraseChip (singleBank FLASH_MER2 [])).2.regs Reg.NSCR1 = 0x18000 ∧
    0x18000 &&& FLASH_MER2 ≠ 0 := by
  decide

/-- C11, amended: for every initial state `EraseChip` returns 0, and after a busy wait
and the reset of the error flag its stores to the active control register, which holds
`c` on entry, are in order: set MER1 (`c | MER1`), set STRT, a busy wait, clear MER1,
followed exactly when `GetFlashType() = 1` by set MER2, set STRT, a busy wait, clear
MER2; the busy waits read the active status register until the busy flag is clear. On a
part that is not dual-bank no store changes MER2: every value stored has the bit as it
was in `c`. On return MER1 is clear, and MER2 is clear when the part is dual-bank or
MER2 was clear on entry. -/
theorem EraseChip_sequence (st : State) :
    (EraseChip st).1 = 0 ∧
    (∃ ps0 ps1, IsBusyWait (activeSR (nonSecure st)) ps0 ∧
      IsBusyWait (activeSR (nonSecure st)) ps1 ∧
      (GetFlashType st ≠ 1 →
        newEvents st (EraseChip st).2 =
          ps0 ++ [Event.wr (activeSR (nonSecure st)) FLASH_PGAERR] ++
            bankErase (activeCR (nonSecure st)) (st.regs (activeCR (nonSecure st)))
              FLASH_MER1 ps1 ++ [Event.dsb]) ∧
      (GetFlashType st = 1 → ∃ ps2, IsBusyWait (activeSR (nonSecure st)) ps2 ∧
        newEvents st (EraseChip st).2 =
          ps0 ++ [Event.wr (activeSR (nonSecure st)) FLASH_PGAERR] ++
            bankErase (activeCR (nonSecure st)) (st.regs (activeCR (nonSecure st)))
              FLASH_MER1 ps1 ++
            bankErase (activeCR (nonSecure st))
              ((st.regs (activeCR (nonSecure st)) ||| FLASH_MER1 ||| FLASH_STRT) &&&
                not32 FLASH_MER1) FLASH_MER2 ps2 ++ [Event.dsb])) ∧
    (GetFlashType st ≠ 1 →
      ∀ v ∈ writesTo (activeCR (nonSecure st)) (newEvents st (EraseChip st).2),
        v &&& FLASH_MER2 = st.regs (activeCR (nonSecure st)) &&& FLASH_MER2) ∧
    (EraseChip st).2.regs (activeCR (nonSecure st)) &&& FLASH_MER1 = 0 ∧
    (GetFlashType st = 1 ∨ st.regs (activeCR (nonSecure st)) &&& FLASH_MER2 = 0 →
      (EraseChip st).2.regs (activeCR (nonSecure st)) &&& FLASH_MER2 = 0) := by
  have hne := activeSR_ne_activeCR (nonSecure st)
  obtain ⟨ps0, ps1, b0, b1, hs, hd⟩ := EraseChip_trace st
  refine ⟨rfl, ⟨ps0, ps1, b0, b1, fun h => (hs h).1, fun h => ?_⟩, fun h => ?_, ?_,
    fun h => ?_⟩
  · obtain ⟨ps2, b2, e, _⟩ := hd h
    exact ⟨ps2, b2, e⟩
  · obtain ⟨vs0, x0, e0, _, _⟩ := b0
    obtain ⟨vs1, x1, e1, _, _⟩ := b1
    have p0 : ∀ e ∈ ps0, ∃ p, e = Event.poll (activeSR (nonSecure st)) p := by
      intro e he
      rw [e0] at he
      rcases List.mem_append.1 he with h1 | h1
      · obtain ⟨u, _, hu⟩ := List.mem_map.1 h1
        exact ⟨u, hu.symm⟩
      · exact ⟨x0, List.mem_singleton.1 h1⟩
    have p1 : ∀ e ∈ ps1, ∃ p, e = Event.poll (activeSR (nonSecure st)) p := by
      intro e he
      rw [e1] at he
      rcases List.mem_append.1 he with h1 | h1
      · obtain ⟨u, _, hu⟩ := List.mem_map.1 h1
        exact ⟨u, hu.symm⟩
      · exact ⟨x1, List.mem_singleton.1 h1⟩
    rw [(hs h).1]
    simp only [bankErase, writesTo_append, writesTo_polls _ _ ps0 p0,
      writesTo_polls _ _ ps1 p1, writesTo, if_neg hne, if_true, List.nil_append,
      List.append_nil, List.cons_append]
    intro v hv
    simp only [List.mem_cons, List.mem_singleton, List.not_mem_nil, or_false] at hv
    apply and_FLASH_MER2_congr
    rcases hv with rfl | rfl | rfl <;>
      simp [Nat.testBit_or, Nat.testBit_and, testBit_not32, testBit_FLASH_MER1,
        testBit_FLASH_STRT]
  · by_cases h : GetFlashType st = 1
    · rw [(hd h).choose_spec.2.2, and_FLASH_MER1_eq_zero]
      simp [Nat.testBit_or, Nat.testBit_and, testBit_not32, testBit_FLASH_MER1,
        testBit_FLASH_MER2, testBit_FLASH_STRT]
    · rw [(hs h).2]
      exact and_not32_and_self _ _
  · by_cases h1 : GetFlashType st = 1
    · rw [(hd h1).choose_spec.2.2]
      exact and_not32_and_self _ _
    · have h0 : st.regs (activeCR (nonSecure st)) &&& FLASH_MER2 = 0 := by
        rcases h with h | h
        · exact absurd h h1
        · exact h
      rw [and_FLASH_MER2_eq_zero] at h0
      rw [(hs h1).2, and_FLASH_MER2_eq_zero]
      simp [Nat.testBit_or, Nat.testBit_and, testBit_not32, testBit_FLASH_MER1,
        testBit_FLASH_STRT, h0]

theorem EraseChip_sequence_witness :
    (GetFlashType (dualBank 0x800 [FLASH_BSY, 0]) = 1 ∨
      (dualBank 0x800 [FLASH_BSY, 0]).regs
        (activeCR (nonSecure (dualBank 0x800 [FLASH_BSY, 0]))) &&& FLASH_MER2 = 0) ∧
    (EraseChip (dualBank 0x800 [FLASH_BSY, 0])).2.regs
      (activeCR (nonSecure (dualBank 0x800 [FLASH_BSY, 0]))) &&& FLASH_MER2 = 0 :=
  ⟨Or.inl (by decide),
    (EraseChip_sequence (dualBank 0x800 [FLASH_BSY, 0])).2.2.2.2 (Or.inl (by decide))⟩

/-! ## Write units of ProgramPage -/

/-- C12: for every address `adr` (aligned or not), size and buffer, `ProgramPage`
returns, with whatever result, and its 32-bit stores to memory are a sequence of write
units: each is a store at an address `w` that is a multiple of 8 followed by a store at
`w + 4` (`writeUnits` reads the list of stores as such pairs and gives the addresses
`w`), and the addresses `w` of the units of one call are all different. -/
theorem ProgramPage_write_units (st : State) (adr sz : Nat) (buf : Nat → Byte)
    (hadr : adr < W32) :
    ∃ r st' ws, ProgramPage st adr sz buf = some (r, st') ∧
      writeUnits (stores (newEvents st st')) = some ws ∧
      (∀ w ∈ ws, w % 8 = 0) ∧ ws.Nodup := by
  obtain ⟨r, st', k, e, hk, _, hs⟩ := ProgramPage_stores_upto st adr sz buf hadr
  have hA : (adr - adr % 8) % 8 = 0 := by omega
  refine ⟨r, st', _, e, by rw [hs]; exact writeUnits_unitStores _ _ hA k, ?_,
    unit_addresses_nodup _ k (Nat.le_trans hk (unitCount_le adr sz))⟩
  intro w hw
  obtain ⟨i, _, rfl⟩ := List.mem_map.1 hw
  unfold W32
  omega

theorem ProgramPage_write_units_witness :
    0x08000003 < W32 ∧
    ∃ r st' ws, ProgramPage (dualBank 0x800 [0, FLASH_PGAERR, FLASH_PGAERR, FLASH_PGAERR])
        0x08000003 5 (fun _ => 0xAA) = some (r, st') ∧
      writeUnits (stores (newEvents
        (dualBank 0x800 [0, FLASH_PGAERR, FLASH_PGAERR, FLASH_PGAERR]) st')) = some ws ∧
      (∀ w ∈ ws, w % 8 = 0) ∧ ws.Nodup :=
  ⟨by decide, ProgramPage_write_units
    (dualBank 0x800 [0, FLASH_PGAERR, FLASH_PGAERR, FLASH_PGAERR]) 0x08000003 5
    (fun _ => 0xAA) (by decide)⟩

/-! ## The number of write units of ProgramPage -/

/-- C13, as stated, fails: the error test of the loop also looks at the end-of-operation
flag. With a status register that reads `FLASH_EOP` (busy flag clear, none of the seven
error flags set), `ProgramPage 0x08000000 16 buf` leaves its loop after the first pass
and returns 1: it has stored one write unit, at `0x08000000`, and not the
`R / 8 = 2` units of the rounded size `R = 16`. -/
theorem ProgramPage_unit_count_counterexample :
    FLASH_EOP &&& FLASH_BSY = 0 ∧
    FLASH_EOP &&& (FLASH_OPERR ||| FLASH_PROGERR ||| FLASH_WRPERR ||| FLASH_PGAERR |||
      FLASH_SIZERR ||| FLASH_PGSERR ||| FLASH_OPTWERR) = 0 ∧
    0x08000000 % 8 = 0 ∧ roundSize 16 / 8 = 2 ∧
    (ProgramPage (dualBank 0x800 [FLASH_EOP, FLASH_EOP, FLASH_EOP]) 0x08000000 16
        (fun _ => 0xAA)).map
        (fun r => (r.1, writeUnits (stores (newEvents
          (dualBank 0x800 [FLASH_EOP, FLASH_EOP, FLASH_EOP]) r.2)))) =
      some (1, some [0x08000000]) := by
  decide

/-- C13, amended: for every address `adr`, size `N` and buffer, when every read of the
status register shows the busy flag clear and no bit of `FLASH_PGERR` (the seven error
flags and `FLASH_EOP`), the loop of `ProgramPage` ends and the call returns 0; the values
taken by the counter `sz` decrease strictly from `R = (N + 15) & ~15` (modulo `2 ^ 32`)
down to 0, so no subtraction wraps; and the stores of the call are write units, exactly
`R / 8` of them when `adr` is a multiple of 8, exactly `R / 8 + 1` when `R > 0` and `adr`
is not a multiple of 8, and none when `R = 0`. -/
theorem ProgramPage_unit_count (st : State) (adr N : Nat) (buf : Nat → Byte)
    (hadr : adr < W32) (hq : Quiet st.hw) :
    ∃ st' ws, ProgramPage st adr N buf = some (0, st') ∧
      writeUnits (stores (newEvents st st')) = some ws ∧
      (adr % 8 = 0 → ws.length = roundSize N / 8) ∧
      (0 < roundSize N → adr % 8 ≠ 0 → ws.length = roundSize N / 8 + 1) ∧
      (roundSize N = 0 → ws.length = 0) ∧
      List.Chain' (fun a b => b < a) (ProgramPage_szTrace st adr N buf) ∧
      (ProgramPage_szTrace st adr N buf).head? = some (roundSize N) ∧
      (ProgramPage_szTrace st adr N buf).getLast? = some 0 := by
  obtain ⟨st', e⟩ := ProgramPage_quiet st adr N buf hq
  obtain ⟨r, s2, k, e2, _, hk, hs⟩ := ProgramPage_stores_upto st adr N buf hadr
  rw [e] at e2
  cases e2
  have hk0 := hk rfl
  have hA : (adr - adr % 8) % 8 = 0 := by omega
  have h2 := roundSize_mod N
  have hc := ProgramPage_szTrace_chain st adr N buf hq
  refine ⟨st', _, e, by rw [hs]; exact writeUnits_unitStores _ _ hA k, ?_, ?_, ?_, hc⟩
  · intro ha
    rw [List.length_map, List.length_range, hk0]
    unfold unitCount
    split_ifs <;> omega
  · intro hR ha
    rw [List.length_map, List.length_range, hk0]
    unfold unitCount
    rw [if_neg (by omega)]
    omega
  · intro hR
    rw [List.length_map, List.length_range, hk0]
    unfold unitCount
    rw [if_pos hR]

theorem ProgramPage_unit_count_witness :
    0x08000003 < W32 ∧ Quiet (dualBank 0x800 []).hw ∧
    ∃ st' ws, ProgramPage (dualBank 0x800 []) 0x08000003 5 (fun _ => 0xAA) = some (0, st') ∧
      writeUnits (stores (newEvents (dualBank 0x800 []) st')) = some ws ∧
      ws.length = 3 ∧
      (ProgramPage_szTrace (dualBank 0x800 []) 0x08000003 5 (fun _ => 0xAA)).getLast? =
        some 0 := by
  obtain ⟨st', ws, e, hw, _, h1, _, _, _, h2⟩ := ProgramPage_unit_count (dualBank 0x800 [])
    0x08000003 5 (fun _ => 0xAA) (by decide) (fun _ h => by cases h)
  exact ⟨by decide, (fun _ h => by cases h), st', ws, e, hw,
    h1 (by decide) (by decide), h2⟩
end FlashPrg
